import Mathlib

/-! Tuvok: metadata view and RAW ingestion.

A shallow embedding of `IO/uvfMetadata.cpp` (the read-side metadata view) and of
`RAWConverter.cpp` (the ingestion entry points), with the properties of the
specification stated and proved over the embedded code.

Conventions of the embedding.

* `UINT64` / `size_t` values are natural numbers; where the C++ arithmetic can
  wrap, the wrap is written explicitly with `u64`.
* A `std::vector` is a `List`; an access outside the vector (undefined behaviour
  in C++) makes the embedded function return `none`.
* A `double` is a `Dbl`: the IEEE-754 values as far as the comparison operators
  can tell them apart.  No rounding arithmetic is performed on doubles by the
  embedded code, only comparisons.
* A `float` used for a brick extent is an exact rational (`FLOATVECTOR3`).
* Collaborators whose code is outside the two files (the raster block, the
  max/min block, the file layer, the quantizers, the bricker) are parameters.
-/

namespace Tuvok

/-! ## Basic types -/

/-- Modelled from the spec: the `double` type of the acceleration entries, as seen by
the comparison operators: not-a-number, the two infinities and the finite values
(a finite double is a dyadic rational; both zeros compare equal). -/
inductive Dbl where
  | nan : Dbl
  | negInf : Dbl
  | fin (q : ℚ) : Dbl
  | posInf : Dbl
deriving DecidableEq

/-- The C++ operator `a <= b` on doubles (IEEE-754: false as soon as one side is NaN). -/
def Dbl.le : Dbl → Dbl → Bool
  | .nan, _ => false
  | _, .nan => false
  | .negInf, _ => true
  | _, .posInf => true
  | .fin a, .fin b => decide (a ≤ b)
  | .fin _, .negInf => false
  | .posInf, .negInf => false
  | .posInf, .fin _ => false

/-- The C++ operator `a >= b` on doubles. -/
def Dbl.ge (a b : Dbl) : Bool := Dbl.le b a

/-- The wrap of unsigned 64-bit arithmetic. -/
def u64 (n : Nat) : Nat := n % 2 ^ 64

/-- Modelled from the spec: the type `VECTOR3<UINT64>` (three unsigned 64-bit integers). -/
structure UINT64VECTOR3 where
  x : Nat
  y : Nat
  z : Nat
deriving DecidableEq, Repr

/-- Modelled from the spec: `VECTOR3<UINT64>::maxVal`, the single largest of the three axes. -/
def UINT64VECTOR3.maxVal (v : UINT64VECTOR3) : Nat := max v.x (max v.y v.z)

/-- Modelled from the spec: `VECTOR3<UINT64>::volume`, the product of the three components,
in unsigned 64-bit arithmetic. -/
def UINT64VECTOR3.volume (v : UINT64VECTOR3) : Nat := u64 (v.x * v.y * v.z)

/-- Modelled from the spec: the type `VECTOR3<float>`; a component is given by its value, a
rational number. -/
structure FLOATVECTOR3 where
  x : ℚ
  y : ℚ
  z : ℚ
deriving DecidableEq

/-- Modelled from the spec: the type `VECTOR3<double>`. -/
structure DOUBLEVECTOR3 where
  x : Dbl
  y : Dbl
  z : Dbl
deriving DecidableEq

/-- Modelled from the spec: the acceleration entry of one brick,
`{minScalar, maxScalar, minGradient, maxGradient}`. -/
structure InternalMaxMinElement where
  minScalar : Dbl
  maxScalar : Dbl
  minGradient : Dbl
  maxGradient : Dbl
deriving DecidableEq

/-- The value a `std::vector::resize` fills new slots with. -/
def InternalMaxMinElement.blank : InternalMaxMinElement :=
  ⟨Dbl.fin 0, Dbl.fin 0, Dbl.fin 0, Dbl.fin 0⟩

/-- Modelled from the spec: the type `NDBrickKey`, a pair of the LOD index vector and the
brick index vector (the code reads `k.first[0]` and `k.second[0]`). -/
structure NDBrickKey where
  first : List Nat
  second : List UINT64VECTOR3
deriving DecidableEq

/-- The part of `RasterDataBlock` the metadata view reads.  The three geometry
queries are answered by the block (the brick geometry oracle). -/
structure RasterDataBlock where
  ulDomainSemantics : List Nat
  ulDomainSize : List Nat
  ulLODLevelCount : List Nat
  ulBrickOverlap : List Nat
  ulBrickSize : List Nat
  dDomainTransformation : List Dbl
  ulElementDimensionSize : List Nat
  ulElementBitSize : List (List Nat)
  bSignedElement : List (List Bool)
  GetLODDomainSize : List Nat → List Nat
  GetBrickCount : List Nat → List Nat
  GetBrickSize : List Nat → List Nat → List Nat

/-- The part of `MaxMinDataBlock` the metadata view reads: the entry with a given
serialized index, for a given component. -/
structure MaxMinDataBlock where
  GetValue : Nat → Nat → InternalMaxMinElement

/-! ## `UVFMetadata` -/

/-- The members of `UVFMetadata`. -/
structure UVFMetadata where
  m_pVolumeDataBlock : Option RasterDataBlock
  m_pMaxMinData : Option MaxMinDataBlock
  m_bIsSameEndianness : Bool
  m_iLODLevel : Nat
  m_aOverlap : UINT64VECTOR3
  m_aMaxBrickSize : UINT64VECTOR3
  m_aScale : DOUBLEVECTOR3
  m_aDomainSize : List UINT64VECTOR3
  m_vaBrickCount : List UINT64VECTOR3
  m_vvaBrickSize : List (List (List (List UINT64VECTOR3)))
  m_vvaMaxMin : List (List (List (List InternalMaxMinElement)))

/-- The default constructor `UVFMetadata::UVFMetadata()`: both block pointers are null. -/
def UVFMetadata.empty : UVFMetadata where
  m_pVolumeDataBlock := none
  m_pMaxMinData := none
  m_bIsSameEndianness := false
  m_iLODLevel := 0
  m_aOverlap := ⟨0, 0, 0⟩
  m_aMaxBrickSize := ⟨0, 0, 0⟩
  m_aScale := ⟨Dbl.fin 0, Dbl.fin 0, Dbl.fin 0⟩
  m_aDomainSize := []
  m_vaBrickCount := []
  m_vvaBrickSize := []
  m_vvaMaxMin := []

/-- The first three components of a vector, as a `UINT64VECTOR3`. -/
def firstThree (v : List Nat) : Option UINT64VECTOR3 := do
  let a ← v[0]?
  let b ← v[1]?
  let c ← v[2]?
  pure ⟨a, b, c⟩

/-- The brick extents of one level: the loops over `x`, `y`, `z` of the constructor,
each innermost step pushing the extent the raster block reports. -/
def brickSizesOfLevel (rdb : RasterDataBlock) (j : Nat) (cnt : UINT64VECTOR3) :
    Option (List (List (List UINT64VECTOR3))) :=
  (List.range cnt.x).mapM fun x =>
    (List.range cnt.y).mapM fun y =>
      (List.range cnt.z).mapM fun z =>
        firstThree (rdb.GetBrickSize [j] [x, y, z])

/-- The table a level of `m_vvaMaxMin` is resized to. -/
def blankMaxMinLevel (cnt : UINT64VECTOR3) : List (List (List InternalMaxMinElement)) :=
  List.replicate cnt.x (List.replicate cnt.y (List.replicate cnt.z InternalMaxMinElement.blank))

/-- The assignment `t[lod][x][y][z] = e`; `none` when an index is outside its vector. -/
def assign4 {α : Type} (t : List (List (List (List α)))) (lod x y z : Nat) (e : α) :
    Option (List (List (List (List α)))) := do
  let a ← t[lod]?
  let b ← a[x]?
  let c ← b[y]?
  if z < c.length then
    pure (t.set lod (a.set x (b.set y (c.set z e))))
  else none

/-- The read `t[lod][x][y][z]`; `none` when an index is outside its vector. -/
def read4 {α : Type} (t : List (List (List (List α)))) (lod x y z : Nat) : Option α := do
  let a ← t[lod]?
  let b ← a[x]?
  let c ← b[y]?
  c.get? z

/-- The state of the loops that fill `m_vvaMaxMin`: the table and `iSerializedIndex`. -/
structure FillState where
  table : List (List (List (List InternalMaxMinElement)))
  iSerializedIndex : Nat

/-- One step of the innermost loop: `m_vvaMaxMin[lod][x][y][z] = GetValue(iSerializedIndex++, c)`
where `c` is 3 for four-component data and 0 otherwise. -/
def fillStep (rdb : RasterDataBlock) (mm : MaxMinDataBlock) (lod z y : Nat)
    (s : Option FillState) (x : Nat) : Option FillState := do
  let st ← s
  let n ← rdb.ulElementDimensionSize[0]?
  let e := mm.GetValue st.iSerializedIndex (if n = 4 then 3 else 0)
  let t ← assign4 st.table lod x y z e
  pure ⟨t, st.iSerializedIndex + 1⟩

/-- The loops over `lod`, `z`, `y`, `x` (in this nesting order) that fill `m_vvaMaxMin`. -/
def fillMaxMin (rdb : RasterDataBlock) (mm : MaxMinDataBlock) (nLod : Nat)
    (counts : List UINT64VECTOR3) (s0 : FillState) : Option FillState :=
  (List.range nLod).foldl
    (fun s lod =>
      match counts[lod]? with
      | none => none
      | some cnt =>
        (List.range cnt.z).foldl
          (fun s z =>
            (List.range cnt.y).foldl
              (fun s y => (List.range cnt.x).foldl (fillStep rdb mm lod z y) s)
              s)
          s)
    (some s0)

/-- The table `m_vvaMaxMin` of the constructor: left empty without a max/min block;
with one, resized to the brick counts and then filled by the loops of `fillMaxMin`,
`iSerializedIndex` starting at 0. -/
def buildMaxMin (rdb : RasterDataBlock) (pMaxMinData : Option MaxMinDataBlock) (nLod : Nat)
    (counts : List UINT64VECTOR3) : Option (List (List (List (List InternalMaxMinElement)))) :=
  match pMaxMinData with
  | none => some []
  | some mm =>
    (fillMaxMin rdb mm nLod counts ⟨counts.map blankMaxMinLevel, 0⟩).map fun st => st.table

/-- One round of the loop over the levels in the constructor: the domain size, the
brick count and the brick extents of level `j`, as the raster block reports them. -/
def levelGeometry (rdb : RasterDataBlock) (j : Nat) :
    Option (UINT64VECTOR3 × UINT64VECTOR3 × List (List (List UINT64VECTOR3))) := do
  let dom ← firstThree (rdb.GetLODDomainSize [j])
  let cnt ← firstThree (rdb.GetBrickCount [j])
  let sizes ← brickSizesOfLevel rdb j cnt
  pure (dom, cnt, sizes)

/-- The constructor `UVFMetadata::UVFMetadata(pVolumeDataBlock, pMaxMinData, bIsSameEndianness)`.
`none` stands for the failed assertion or an access outside a vector of the block. -/
def UVFMetadata.construct (rdb : RasterDataBlock) (pMaxMinData : Option MaxMinDataBlock)
    (bIsSameEndianness : Bool) : Option UVFMetadata := do
  let iSize := rdb.ulDomainSize.length
  let _ ← (if iSize ≥ 3 then some () else none)
  let nLod ← rdb.ulLODLevelCount[0]?
  let ov ← firstThree rdb.ulBrickOverlap
  let mbs ← firstThree rdb.ulBrickSize
  let s0 ← rdb.dDomainTransformation[0 + (iSize + 1) * 0]?
  let s1 ← rdb.dDomainTransformation[1 + (iSize + 1) * 1]?
  let s2 ← rdb.dDomainTransformation[2 + (iSize + 1) * 2]?
  let levels ← (List.range nLod).mapM (levelGeometry rdb)
  let counts := levels.map fun l => l.2.1
  let maxmin ← buildMaxMin rdb pMaxMinData nLod counts
  pure
    { m_pVolumeDataBlock := some rdb
      m_pMaxMinData := pMaxMinData
      m_bIsSameEndianness := bIsSameEndianness
      m_iLODLevel := nLod
      m_aOverlap := ov
      m_aMaxBrickSize := mbs
      m_aScale := ⟨s0, s1, s2⟩
      m_aDomainSize := levels.map fun l => l.1
      m_vaBrickCount := counts
      m_vvaBrickSize := levels.map fun l => l.2.2
      m_vvaMaxMin := maxmin }

/-- Models `UVFMetadata::GetBrickCount`. -/
def UVFMetadata.GetBrickCount (md : UVFMetadata) (lod : Nat) : Option UINT64VECTOR3 :=
  md.m_vaBrickCount[lod]?

/-- Models `UVFMetadata::GetDomainSize`. -/
def UVFMetadata.GetDomainSize (md : UVFMetadata) (lod : Nat) : Option UINT64VECTOR3 :=
  md.m_aDomainSize[lod]?

/-- Models `UVFMetadata::GetBrickSize`. -/
def UVFMetadata.GetBrickSize (md : UVFMetadata) (k : NDBrickKey) : Option UINT64VECTOR3 := do
  let lod ← k.first[0]?
  let vBrick ← k.second[0]?
  read4 md.m_vvaBrickSize lod vBrick.x vBrick.y vBrick.z

/-- Models `UVFMetadata::GetBitWidth`: `m_pVolumeDataBlock->ulElementBitSize[0][0]`. -/
def UVFMetadata.GetBitWidth (md : UVFMetadata) : Option Nat := do
  let rdb ← md.m_pVolumeDataBlock
  let row ← rdb.ulElementBitSize[0]?
  row[0]?

/-- Models `UVFMetadata::GetComponentCount`. -/
def UVFMetadata.GetComponentCount (md : UVFMetadata) : Option Nat := do
  let rdb ← md.m_pVolumeDataBlock
  rdb.ulElementDimensionSize[0]?

/-- Models `UVFMetadata::GetIsSigned`. -/
def UVFMetadata.GetIsSigned (md : UVFMetadata) : Option Bool := do
  let rdb ← md.m_pVolumeDataBlock
  let row ← rdb.bSignedElement[0]?
  row[0]?

/-- Models `UVFMetadata::GetIsFloat`:
`GetBitWidth() != m_pVolumeDataBlock->ulElementBitSize[0][0]`. -/
def UVFMetadata.GetIsFloat (md : UVFMetadata) : Option Bool := do
  let w ← md.GetBitWidth
  let rdb ← md.m_pVolumeDataBlock
  let row ← rdb.ulElementBitSize[0]?
  let v ← row[0]?
  pure (w != v)

/-- The number of low bits a natural number has beyond 24: halving goes on, for at most
`fuel` steps, until the number is below `2^24`. -/
def excessBits : Nat → Nat → Nat
  | 0, _ => 0
  | fuel + 1, n => if n < 2 ^ 24 then 0 else excessBits fuel (n / 2) + 1

/-- The rounding of `float` arithmetic on a natural number: the 24-bit significand keeps
the 24 leading bits, the low bits are rounded to nearest, a tie to the even significand.
With `e` low bits dropped the result is a multiple of `2^e`. -/
def roundSig24 (n : Nat) : Nat :=
  let e := excessBits n n
  let q := n / 2 ^ e
  let r := n % 2 ^ e
  if 2 * r > 2 ^ e ∨ (2 * r = 2 ^ e ∧ q % 2 = 1) then (q + 1) * 2 ^ e else q * 2 ^ e

/-- The rounding of `float` arithmetic on a value given as a whole number of halves: the
rounding to 24 significant bits does not depend on the scale, and is symmetric in the
sign.  Every `float` of `GetEffectiveBrickSize` is such a value, of a magnitude below
`2^66`, far from overflow and underflow. -/
def roundHalves (h : Int) : Int :=
  if h < 0 then -(roundSig24 h.natAbs : Int) else (roundSig24 h.natAbs : Int)

/-- The `x` axis of `GetEffectiveBrickSize`, as a number of halves.  The extent is converted
from `UINT64` to `float` (`2 * roundSig24 size` halves); `m_aOverlap.x/2.0f` is the overlap
converted to `float` and halved, which is exact (`roundSig24 overlap` halves); under the
guard `count > 1` it is subtracted in `float` arithmetic, each difference rounded, when
`idx > 0`, then when `idx < count - 1`. -/
def effectiveHalvesX (size count idx overlap : Nat) : Int :=
  let half : Int := (roundSig24 overlap : Int)
  let s0 : Int := 2 * (roundSig24 size : Int)
  if count > 1 then
    let s1 := if idx > 0 then roundHalves (s0 - half) else s0
    if idx < count - 1 then roundHalves (s1 - half) else s1
  else s0

/-- The `y` and `z` axes of `GetEffectiveBrickSize`, as a number of halves: as for `x`, with
the two tests in the other order. -/
def effectiveHalvesYZ (size count idx overlap : Nat) : Int :=
  let half : Int := (roundSig24 overlap : Int)
  let s0 : Int := 2 * (roundSig24 size : Int)
  if count > 1 then
    let s1 := if idx < count - 1 then roundHalves (s0 - half) else s0
    if idx > 0 then roundHalves (s1 - half) else s1
  else s0

/-- The `x` axis of `GetEffectiveBrickSize`: the value of the `float` the function
computes. -/
def effectiveAxisX (size count idx overlap : Nat) : ℚ :=
  (effectiveHalvesX size count idx overlap : ℚ) / 2

/-- The `y` and `z` axes of `GetEffectiveBrickSize`: the value of the `float` the function
computes. -/
def effectiveAxisYZ (size count idx overlap : Nat) : ℚ :=
  (effectiveHalvesYZ size count idx overlap : ℚ) / 2

/-- Models `UVFMetadata::GetEffectiveBrickSize`; the components of the result are the values
of the three `float`s. -/
def UVFMetadata.GetEffectiveBrickSize (md : UVFMetadata) (k : NDBrickKey) :
    Option FLOATVECTOR3 := do
  let iLOD ← k.first[0]?
  let vBrick ← k.second[0]?
  let sz ← read4 md.m_vvaBrickSize iLOD vBrick.x vBrick.y vBrick.z
  let cnt ← md.m_vaBrickCount[iLOD]?
  pure
    { x := effectiveAxisX sz.x cnt.x vBrick.x md.m_aOverlap.x
      y := effectiveAxisYZ sz.y cnt.y vBrick.y md.m_aOverlap.y
      z := effectiveAxisYZ sz.z cnt.z vBrick.z md.m_aOverlap.z }

/-- The number of interior faces of brick `i` on an axis with `n` bricks, in the words of
the specification: the low face is interior iff `i > 0`, the high face iff `i < n - 1`. -/
def interiorFaces (n i : Nat) : Nat :=
  (if i > 0 then 1 else 0) + (if i < n - 1 then 1 else 0)

/-- The entry `m_vvaMaxMin[k.first[0]][vBrick.x][vBrick.y][vBrick.z]` of a key. -/
def UVFMetadata.maxMinElement (md : UVFMetadata) (k : NDBrickKey) :
    Option InternalMaxMinElement := do
  let lod ← k.first[0]?
  let vBrick ← k.second[0]?
  read4 md.m_vvaMaxMin lod vBrick.x vBrick.y vBrick.z

/-- Models `UVFMetadata::ContainsData(k, isoval)`. -/
def UVFMetadata.ContainsData1 (md : UVFMetadata) (k : NDBrickKey) (isoval : Dbl) :
    Option Bool :=
  match md.m_pMaxMinData with
  | none => some true
  | some _ => do
    let e ← md.maxMinElement k
    pure (Dbl.le isoval e.maxScalar)

/-- Models `UVFMetadata::ContainsData(k, fMin, fMax)`. -/
def UVFMetadata.ContainsData2 (md : UVFMetadata) (k : NDBrickKey) (fMin fMax : Dbl) :
    Option Bool :=
  match md.m_pMaxMinData with
  | none => some true
  | some _ => do
    let e ← md.maxMinElement k
    pure (Dbl.ge fMax e.minScalar && Dbl.le fMin e.maxScalar)

/-- Models `UVFMetadata::ContainsData(k, fMin, fMax, fMinGradient, fMaxGradient)`. -/
def UVFMetadata.ContainsData4 (md : UVFMetadata) (k : NDBrickKey)
    (fMin fMax fMinGradient fMaxGradient : Dbl) : Option Bool :=
  match md.m_pMaxMinData with
  | none => some true
  | some _ => do
    let e ← md.maxMinElement k
    pure ((Dbl.ge fMax e.minScalar && Dbl.le fMin e.maxScalar)
          && (Dbl.ge fMaxGradient e.minGradient && Dbl.le fMinGradient e.maxGradient))

/-- The order `a ≤ b` on doubles is the C++ comparison. -/
instance : LE Dbl := ⟨fun a b => Dbl.le a b = true⟩

instance (a b : Dbl) : Decidable (a ≤ b) := inferInstanceAs (Decidable (Dbl.le a b = true))

/-- The statement of the specification for one axis, in exact arithmetic: the effective
extent `eff` of brick `idx` (of `count` bricks on the axis, stored extent `size`) is the
stored extent minus half the overlap per interior face; it never exceeds the stored extent,
equals it on a single-brick axis, and a face on the boundary (index 0: the low face, last
index: the high face) is not trimmed, so there only the opposite face counts. -/
def AxisSpec (eff : ℚ) (size count idx overlap : Nat) : Prop :=
  eff = (size : ℚ) - (overlap : ℚ) / 2 * (interiorFaces count idx : ℚ)
  ∧ eff ≤ (size : ℚ)
  ∧ (count = 1 → eff = (size : ℚ))
  ∧ (idx = 0 → eff = (size : ℚ) - (overlap : ℚ) / 2 * (if idx < count - 1 then 1 else 0))
  ∧ (idx = count - 1 → eff = (size : ℚ) - (overlap : ℚ) / 2 * (if idx > 0 then 1 else 0))

/-! ## `RAWConverter`: the collaborators

Every call that leaves `RAWConverter.cpp` is recorded as an `Event`, in program order; the
answers of the collaborators are given by a `World`, each answer a function of the events
so far and of the arguments of the call.  Log output (`MESSAGE`, `WARNING`, `T_ERROR`) is
not recorded. -/

/-- Modelled from the spec: `UVFTables::ElementSemanticTable`, as far as the converter
distinguishes its values. -/
inductive ElementSemanticTable where
  | ES_UNDEFINED : ElementSemanticTable
  | ES_RED : ElementSemanticTable
  | ES_GREEN : ElementSemanticTable
  | ES_BLUE : ElementSemanticTable
  | ES_ALPHA : ElementSemanticTable
  | ES_OTHER (code : Nat) : ElementSemanticTable
deriving DecidableEq, Repr

/-- The source element type a `Quantize<T, unsigned short>` instance is selected for. -/
inductive SrcType where
  | short : SrcType
  | ushort : SrcType
  | float : SrcType
  | int32 : SrcType
  | uint32 : SrcType
  | double : SrcType
  | int64 : SrcType
  | uint64 : SrcType
deriving DecidableEq, Repr

/-- The kinds of data block the converter adds to the UVF container. -/
inductive BlockKind where
  | raster : BlockKind
  | histogram1D : BlockKind
  | histogram2D : BlockKind
  | maxMin : BlockKind
deriving DecidableEq, Repr

/-- The fields `ConvertRAWDataset` sets on the raster block of a timestep before bricking. -/
structure RasterSetup where
  strBlockID : String
  ulDomainSize : List Nat
  ulLODDecFactor : List Nat
  ulLODGroups : List Nat
  ulLODLevelCount : List Nat
  vSem : List ElementSemanticTable
  typeBitWidth : Nat
  typeMantissa : Nat
  typeSigned : Bool
  ulBrickSize : List Nat
  ulBrickOverlap : List Nat
  vScale : List ℚ
deriving DecidableEq

/-- The calls `RAWConverter.cpp` makes to its collaborators, with their answers. -/
inductive Event where
  | openRead (file : String) (iHeaderSkip : Nat) (ok : Bool) : Event
  | create (file : String) (ok : Bool) : Event
  | append (file : String) (ok : Bool) : Event
  | readRAW (file : String) (requested : Nat) (data : List Nat) : Event
  | writeRAW (file : String) (data : List Nat) (written : Nat) : Event
  | close (file : String) : Event
  | remove (file : String) : Event
  | quantizeTo8Bit (iHeaderSkip : Nat) (src dst : String) (iComponentSize iSize : Nat)
      (bSigned bIsFloat : Bool) (result : String) : Event
  | process8Bits (iHeaderSkip : Nat) (src dst : String) (iSize : Nat) (bSigned : Bool)
      (result : String) : Event
  | quantize (ty : SrcType) (iHeaderSkip : Nat) (src dst : String) (iSize : Nat)
      (result : String) : Event
  | rasterBlock (ts : Nat) (blk : RasterSetup) : Event
  | flatDataToBrickedLOD (ts : Nat) (src : String) (iHeaderSkip : Nat) (tmpfile : String)
      (bits comps : Nat) (ok : Bool) : Event
  | verify (ts : Nat) (ok : Bool) : Event
  | addDataBlock (kind : BlockKind) (ts : Nat) (ok : Bool) : Event
  | histogram1DCompute (ts : Nat) (ok : Bool) : Event
  | histogram2DCompute (ts : Nat) (ok : Bool) : Event
  | keyValuePairs (pairs : List (String × String)) : Event
  | uvfCreate (file : String) : Event
  | uvfClose (file : String) : Event
  | minMaxScan (ty : String) (file : String) (iElemCount : Nat) : Event
  | delete (file : String) : Event
  | convertToRAW (file : String) (ok : Bool) (intermediate : String) (bDelete : Bool)
      (iHeaderSkip : Nat) : Event
deriving DecidableEq

/-- The events so far. -/
abbrev Trace := List Event

/-- The answers of the collaborators.  `ReadRAW` gives the bytes a read delivers (the
converter sees at most as many as it asked for), `WriteRAW` the number of bytes a write
reports, `newBuffer` the content of a freshly allocated buffer. -/
structure World where
  IsBigEndian : Bool
  GetFilename : String → String
  Open : Trace → String → Nat → Bool
  Create : Trace → String → Bool
  GetCurrentSize : Trace → String → Nat
  ReadRAW : Trace → String → Nat → List Nat
  WriteRAW : Trace → String → List Nat → Nat
  newBuffer : Trace → Nat → List Nat
  QuantizeTo8Bit : Trace → Nat → String → String → Nat → Nat → Bool → Bool → String
  Process8Bits : Trace → Nat → String → String → Nat → Bool → String
  Quantize : Trace → SrcType → Nat → String → String → Nat → String
  FlatDataToBrickedLOD : Trace → Nat → String → Nat → String → Nat → Nat → Bool
  Verify : Trace → Nat → Bool
  AddDataBlock : Trace → BlockKind → Nat → Bool
  Histogram1DEmpty : Trace → Bool
  Histogram1DCompute : Trace → Nat → Bool
  Histogram2DCompute : Trace → Nat → Bool

/-- The arguments of `RAWConverter::ConvertRAWDataset`. -/
structure ConvertArgs where
  strFilename : String
  strTargetFilename : String
  strTempDir : String
  iHeaderSkip : Nat
  iComponentSize : Nat
  iComponentCount : Nat
  timesteps : Nat
  bConvertEndianness : Bool
  bSigned : Bool
  bIsFloat : Bool
  vVolumeSize : UINT64VECTOR3
  vVolumeAspect : FLOATVECTOR3
  strDesc : String
  strSource : String
  iTargetBrickSize : Nat
  iTargetBrickOverlap : Nat
  eType : ElementSemanticTable
  pKVPairs : Option (List (String × String))
  bQuantizeTo8Bit : Bool

/-! ## `ConvertRAWDataset`: endianness conversion -/

/-- Modelled from the spec: `EndianConvert::Swap<T>` on the `k` bytes at offset `i` of the
buffer: the bytes are
reversed.  `none` when the element reaches past the end of the buffer. -/
def swapAt (k : Nat) (buf : List Nat) (i : Nat) : Option (List Nat) :=
  if i + k ≤ buf.length then
    some (buf.take i ++ ((buf.drop i).take k).reverse ++ buf.drop (i + k))
  else none

/-- The loop `for (i = 0; i < iBytesRead; i += k) Swap(pBuffer + i)`: one swap at each of
the offsets `0, k, 2k, ...` below `iBytesRead`. -/
def swapLoop (k : Nat) (buf : List Nat) (iBytesRead : Nat) : Option (List Nat) :=
  (List.range ((iBytesRead + k - 1) / k)).foldl
    (fun b j => b.bind fun b => swapAt k b (j * k))
    (some buf)

/-- The `switch (iComponentSize)` inside the conversion loop. -/
def swapChunk (iComponentSize : Nat) (buf : List Nat) (iBytesRead : Nat) : Option (List Nat) :=
  if iComponentSize = 16 then swapLoop 2 buf iBytesRead
  else if iComponentSize = 32 then swapLoop 4 buf iBytesRead
  else if iComponentSize = 64 then swapLoop 8 buf iBytesRead
  else some buf

/-- The chunk size of the endianness pass:
`min(size_t(ulFileLength), size_t(B * B * B * iComponentSize / 8))`, the product in
unsigned 64-bit arithmetic (`size_t` is 64 bits wide). -/
def endianBufferSize (ulFileLength iTargetBrickSize iComponentSize : Nat) : Nat :=
  min ulFileLength
    (u64 (iTargetBrickSize * iTargetBrickSize * iTargetBrickSize * iComponentSize) / 8)

/-- The state of the conversion loop. -/
structure EndianLoopState where
  tr : Trace
  pBuffer : List Nat
  ulBufferConverted : Nat

/-- What one round of the conversion loop does. -/
inductive EndianStep where
  | next (s : EndianLoopState) : EndianStep
  | failed (tr : Trace) : EndianStep
  | undefined : EndianStep

/-- One round of the body of `while (ulBufferConverted < ulFileLength)`: read a chunk, swap
its elements, write it; a write whose count differs from the bytes read closes both files,
removes the temp file and fails. -/
def endianBody (W : World) (src tmp0 : String) (iComponentSize iBufferSize : Nat)
    (s : EndianLoopState) : EndianStep :=
  let data := (W.ReadRAW s.tr src iBufferSize).take iBufferSize
  let iBytesRead := data.length
  let tr1 := s.tr ++ [Event.readRAW src iBufferSize data]
  let buf1 := data ++ s.pBuffer.drop iBytesRead
  match swapChunk iComponentSize buf1 iBytesRead with
  | none => EndianStep.undefined
  | some buf2 =>
    let out := buf2.take iBytesRead
    let iBytesWritten := W.WriteRAW tr1 tmp0 out
    let tr2 := tr1 ++ [Event.writeRAW tmp0 out iBytesWritten]
    if iBytesRead ≠ iBytesWritten then
      EndianStep.failed (tr2 ++ [Event.close src, Event.close tmp0, Event.remove tmp0])
    else
      EndianStep.next ⟨tr2, buf2, u64 (s.ulBufferConverted + iBytesWritten)⟩

/-- The result of a stage of `ConvertRAWDataset`: it went through (`ok`), it made the
function return `false` (`failed`), or it has no defined result: the loop did not finish
within the fuel, or an access left the buffer (`stuck`). -/
inductive Stage (α : Type) where
  | ok (tr : Trace) (a : α) : Stage α
  | failed (tr : Trace) : Stage α
  | stuck : Stage α

/-- The loop `while (ulBufferConverted < ulFileLength)`, run for at most `fuel` rounds. -/
def endianLoop (W : World) (src tmp0 : String) (iComponentSize iBufferSize ulFileLength : Nat) :
    Nat → EndianLoopState → Stage EndianLoopState
  | 0, s => if s.ulBufferConverted < ulFileLength then Stage.stuck else Stage.ok s.tr s
  | fuel + 1, s =>
    if s.ulBufferConverted < ulFileLength then
      match endianBody W src tmp0 iComponentSize iBufferSize s with
      | EndianStep.next s1 => endianLoop W src tmp0 iComponentSize iBufferSize ulFileLength fuel s1
      | EndianStep.failed tr => Stage.failed tr
      | EndianStep.undefined => Stage.stuck
    else Stage.ok s.tr s

/-- The branch `if (bConvertEndianness) { ... } else strSourceFilename = strFilename` of
`ConvertRAWDataset`; `bConvertEndianness` is the flag after the downgrade for data below
16 bits.  The result is the pair `(strSourceFilename, iHeaderSkip)`. -/
def endianStage (W : World) (fuel : Nat) (a : ConvertArgs) (bConvertEndianness : Bool)
    (tmpFilename0 : String) : Stage (String × Nat) :=
  if bConvertEndianness then
    if a.iComponentSize ≠ 16 ∧ a.iComponentSize ≠ 32 ∧ a.iComponentSize ≠ 64 then
      Stage.failed []
    else
      let okSrc := W.Open [] a.strFilename a.iHeaderSkip
      let tr1 : Trace := [Event.openRead a.strFilename a.iHeaderSkip okSrc]
      if !okSrc then Stage.failed tr1
      else
        let okTmp := W.Create tr1 tmpFilename0
        let tr2 := tr1 ++ [Event.create tmpFilename0 okTmp]
        if !okTmp then Stage.failed (tr2 ++ [Event.close a.strFilename])
        else
          let ulFileLength := W.GetCurrentSize tr2 a.strFilename
          let iBufferSize := endianBufferSize ulFileLength a.iTargetBrickSize a.iComponentSize
          let pBuffer := (W.newBuffer tr2 iBufferSize).take iBufferSize
            ++ List.replicate (iBufferSize - (W.newBuffer tr2 iBufferSize).length) 0
          match endianLoop W a.strFilename tmpFilename0 a.iComponentSize iBufferSize
              ulFileLength fuel ⟨tr2, pBuffer, 0⟩ with
          | Stage.ok tr3 _ =>
            Stage.ok (tr3 ++ [Event.close a.strFilename, Event.close tmpFilename0])
              (tmpFilename0, 0)
          | Stage.failed tr3 => Stage.failed tr3
          | Stage.stuck => Stage.stuck
  else Stage.ok [] (a.strFilename, a.iHeaderSkip)

/-! ## `ConvertRAWDataset`: quantization -/

/-- The number of elements handed to the quantizers:
`iComponentCount * vVolumeSize.volume() * timesteps`. -/
def elemCount (a : ConvertArgs) : Nat :=
  u64 (u64 (a.iComponentCount * a.vVolumeSize.volume) * a.timesteps)

/-- A call of `Quantize<ty, unsigned short>`, recorded. -/
def callQuantize (W : World) (tr : Trace) (ty : SrcType) (iHeaderSkip : Nat)
    (src dst : String) (n : Nat) : Trace × String :=
  let r := W.Quantize tr ty iHeaderSkip src dst n
  (tr ++ [Event.quantize ty iHeaderSkip src dst n r], r)

/-- The tests `strSourceFilename == ""` after the quantizers: an empty name makes the
function return `false`. -/
def checkName (tr : Trace) (s : String) (iComponentSize : Nat) : Stage (String × Nat) :=
  if s = "" then Stage.failed tr else Stage.ok tr (s, iComponentSize)

/-- The quantization dispatch of `ConvertRAWDataset` (the `if (bQuantizeTo8Bit && ...)` with
its `switch (iComponentSize)`), up to and including the test `strSourceFilename == ""` that
follows it.  The result is the pair `(strSourceFilename, iComponentSize)`. -/
def quantStage (W : World) (a : ConvertArgs) (tr : Trace) (strSourceFilename : String)
    (iHeaderSkip : Nat) (tmpFilename1 : String) : Stage (String × Nat) :=
  let n := elemCount a
  if a.bQuantizeTo8Bit && decide (a.iComponentSize > 8) then
    let s := W.QuantizeTo8Bit tr iHeaderSkip strSourceFilename tmpFilename1
      a.iComponentSize n a.bSigned a.bIsFloat
    checkName
      (tr ++ [Event.quantizeTo8Bit iHeaderSkip strSourceFilename tmpFilename1
        a.iComponentSize n a.bSigned a.bIsFloat s]) s 8
  else if a.iComponentSize = 8 then
    if a.iComponentCount ≠ 4 || a.bSigned then
      let s := W.Process8Bits tr iHeaderSkip strSourceFilename tmpFilename1 n a.bSigned
      checkName
        (tr ++ [Event.process8Bits iHeaderSkip strSourceFilename tmpFilename1 n a.bSigned s])
        s 8
    else checkName tr strSourceFilename 8
  else if a.iComponentSize = 16 then
    let q := callQuantize W tr (if a.bSigned then SrcType.short else SrcType.ushort)
      iHeaderSkip strSourceFilename tmpFilename1 n
    checkName q.1 q.2 16
  else if a.iComponentSize = 32 then
    let q := callQuantize W tr
      (if a.bIsFloat then SrcType.float
       else if a.bSigned then SrcType.int32 else SrcType.uint32)
      iHeaderSkip strSourceFilename tmpFilename1 n
    checkName q.1 q.2 16
  else if a.iComponentSize = 64 then
    let q := callQuantize W tr
      (if a.bIsFloat then SrcType.double
       else if a.bSigned then SrcType.int64 else SrcType.uint64)
      iHeaderSkip strSourceFilename tmpFilename1 n
    checkName q.1 q.2 16
  else checkName tr strSourceFilename a.iComponentSize

/-! ## `ConvertRAWDataset`: the level count -/

/-- The loop `while (iMaxVal > min(64, iTargetBrickSize)) { iMaxVal /= 2; iLodLevelCount++; }`. -/
def lodLoop (thr : Nat) (iMaxVal iLodLevelCount : Nat) : Nat :=
  if h : iMaxVal > thr then lodLoop thr (iMaxVal / 2) (iLodLevelCount + 1)
  else iLodLevelCount
termination_by iMaxVal
decreasing_by omega

/-- The LOD level count `ConvertRAWDataset` computes: `iLodLevelCount` starts at 1 and
`iMaxVal` at the largest axis of the volume. -/
def lodLevelCount (vVolumeSize : UINT64VECTOR3) (iTargetBrickSize : Nat) : Nat :=
  lodLoop (min 64 iTargetBrickSize) vVolumeSize.maxVal 1

/-! ## `ConvertRAWDataset`: the timesteps -/

/-- The element semantics `vSem`: the `switch (iComponentCount)` before `SetTypeToVector`. -/
def elementSemantics (iComponentCount : Nat) (eType : ElementSemanticTable) :
    List ElementSemanticTable :=
  if iComponentCount = 3 then
    [ElementSemanticTable.ES_RED, ElementSemanticTable.ES_GREEN, ElementSemanticTable.ES_BLUE]
  else if iComponentCount = 4 then
    [ElementSemanticTable.ES_RED, ElementSemanticTable.ES_GREEN, ElementSemanticTable.ES_BLUE,
      ElementSemanticTable.ES_ALPHA]
  else List.replicate iComponentCount eType

/-- The block identifier `strBlockID`. -/
def blockID (strDesc strSource : String) : String :=
  if strSource = "" then
    if strDesc ≠ "" then strDesc ++ " volume converted by ImageVis3D"
    else "Volume converted by ImageVis3D"
  else
    if strDesc ≠ "" then strDesc ++ " volume converted from " ++ strSource ++ " by ImageVis3D"
    else "Volume converted from " ++ strSource ++ " by ImageVis3D"

/-- The raster block of a timestep as `ConvertRAWDataset` sets it up; `iComponentSize` is
the working component size (after quantization), `bSigned` the argument of the call. -/
def rasterSetup (a : ConvertArgs) (iComponentSize iLodLevelCount : Nat) : RasterSetup where
  strBlockID := blockID a.strDesc a.strSource
  ulDomainSize := [a.vVolumeSize.x, a.vVolumeSize.y, a.vVolumeSize.z]
  ulLODDecFactor := [2, 2, 2]
  ulLODGroups := [0, 0, 0]
  ulLODLevelCount := [iLodLevelCount]
  vSem := elementSemantics a.iComponentCount a.eType
  typeBitWidth := iComponentSize
  typeMantissa := if iComponentSize = 32 then 23 else iComponentSize
  typeSigned := a.bSigned
  ulBrickSize := [a.iTargetBrickSize, a.iTargetBrickSize, a.iTargetBrickSize]
  ulBrickOverlap := [a.iTargetBrickOverlap, a.iTargetBrickOverlap, a.iTargetBrickOverlap]
  vScale := [a.vVolumeAspect.x, a.vVolumeAspect.y, a.vVolumeAspect.z]

/-- The values the timestep loop works with, fixed before the loop. -/
structure LoopEnv where
  strSourceFilename : String
  iComponentSize : Nat
  iLodLevelCount : Nat
  bConvertEndianness : Bool
  bQuantized : Bool
  tmpFilename0 : String
  tmpFilename1 : String

/-- The clean-up of the failing paths after bricking and at the end of the function:
`Remove(tmpFilename0)` if `bConvertEndianness`, `Remove(tmpFilename1)` if `bQuantized`. -/
def removeTemps (e : LoopEnv) : Trace :=
  (if e.bConvertEndianness then [Event.remove e.tmpFilename0] else [])
  ++ (if e.bQuantized then [Event.remove e.tmpFilename1] else [])

/-- The second half of the histogram part of a timestep: the 2D histogram is computed (a
failure closes the container, removes the temp files and fails), then both histogram blocks
are added to the container. -/
def histogram2DPart (W : World) (a : ConvertArgs) (e : LoopEnv) (ts : Nat) (tr : Trace) :
    Stage Unit :=
  let ok2 := W.Histogram2DCompute tr ts
  let tr2 := tr ++ [Event.histogram2DCompute ts ok2]
  if !ok2 then Stage.failed (tr2 ++ [Event.uvfClose a.strTargetFilename] ++ removeTemps e)
  else
    let tr3 := tr2 ++ [Event.addDataBlock BlockKind.histogram1D ts
      (W.AddDataBlock tr2 BlockKind.histogram1D ts)]
    let tr4 := tr3 ++ [Event.addDataBlock BlockKind.histogram2D ts
      (W.AddDataBlock tr3 BlockKind.histogram2D ts)]
    Stage.ok tr4 ()

/-- The histogram part of a timestep (`if (iComponentCount != 4) { ... }`): the 1D histogram
is computed here when no quantizer has filled it. -/
def histogramPart (W : World) (a : ConvertArgs) (e : LoopEnv) (ts : Nat) (tr : Trace) :
    Stage Unit :=
  if a.iComponentCount ≠ 4 then
    if W.Histogram1DEmpty tr then
      let ok1 := W.Histogram1DCompute tr ts
      let tr1 := tr ++ [Event.histogram1DCompute ts ok1]
      if !ok1 then Stage.failed (tr1 ++ [Event.uvfClose a.strTargetFilename] ++ removeTemps e)
      else histogram2DPart W a e ts tr1
    else histogram2DPart W a e ts tr
  else Stage.ok tr ()

/-- The body of the loop over the timesteps, for timestep `ts`; the result is the new value
of `iHeaderSkip`. -/
def timestepBody (W : World) (a : ConvertArgs) (e : LoopEnv) (ts : Nat) (tr : Trace)
    (iHeaderSkip : Nat) : Stage Nat :=
  let tr1 := tr ++ [Event.rasterBlock ts (rasterSetup a e.iComponentSize e.iLodLevelCount)]
  let tmpfile := a.strTempDir ++ toString ts ++ "tempFile.tmp"
  let iHeaderSkip1 :=
    u64 (iHeaderSkip + u64 (u64 (e.iComponentSize / 8 * a.iComponentCount) * a.vVolumeSize.volume))
  let okSrc := W.Open tr1 e.strSourceFilename iHeaderSkip
  let tr2 := tr1 ++ [Event.openRead e.strSourceFilename iHeaderSkip okSrc]
  if !okSrc then Stage.failed tr2
  else if (e.iComponentSize = 8 ∨ e.iComponentSize = 16 ∨ e.iComponentSize = 32)
      ∧ (a.iComponentCount = 1 ∨ a.iComponentCount = 2 ∨ a.iComponentCount = 3
          ∨ a.iComponentCount = 4) then
    let bBrickingOK := W.FlatDataToBrickedLOD tr2 ts e.strSourceFilename iHeaderSkip
      (tmpfile ++ toString a.iComponentCount) e.iComponentSize a.iComponentCount
    let tr3 := tr2 ++ [Event.flatDataToBrickedLOD ts e.strSourceFilename iHeaderSkip
      (tmpfile ++ toString a.iComponentCount) e.iComponentSize a.iComponentCount bBrickingOK]
    if !bBrickingOK then Stage.failed (tr3 ++ [Event.uvfClose a.strTargetFilename])
    else
      let okVerify := W.Verify tr3 ts
      let tr4 := tr3 ++ [Event.verify ts okVerify]
      if !okVerify then
        Stage.failed (tr4 ++ [Event.uvfClose a.strTargetFilename] ++ removeTemps e)
      else
        let okAdd := W.AddDataBlock tr4 BlockKind.raster ts
        let tr5 := tr4 ++ [Event.addDataBlock BlockKind.raster ts okAdd]
        if !okAdd then
          Stage.failed (tr5 ++ [Event.uvfClose a.strTargetFilename] ++ removeTemps e)
        else
          match histogramPart W a e ts tr5 with
          | Stage.ok tr6 _ =>
            let tr7 := tr6 ++ [Event.addDataBlock BlockKind.maxMin ts
              (W.AddDataBlock tr6 BlockKind.maxMin ts)]
            Stage.ok (tr7 ++ [Event.close e.strSourceFilename]) iHeaderSkip1
          | Stage.failed tr6 => Stage.failed tr6
          | Stage.stuck => Stage.stuck
  else
    Stage.failed (tr2 ++ [Event.uvfClose a.strTargetFilename, Event.close e.strSourceFilename])

/-- The loop `for (ts = 0; ts < timesteps; ++ts)`: `n` rounds are left, the next one is
timestep `ts`. -/
def timestepLoop (W : World) (a : ConvertArgs) (e : LoopEnv) :
    Nat → Nat → Trace → Nat → Stage Nat
  | 0, _, tr, iHeaderSkip => Stage.ok tr iHeaderSkip
  | n + 1, ts, tr, iHeaderSkip =>
    match timestepBody W a e ts tr iHeaderSkip with
    | Stage.ok tr1 iHeaderSkip1 => timestepLoop W a e n (ts + 1) tr1 iHeaderSkip1
    | Stage.failed tr1 => Stage.failed tr1
    | Stage.stuck => Stage.stuck

/-! ## `ConvertRAWDataset`: the key/value block and the whole function -/

/-- The pairs of the key/value block.  `bMetadata_SourceIsLittleEndian` is
`bConvertEndianness && IsBigEndian()` with the flag as passed by the caller. -/
def metaPairs (W : World) (a : ConvertArgs) : List (String × String) :=
  let bMetadata_SourceIsLittleEndian := a.bConvertEndianness && W.IsBigEndian
  (if a.strSource ≠ "" then [("Data Source", a.strSource)] else [])
  ++ (if a.strDesc ≠ "" then [("Description", a.strDesc)] else [])
  ++ [("Source Endianess", if bMetadata_SourceIsLittleEndian then "little" else "big")]
  ++ [("Source Type",
        if a.bIsFloat then "float" else if a.bSigned then "signed integer" else "integer")]
  ++ [("Source Bitwidth", toString a.iComponentSize)]
  ++ (match a.pKVPairs with
      | some l => l
      | none => [])

/-- The part of `ConvertRAWDataset` after the quantization dispatch: the temp file
bookkeeping, the level count, the loop over the timesteps, the key/value block, the writing
of the container and the removal of the temp files. -/
def convertTail (W : World) (a : ConvertArgs) (bConvertEndianness : Bool)
    (tmpFilename0 tmpFilename1 : String) (tr : Trace) (strSourceFilename : String)
    (iHeaderSkip iComponentSize : Nat) : Stage Unit :=
  let bQuantized := decide (strSourceFilename = tmpFilename1)
  let tr1 := if bQuantized && bConvertEndianness then tr ++ [Event.remove tmpFilename0] else tr
  let bConvertEndianness1 := if bQuantized then false else bConvertEndianness
  let iHeaderSkip1 := if bQuantized then 0 else iHeaderSkip
  let e : LoopEnv :=
    { strSourceFilename := strSourceFilename
      iComponentSize := iComponentSize
      iLodLevelCount := lodLevelCount a.vVolumeSize a.iTargetBrickSize
      bConvertEndianness := bConvertEndianness1
      bQuantized := bQuantized
      tmpFilename0 := tmpFilename0
      tmpFilename1 := tmpFilename1 }
  match timestepLoop W a e a.timesteps 0 tr1 iHeaderSkip1 with
  | Stage.ok tr2 _ =>
    Stage.ok
      (tr2 ++ [Event.keyValuePairs (metaPairs W a), Event.uvfCreate a.strTargetFilename,
        Event.uvfClose a.strTargetFilename] ++ removeTemps e) ()
  | Stage.failed tr2 => Stage.failed tr2
  | Stage.stuck => Stage.stuck

/-- The flag `bConvertEndianness` after
`if (bConvertEndianness && iComponentSize < 16) bConvertEndianness = false`. -/
def downgradeEndianness (bConvertEndianness : Bool) (iComponentSize : Nat) : Bool :=
  if bConvertEndianness && decide (iComponentSize < 16) then false else bConvertEndianness

/-- The stages of `ConvertRAWDataset` in sequence. -/
def convertStages (W : World) (fuel : Nat) (a : ConvertArgs) : Stage Unit :=
  if a.iComponentCount > 4 then Stage.failed []
  else
    let bConvertEndianness := downgradeEndianness a.bConvertEndianness a.iComponentSize
    let tmpFilename0 := a.strTempDir ++ W.GetFilename a.strFilename ++ ".endianess"
    let tmpFilename1 := a.strTempDir ++ W.GetFilename a.strFilename ++ ".quantized"
    match endianStage W fuel a bConvertEndianness tmpFilename0 with
    | Stage.stuck => Stage.stuck
    | Stage.failed tr => Stage.failed tr
    | Stage.ok tr (strSourceFilename, iHeaderSkip) =>
      match quantStage W a tr strSourceFilename iHeaderSkip tmpFilename1 with
      | Stage.stuck => Stage.stuck
      | Stage.failed tr1 => Stage.failed tr1
      | Stage.ok tr1 (strSourceFilename1, iComponentSize) =>
        convertTail W a bConvertEndianness tmpFilename0 tmpFilename1 tr1 strSourceFilename1
          iHeaderSkip iComponentSize

/-- Models `RAWConverter::ConvertRAWDataset`: the value returned together with the calls made to the
collaborators; `none` when the call has no defined result within `fuel` rounds of the
endianness loop. -/
def ConvertRAWDataset (W : World) (fuel : Nat) (a : ConvertArgs) : Option (Bool × Trace) :=
  match convertStages W fuel a with
  | Stage.ok tr _ => some (true, tr)
  | Stage.failed tr => some (false, tr)
  | Stage.stuck => none

/-! ## `RAWConverter::Analyze` -/

/-- The integer range fields a scan fills, and the value type, of `RangeInfo`. -/
structure RangeInfo where
  m_iValueType : Nat
  m_fRange : Dbl × Dbl
  m_iRange : Int × Int
  m_uiRange : Nat × Nat
deriving DecidableEq

/-- The answers of the collaborators of `Analyze`: whether the source opens, and the ranges
the `MinMaxScanner` instances find. -/
structure AnalyzeWorld where
  Open : String → Nat → Bool
  scanFloat : String → Nat → Dbl × Dbl
  scanSigned : String → Nat → Int × Int
  scanUnsigned : String → Nat → Nat × Nat

/-- The eight-argument `RAWConverter::Analyze`: the value returned, the `RangeInfo` left
behind and the calls made. -/
def Analyze (W : AnalyzeWorld) (strSourceFilename : String)
    (iHeaderSkip iComponentSize iComponentCount : Nat) (bSigned bFloatingPoint : Bool)
    (vVolumeSize : UINT64VECTOR3) (info : RangeInfo) : Bool × RangeInfo × Trace :=
  let okSrc := W.Open strSourceFilename iHeaderSkip
  let tr : Trace := [Event.openRead strSourceFilename iHeaderSkip okSrc]
  if !okSrc then (false, info, tr)
  else
    let iElemCount := u64 (vVolumeSize.volume * iComponentCount)
    if bFloatingPoint then
      if !bSigned then (false, info, tr ++ [Event.close strSourceFilename])
      else
        let info1 := { info with m_iValueType := 0 }
        if iComponentSize = 32 then
          (true, { info1 with m_fRange := W.scanFloat strSourceFilename iElemCount },
            tr ++ [Event.minMaxScan "float" strSourceFilename iElemCount,
              Event.close strSourceFilename])
        else if iComponentSize = 64 then
          (true, { info1 with m_fRange := W.scanFloat strSourceFilename iElemCount },
            tr ++ [Event.minMaxScan "double" strSourceFilename iElemCount,
              Event.close strSourceFilename])
        else (false, info1, tr ++ [Event.close strSourceFilename])
    else
      let info1 := { info with m_iValueType := if bSigned then 1 else 2 }
      if iComponentSize = 8 ∨ iComponentSize = 16 ∨ iComponentSize = 32
          ∨ iComponentSize = 64 then
        if bSigned then
          (true, { info1 with m_iRange := W.scanSigned strSourceFilename iElemCount },
            tr ++ [Event.minMaxScan ("int" ++ toString iComponentSize) strSourceFilename
              iElemCount, Event.close strSourceFilename])
        else
          (true, { info1 with m_uiRange := W.scanUnsigned strSourceFilename iElemCount },
            tr ++ [Event.minMaxScan ("uint" ++ toString iComponentSize) strSourceFilename
              iElemCount, Event.close strSourceFilename])
      else (false, info1, tr ++ [Event.close strSourceFilename])

/-- The (bit width, signed, float) combinations the specification calls supported: signed
float of width 32 or 64, or integer of width 8, 16, 32 or 64. -/
def supportedCombination (iComponentSize : Nat) (bSigned bFloatingPoint : Bool) : Prop :=
  (bFloatingPoint = true ∧ bSigned = true ∧ (iComponentSize = 32 ∨ iComponentSize = 64))
  ∨ (bFloatingPoint = false
      ∧ (iComponentSize = 8 ∨ iComponentSize = 16 ∨ iComponentSize = 32 ∨ iComponentSize = 64))

/-! ## The calls of a conversion, stage by stage -/

/-- The name of the endianness temp file of a call. -/
def tmpFilename0 (W : World) (a : ConvertArgs) : String :=
  a.strTempDir ++ W.GetFilename a.strFilename ++ ".endianess"

/-- The name of the quantized temp file of a call. -/
def tmpFilename1 (W : World) (a : ConvertArgs) : String :=
  a.strTempDir ++ W.GetFilename a.strFilename ++ ".quantized"

/-- The length `ulFileLength` the endianness pass of a call is told for the source file
(asked once both files are open). -/
def endianFileLength (W : World) (a : ConvertArgs) : Nat :=
  W.GetCurrentSize
    [Event.openRead a.strFilename a.iHeaderSkip true, Event.create (tmpFilename0 W a) true]
    a.strFilename

/-- The working component width after the quantization dispatch: 8 after the forced 8-bit
quantization of wider data, 16 after the quantization of 32- and 64-bit data, else the
width of the source. -/
def workingComponentSize (a : ConvertArgs) : Nat :=
  if a.bQuantizeTo8Bit && decide (a.iComponentSize > 8) then 8
  else if a.iComponentSize = 32 ∨ a.iComponentSize = 64 then 16
  else a.iComponentSize

/-- A trace `tr1` continues a trace `tr` by calls that all satisfy `P`. -/
def Extends (P : Event → Prop) (tr tr1 : Trace) : Prop :=
  ∃ ext, tr1 = tr ++ ext ∧ ∀ e ∈ ext, P e

/-- A stage that went through or failed, and whose trace continues `tr` by calls that all
satisfy `P`. -/
def Stage.Extends {α : Type} (P : Event → Prop) (tr : Trace) : Stage α → Prop
  | Stage.ok tr1 _ => Tuvok.Extends P tr tr1
  | Stage.failed tr1 => Tuvok.Extends P tr tr1
  | Stage.stuck => False

/-- The reads and writes of the conversion loop: a read asks the source for `iBufferSize`
bytes and gets at most that many; a write goes to the temp file and reports, when `full`
is set, all the bytes it was given. -/
def chunkEvent (src tmp0 : String) (iBufferSize : Nat) (full : Bool) : Event → Prop
  | Event.readRAW f req data => f = src ∧ req = iBufferSize ∧ data.length ≤ req
  | Event.writeRAW f out n => f = tmp0 ∧ (full = true → n = out.length)
  | _ => False

/-- The calls `ConvertRAWDataset` can make after the endianness pass of a call with the
arguments `a`: the quantizer its dispatch selects, the per-timestep calls on blocks typed
with the working component width, the key/value block, the writing of the container and
the removal of temp files. -/
def laterEvent (W : World) (a : ConvertArgs) : Event → Prop
  | Event.openRead _ _ _ => True
  | Event.close _ => True
  | Event.remove f => f = tmpFilename0 W a ∨ f = tmpFilename1 W a
  | Event.quantizeTo8Bit _ _ _ _ _ _ _ _ =>
    a.bQuantizeTo8Bit = true ∧ a.iComponentSize > 8
  | Event.process8Bits _ _ _ _ _ _ =>
    (a.bQuantizeTo8Bit = false ∨ a.iComponentSize ≤ 8) ∧ a.iComponentSize = 8
  | Event.quantize ty _ _ _ _ _ =>
    (a.bQuantizeTo8Bit = false ∨ a.iComponentSize ≤ 8)
    ∧ ((a.iComponentSize = 16 ∧ ty = if a.bSigned then SrcType.short else SrcType.ushort)
      ∨ (a.iComponentSize = 32
          ∧ ty = if a.bIsFloat then SrcType.float
                 else if a.bSigned then SrcType.int32 else SrcType.uint32)
      ∨ (a.iComponentSize = 64
          ∧ ty = if a.bIsFloat then SrcType.double
                 else if a.bSigned then SrcType.int64 else SrcType.uint64))
  | Event.rasterBlock _ blk =>
    blk = rasterSetup a (workingComponentSize a)
      (lodLevelCount a.vVolumeSize a.iTargetBrickSize)
  | Event.flatDataToBrickedLOD _ _ _ _ bits comps _ =>
    bits = workingComponentSize a ∧ comps = a.iComponentCount
  | Event.verify _ _ => True
  | Event.addDataBlock _ _ _ => True
  | Event.histogram1DCompute _ _ => True
  | Event.histogram2DCompute _ _ => True
  | Event.keyValuePairs p => p = metaPairs W a
  | Event.uvfCreate f => f = a.strTargetFilename
  | Event.uvfClose f => f = a.strTargetFilename
  | Event.create _ _ => False
  | Event.append _ _ => False
  | Event.readRAW _ _ _ => False
  | Event.writeRAW _ _ _ => False
  | Event.minMaxScan _ _ _ => False
  | Event.delete _ => False
  | Event.convertToRAW _ _ _ _ _ => False

/-- The calls the endianness pass of a call can make. -/
def endianEvent (W : World) (a : ConvertArgs) : Event → Prop
  | Event.openRead f hdr _ => f = a.strFilename ∧ hdr = a.iHeaderSkip
  | Event.create f _ => f = tmpFilename0 W a
  | Event.readRAW f req data =>
    f = a.strFilename
    ∧ req = endianBufferSize (endianFileLength W a) a.iTargetBrickSize a.iComponentSize
    ∧ data.length ≤ req
  | Event.writeRAW f _ _ => f = tmpFilename0 W a
  | Event.close f => f = a.strFilename ∨ f = tmpFilename0 W a
  | Event.remove f => f = tmpFilename0 W a
  | _ => False

/-- The `Quantize` source type that matches a supported source of width 16, 32 or 64, in
the words of the specification: signed or unsigned integers of the three widths, and
(signed) floating-point data of width 32 or 64. -/
def matchingSrcType (iComponentSize : Nat) (bSigned bIsFloat : Bool) : Option SrcType :=
  if bIsFloat then
    if bSigned then
      if iComponentSize = 32 then some SrcType.float
      else if iComponentSize = 64 then some SrcType.double
      else none
    else none
  else if iComponentSize = 16 then some (if bSigned then SrcType.short else SrcType.ushort)
  else if iComponentSize = 32 then some (if bSigned then SrcType.int32 else SrcType.uint32)
  else if iComponentSize = 64 then some (if bSigned then SrcType.int64 else SrcType.uint64)
  else none

/-! ## Serialized order of the acceleration entries -/

/-- The brick count of level `l` in a list of per-level counts (zero bricks per axis for a
level that is not there). -/
def countAt (counts : List UINT64VECTOR3) (l : Nat) : UINT64VECTOR3 :=
  (counts[l]?).getD ⟨0, 0, 0⟩

/-- The number of bricks of level `l`: `cx(l) * cy(l) * cz(l)`. -/
def levelBricks (counts : List UINT64VECTOR3) (l : Nat) : Nat :=
  (countAt counts l).x * (countAt counts l).y * (countAt counts l).z

/-- The position of brick `(x, y, z)` of level `l` in the serialized order of the
specification (level, then z, then y, then x, with x fastest):
`(sum over l' < l of cx(l') * cy(l') * cz(l')) + z * cx(l) * cy(l) + y * cx(l) + x`. -/
def serialPosition (counts : List UINT64VECTOR3) (l x y z : Nat) : Nat :=
  (∑ j ∈ Finset.range l, levelBricks counts j)
    + z * (countAt counts l).x * (countAt counts l).y + y * (countAt counts l).x + x

/-- The component the acceleration entries are taken from, in the words of the
specification: 3 when the component count is exactly 4, else 0. -/
def accelerationComponent (iComponentCount : Nat) : Nat :=
  if iComponentCount = 4 then 3 else 0

/-! ## The range scanner `io_minmax` -/

/-- Modelled from the spec: the sample sources `raw_data_src` and `ios_data_src` of
`Quantize.h`, which is not among the sources; a source hands over, on request, the next
samples (at most as many as asked for, none at the end of the data). -/
structure DataSrc (σ α : Type) where
  read : σ → Nat → List α × σ

/-- Modelled from the spec: the random-access file source `raw_data_src` (missing with
`Quantize.h`): the state is the file and the position in it; a read seeks to the position
and takes the next samples. -/
def raw_data_src (α : Type) : DataSrc (List α × Nat) α where
  read := fun s n => ((s.1.drop s.2).take n, (s.1, s.2 + ((s.1.drop s.2).take n).length))

/-- Modelled from the spec: the forward-only stream source `ios_data_src` (missing with
`Quantize.h`): the state is what is left of the stream; a read consumes the next samples. -/
def ios_data_src (α : Type) : DataSrc (List α) α where
  read := fun s n => (s.take n, s.drop n)

/-- Modelled from the spec: the accumulation of the running min/max of `io_minmax` over one
chunk; `none` stands for the state before the first sample. -/
def minmaxChunk {α : Type} [LinearOrder α] (acc : Option (α × α)) (chunk : List α) :
    Option (α × α) :=
  chunk.foldl
    (fun r v =>
      match r with
      | none => some (v, v)
      | some (lo, hi) => some (min lo v, max hi v))
    acc

/-- Modelled from the spec: the function `io_minmax` of `Quantize.h`, which is not among the
sources (only its test is): it reads the source in chunks of at most `iInCore` samples (the
fixed in-core size) until a read delivers nothing, accumulating the running min/max; the
histogram and the progress report it also maintains are left out.  The loop runs for at
most `fuel` reads; the result is `none` when they do not suffice, and `some none` when the
source held no sample. -/
def io_minmax {σ α : Type} [LinearOrder α] (src : DataSrc σ α) (iInCore : Nat) :
    Nat → σ → Option (α × α) → Option (Option (α × α))
  | 0, _, _ => none
  | fuel + 1, s, acc =>
    let r := src.read s iInCore
    if r.1.isEmpty then some acc
    else io_minmax src iInCore fuel r.2 (minmaxChunk acc r.1)

/-! ## The endianness pass over a source file -/

/-- The number of bytes the reads of `file` recorded in a trace have delivered. -/
def bytesRead (file : String) : Trace → Nat
  | [] => 0
  | Event.readRAW f _ data :: tr => (if f = file then data.length else 0) + bytesRead file tr
  | _ :: tr => bytesRead file tr

/-- The bytes the writes to `file` recorded in a trace have put into it, in order. -/
def bytesWritten (file : String) : Trace → List Nat
  | [] => []
  | Event.writeRAW f out n :: tr => (if f = file then out.take n else []) ++ bytesWritten file tr
  | _ :: tr => bytesWritten file tr

/-- The value of a `w`-bit pattern read as a signed (two's complement) number. -/
def asSigned (w : Nat) (u : Nat) : Int :=
  if u < 2 ^ (w - 1) then (u : Int) else (u : Int) - 2 ^ w

/-- The `w`-bit pattern of an integer: the conversion to a `w`-bit type keeps the value
modulo `2^w` (for the 32- and 64-bit subtraction of `AppendRAW`, whose overflow is undefined
in C++, this is the wrap-around of the machine). -/
def wrapBits (w : Nat) (z : Int) : Nat := (z % (2 ^ w : Int)).toNat

/-- The element operation of the `bToSigned` branch of `AppendRAW`,
`T(u) - std::numeric_limits<T>::max()` stored as a `w`-bit `T`: the pattern `u` is read as
signed (`char` being a signed 8-bit type), the largest signed value `2^(w-1) - 1` is
subtracted, and the difference is stored modulo `2^w`. -/
def toSignedBits (w : Nat) (u : Nat) : Nat :=
  wrapBits w (asSigned w u - (2 ^ (w - 1) - 1))

/-- The value of a sequence of bytes, least significant byte first. -/
def decodeLE : List Nat → Nat
  | [] => 0
  | b :: bs => b % 256 + 256 * decodeLE bs

/-- The `k` bytes of a value, least significant byte first. -/
def encodeLE : Nat → Nat → List Nat
  | 0, _ => []
  | k + 1, v => v % 256 :: encodeLE k (v / 256)

/-- The unsigned value of the bytes of an element in the byte order of the host. -/
def decodeElem (big : Bool) (el : List Nat) : Nat :=
  decodeLE (if big then el.reverse else el)

/-- The `k` bytes of a value in the byte order of the host. -/
def encodeElem (big : Bool) (k v : Nat) : List Nat :=
  if big then (encodeLE k v).reverse else encodeLE k v

/-- The assignment `*(T*)(pBuffer + i) = T(*(unsigned T*)(pBuffer + i)) - max` on the `k`
bytes of the element at offset `i`. -/
def toSignedElem (big : Bool) (k : Nat) (el : List Nat) : List Nat :=
  encodeElem big k (toSignedBits (8 * k) (decodeElem big el))

/-- An operation `f` on the `k` bytes at offset `i` of the buffer; `none` when the element
reaches past the end of the buffer. -/
def mapElemAt (f : List Nat → List Nat) (k : Nat) (buf : List Nat) (i : Nat) :
    Option (List Nat) :=
  if i + k ≤ buf.length then
    some (buf.take i ++ f ((buf.drop i).take k) ++ buf.drop (i + k))
  else none

/-- The loop `for (i = 0; i < iCopySize; i += k)` applying an element operation at each of
the offsets `0, k, 2k, ...` below `iCopySize`. -/
def mapElemLoop (f : List Nat → List Nat) (k : Nat) (buf : List Nat) (iCopySize : Nat) :
    Option (List Nat) :=
  (List.range ((iCopySize + k - 1) / k)).foldl
    (fun b j => b.bind fun b => mapElemAt f k b (j * k))
    (some buf)

/-- The element-wise application of an operation to a sequence of `k`-byte elements. -/
def mapElements (f : List Nat → List Nat) (k : Nat) (bytes : List Nat) : List Nat :=
  (List.range (bytes.length / k)).flatMap fun j => f ((bytes.drop (j * k)).take k)

/-- What the `bToSigned` branch of `AppendRAW` does to a chunk. -/
inductive SignedStep where
  | done (buf : List Nat) : SignedStep
  | unsupported : SignedStep
  | undefined : SignedStep

/-- The `switch (iComponentSize)` of the `bToSigned` branch of `AppendRAW`; the default case
makes the function return `false`. -/
def toSignedChunk (big : Bool) (iComponentSize : Nat) (buf : List Nat) (iCopySize : Nat) :
    SignedStep :=
  let wrap := fun (r : Option (List Nat)) =>
    match r with
    | some b => SignedStep.done b
    | none => SignedStep.undefined
  if iComponentSize = 8 then wrap (mapElemLoop (toSignedElem big 1) 1 buf iCopySize)
  else if iComponentSize = 16 then wrap (mapElemLoop (toSignedElem big 2) 2 buf iCopySize)
  else if iComponentSize = 32 then wrap (mapElemLoop (toSignedElem big 4) 4 buf iCopySize)
  else if iComponentSize = 64 then wrap (mapElemLoop (toSignedElem big 8) 8 buf iCopySize)
  else SignedStep.unsupported

/-- What a call of the virtual `ConvertToRAW` hands back: its return value and the values it
leaves in its output parameters. -/
structure RawConversion where
  success : Bool
  iHeaderSkip : Nat
  iComponentSize : Nat
  iComponentCount : Nat
  bConvertEndianess : Bool
  bSigned : Bool
  bIsFloat : Bool
  vVolumeSize : UINT64VECTOR3
  vVolumeAspect : FLOATVECTOR3
  strTitle : String
  eType : ElementSemanticTable
  strIntermediateFile : String
  bDeleteIntermediateFile : Bool

/-- The collaborators of the copy and merge functions: those of `World`, the tests
`SysTools::FileExists`, `LargeRAWFile::Append`, the virtual `ConvertToRAW` of the converter
at hand (given the source file, the temp directory and the interaction flag), and two
constants that are not among the sources: `BLOCK_COPY_SIZE` and the value
of `GetIncoreSize()`. -/
structure ConvWorld extends World where
  FileExists : Trace → String → Bool
  Append : Trace → String → Bool
  ConvertToRAW : Trace → String → String → Bool → RawConversion
  BLOCK_COPY_SIZE : Nat
  GetIncoreSize : Nat

/-- The state of the copy loop of `AppendRAW`. -/
structure CopyState where
  tr : Trace
  pBuffer : List Nat
  iCopySize : Nat
  iCopiedSize : Nat

/-- What one round of the copy loop does. -/
inductive CopyStep where
  | next (s : CopyState) : CopyStep
  | failed (tr : Trace) : CopyStep
  | undefined : CopyStep

/-- The body of the `do ... while (iCopySize > 0)` loop of `AppendRAW`: read a chunk (the
copy size becomes the number of bytes read), make it signed if asked to, swap its elements
if asked to, write it; the result of the write is not looked at. -/
def appendBody (W : ConvWorld) (src tgt : String) (iComponentSize : Nat)
    (bChangeEndianess bToSigned : Bool) (s : CopyState) : CopyStep :=
  let data := (W.ReadRAW s.tr src s.iCopySize).take s.iCopySize
  let iCopySize := data.length
  let tr1 := s.tr ++ [Event.readRAW src s.iCopySize data]
  let buf1 := data ++ s.pBuffer.drop iCopySize
  match (if bToSigned then toSignedChunk W.IsBigEndian iComponentSize buf1 iCopySize
         else SignedStep.done buf1) with
  | SignedStep.unsupported => CopyStep.failed tr1
  | SignedStep.undefined => CopyStep.undefined
  | SignedStep.done buf2 =>
    match (if bChangeEndianess then swapChunk iComponentSize buf2 iCopySize
           else some buf2) with
    | none => CopyStep.undefined
    | some buf3 =>
      let out := buf3.take iCopySize
      let tr2 := tr1 ++ [Event.writeRAW tgt out (W.WriteRAW tr1 tgt out)]
      CopyStep.next ⟨tr2, buf3, iCopySize, u64 (s.iCopiedSize + iCopySize)⟩

/-- The loop `do { ... } while (iCopySize > 0)` of `AppendRAW`, run for at most `fuel`
rounds. -/
def appendLoop (W : ConvWorld) (src tgt : String) (iComponentSize : Nat)
    (bChangeEndianess bToSigned : Bool) : Nat → CopyState → Stage Unit
  | 0, _ => Stage.stuck
  | fuel + 1, s =>
    match appendBody W src tgt iComponentSize bChangeEndianess bToSigned s with
    | CopyStep.next s1 =>
      if s1.iCopySize > 0 then
        appendLoop W src tgt iComponentSize bChangeEndianess bToSigned fuel s1
      else Stage.ok s1.tr ()
    | CopyStep.failed tr => Stage.failed tr
    | CopyStep.undefined => Stage.stuck

/-- Models `RAWConverter::AppendRAW`, called after the events `tr0`. -/
def AppendRAW (W : ConvWorld) (fuel : Nat) (tr0 : Trace) (strRawFilename : String)
    (iHeaderSkip : Nat) (strTargetFilename : String) (iComponentSize : Nat)
    (bChangeEndianess bToSigned bQuantizeTo8Bit : Bool) : Stage Unit :=
  if bQuantizeTo8Bit then Stage.failed tr0
  else
    let okSrc := W.Open tr0 strRawFilename iHeaderSkip
    let tr1 := tr0 ++ [Event.openRead strRawFilename iHeaderSkip okSrc]
    if !okSrc then Stage.failed tr1
    else
      let okTgt := W.Append tr1 strTargetFilename
      let tr2 := tr1 ++ [Event.append strTargetFilename okTgt]
      if !okTgt then Stage.failed (tr2 ++ [Event.close strRawFilename])
      else
        let iSourceSize := W.GetCurrentSize tr2 strRawFilename
        let iCopySize := min iSourceSize W.BLOCK_COPY_SIZE
        let pBuffer := (W.newBuffer tr2 iCopySize).take iCopySize
          ++ List.replicate (iCopySize - (W.newBuffer tr2 iCopySize).length) 0
        match appendLoop W strRawFilename strTargetFilename iComponentSize bChangeEndianess
            bToSigned fuel ⟨tr2, pBuffer, iCopySize, 0⟩ with
        | Stage.ok tr3 _ =>
          Stage.ok (tr3 ++ [Event.close strRawFilename, Event.close strTargetFilename]) ()
        | Stage.failed tr3 => Stage.failed tr3
        | Stage.stuck => Stage.stuck

/-- Models `RAWConverter::ConvertToNative`.  The call of `AppendRAW` passes six arguments:
`EndianConvert::IsBigEndian()` for `bChangeEndianess` and the own `bQuantizeTo8Bit` in the
place of `bToSigned`; `bAppendDefault` is the default value the declaration (which is not
among the sources) gives the seventh parameter of `AppendRAW`.  The six unnamed parameters
of the C++ function are the ones named with an underscore. -/
def ConvertToNative (W : ConvWorld) (fuel : Nat) (bAppendDefault : Bool)
    (strRawFilename strTargetFilename : String) (iHeaderSkip iComponentSize : Nat)
    (_iComponentCount : Nat) (_bSigned _bFloat : Bool) (_vVolumeSize : UINT64VECTOR3)
    (_vVolumeAspect : FLOATVECTOR3) (_bNoUserInteraction : Bool) (bQuantizeTo8Bit : Bool) :
    Option (Bool × Trace) :=
  let tr1 : Trace :=
    if W.FileExists [] strTargetFilename then [Event.remove strTargetFilename] else []
  if W.FileExists tr1 strTargetFilename then some (false, tr1)
  else
    match AppendRAW W fuel tr1 strRawFilename iHeaderSkip strTargetFilename iComponentSize
        W.IsBigEndian bQuantizeTo8Bit bAppendDefault with
    | Stage.ok tr _ => some (true, tr)
    | Stage.failed tr => some (false, tr)
    | Stage.stuck => none

/-! ## `ConvertToUVF` -/

/-- The world as a call made after the events `pre` sees it: every collaborator is asked
with `pre` in front of the events of the call. -/
def World.after (W : World) (pre : Trace) : World where
  IsBigEndian := W.IsBigEndian
  GetFilename := W.GetFilename
  Open := fun tr => W.Open (pre ++ tr)
  Create := fun tr => W.Create (pre ++ tr)
  GetCurrentSize := fun tr => W.GetCurrentSize (pre ++ tr)
  ReadRAW := fun tr => W.ReadRAW (pre ++ tr)
  WriteRAW := fun tr => W.WriteRAW (pre ++ tr)
  newBuffer := fun tr => W.newBuffer (pre ++ tr)
  QuantizeTo8Bit := fun tr => W.QuantizeTo8Bit (pre ++ tr)
  Process8Bits := fun tr => W.Process8Bits (pre ++ tr)
  Quantize := fun tr => W.Quantize (pre ++ tr)
  FlatDataToBrickedLOD := fun tr => W.FlatDataToBrickedLOD (pre ++ tr)
  Verify := fun tr => W.Verify (pre ++ tr)
  AddDataBlock := fun tr => W.AddDataBlock (pre ++ tr)
  Histogram1DEmpty := fun tr => W.Histogram1DEmpty (pre ++ tr)
  Histogram1DCompute := fun tr => W.Histogram1DCompute (pre ++ tr)
  Histogram2DCompute := fun tr => W.Histogram2DCompute (pre ++ tr)

/-- The read position in a file: the number of bytes the reads have delivered since the file
was last opened. -/
def readPos (file : String) (tr : Trace) : Nat :=
  tr.foldl
    (fun pos e =>
      match e with
      | Event.openRead f _ _ => if f = file then 0 else pos
      | Event.readRAW f _ data => if f = file then pos + data.length else pos
      | _ => pos)
    0

/-- The state of the first loop of `ConvertToUVF`: the events, the values the last call of
`ConvertToRAW` left in the output variables (`none` before the first call), and the three
lists filled with `push_front`. -/
structure RawLoopState where
  tr : Trace
  out : Option RawConversion
  strIntermediateFile : List String
  bDeleteIntermediateFile : List Bool
  header_skip : List Nat

/-- The loop of `ConvertToUVF` over the source files: `ConvertToRAW` on each, stopping at
the first failure, otherwise pushing the intermediate file, its delete flag and its header
skip to the front of the lists.  The second component is `success`. -/
def convertToRAWLoop (W : ConvWorld) (strTempDir : String) (bNoUserInteraction : Bool) :
    List String → RawLoopState → RawLoopState × Bool
  | [], s => (s, true)
  | fn :: rest, s =>
    let r := W.ConvertToRAW s.tr fn strTempDir bNoUserInteraction
    let tr1 := s.tr ++ [Event.convertToRAW fn r.success r.strIntermediateFile
      r.bDeleteIntermediateFile r.iHeaderSkip]
    if !r.success then
      (⟨tr1, some r, s.strIntermediateFile, s.bDeleteIntermediateFile, s.header_skip⟩, false)
    else
      convertToRAWLoop W strTempDir bNoUserInteraction rest
        ⟨tr1, some r, r.strIntermediateFile :: s.strIntermediateFile,
          r.bDeleteIntermediateFile :: s.bDeleteIntermediateFile,
          r.iHeaderSkip :: s.header_skip⟩

/-- The size of one timestep in `ConvertToUVF`:
`vVolumeSize.volume() * iComponentSize/8 * iComponentCount` in unsigned 64-bit
arithmetic. -/
def payloadSize (r : RawConversion) : Nat :=
  u64 (u64 (r.vVolumeSize.volume * r.iComponentSize) / 8 * r.iComponentCount)

/-- The loop `do { ... } while (bytes_written < payload_sz)` of `ConvertToUVF` over one
intermediate file, run for at most `fuel` rounds: read up to `GetIncoreSize()` bytes, leave
the loop when nothing came, write `min(payload_sz - bytes_written, elems)` of them to the
merged file (the result of the write is not looked at), count all of them. -/
def mergeFileLoop (W : ConvWorld) (merged fn : String) (payload_sz : Nat) :
    Nat → Trace → Nat → Option Trace
  | 0, _, _ => none
  | fuel + 1, tr, bytes_written =>
    let data := (W.ReadRAW tr fn W.GetIncoreSize).take W.GetIncoreSize
    let elems := data.length
    let tr1 := tr ++ [Event.readRAW fn W.GetIncoreSize data]
    if elems = 0 then some tr1
    else
      let out := data.take (min ((payload_sz + 2 ^ 64 - bytes_written) % 2 ^ 64) elems)
      let tr2 := tr1 ++ [Event.writeRAW merged out (W.WriteRAW tr1 merged out)]
      let bytes_written1 := u64 (bytes_written + elems)
      if bytes_written1 < payload_sz then
        mergeFileLoop W merged fn payload_sz fuel tr2 bytes_written1
      else some tr2

/-- The loop of `ConvertToUVF` over the intermediate files with their delete flags and
header skips: open the file, copy its payload to the merged file, delete or close it. -/
def mergeFiles (W : ConvWorld) (merged : String) (payload_sz fuel : Nat) :
    List (String × Bool × Nat) → Trace → Option Trace
  | [], tr => some tr
  | (fn, del, hdr) :: rest, tr =>
    let tr1 := tr ++ [Event.openRead fn hdr (W.Open tr fn hdr)]
    match mergeFileLoop W merged fn payload_sz fuel tr1 0 with
    | none => none
    | some tr2 =>
      mergeFiles W merged payload_sz fuel rest
        (tr2 ++ [if del then Event.delete fn else Event.close fn])

/-- What `ConvertToUVF` has done when it comes to call `ConvertRAWDataset`: it has given up
(`failed`), or it has the arguments of the call and the delete flag of the file it hands
over (`ready`). -/
inductive UVFSetup where
  | failed (tr : Trace) : UVFSetup
  | ready (tr : Trace) (a : ConvertArgs) (bDelete : Bool) : UVFSetup

/-- The part of `RAWConverter::ConvertToUVF` (the overload for a list of files) before the
call of `ConvertRAWDataset`.  `remove` and `Remove` are both recorded as `Event.remove`.
With an empty list of files the function dereferences `begin()` of empty lists, which is
undefined: `none`. -/
def prepareUVF (W : ConvWorld) (fuel : Nat) (files : List String)
    (strTargetFilename strTempDir : String) (bNoUserInteraction : Bool)
    (iTargetBrickSize iTargetBrickOverlap : Nat) (bQuantizeTo8Bit : Bool) : Option UVFSetup :=
  match convertToRAWLoop W strTempDir bNoUserInteraction files ⟨[], none, [], [], []⟩ with
  | (s, false) => some (UVFSetup.failed (s.tr ++ s.strIntermediateFile.map Event.remove))
  | (s, true) =>
    match s.out, files.head?, s.strIntermediateFile, s.bDeleteIntermediateFile,
        s.header_skip with
    | some r, some file0, fn0 :: fns, del0 :: dels, hdr0 :: hdrs =>
      let args := fun (merged_fn : String) (iHeaderSkip : Nat) (dataSource : String) =>
        ({ strFilename := merged_fn
           strTargetFilename := strTargetFilename
           strTempDir := strTempDir
           iHeaderSkip := iHeaderSkip
           iComponentSize := r.iComponentSize
           iComponentCount := r.iComponentCount
           timesteps := u64 files.length
           bConvertEndianness := r.bConvertEndianess
           bSigned := r.bSigned
           bIsFloat := r.bIsFloat
           vVolumeSize := r.vVolumeSize
           vVolumeAspect := r.vVolumeAspect
           strDesc := r.strTitle
           strSource := dataSource
           iTargetBrickSize := iTargetBrickSize
           iTargetBrickOverlap := iTargetBrickOverlap
           eType := ElementSemanticTable.ES_UNDEFINED
           pKVPairs := none
           bQuantizeTo8Bit := bQuantizeTo8Bit } : ConvertArgs)
      if files.length > 1 then
        let merged_fn := strTempDir ++ ".merged_time_filename"
        let tr1 := s.tr ++ [Event.remove merged_fn]
        let tr2 := tr1 ++ [Event.create merged_fn (W.Create tr1 merged_fn)]
        match mergeFiles W merged_fn (payloadSize r) fuel
            (List.zip (fn0 :: fns) (List.zip (del0 :: dels) (hdr0 :: hdrs))) tr2 with
        | none => none
        | some tr3 =>
          some (UVFSetup.ready tr3
            (args merged_fn 0 ("Merged from " ++ String.join (files.map fun f => f ++ ", ")))
            true)
      else some (UVFSetup.ready s.tr (args fn0 hdr0 (W.GetFilename file0)) del0)
    | _, _, _, _, _ => none

/-- Models `RAWConverter::ConvertToUVF` (the overload for a list of files): the preparation,
the call of `ConvertRAWDataset`, the removal of the file handed over if its delete flag is
set. -/
def ConvertToUVF (W : ConvWorld) (fuel : Nat) (files : List String)
    (strTargetFilename strTempDir : String) (bNoUserInteraction : Bool)
    (iTargetBrickSize iTargetBrickOverlap : Nat) (bQuantizeTo8Bit : Bool) :
    Option (Bool × Trace) :=
  match prepareUVF W fuel files strTargetFilename strTempDir bNoUserInteraction
      iTargetBrickSize iTargetBrickOverlap bQuantizeTo8Bit with
  | none => none
  | some (UVFSetup.failed tr) => some (false, tr)
  | some (UVFSetup.ready tr a bDelete) =>
    match ConvertRAWDataset (W.toWorld.after tr) fuel a with
    | none => none
    | some (bUVFCreated, tr2) =>
      some (bUVFCreated,
        tr ++ tr2 ++ (if bDelete then [Event.remove a.strFilename] else []))

/-! ## The dynamic rebricking layer -/

/-- Modelled from the spec: the number of bricks of size `b` along an axis of `d` voxels,
one when the axis does not exceed the brick size and `ceil(d / b)` otherwise. -/
def bricksOnAxis (d b : Nat) : Nat :=
  if d ≤ b then 1 else (d + b - 1) / b

/-- Modelled from the spec: the brick counts of level `l` of the rebricked ladder, the
requested brick size `B` over the domain of the level, which is the finest domain `D`
divided by `2^l` on every axis. -/
def rebrickCount (D B : UINT64VECTOR3) (l : Nat) : UINT64VECTOR3 :=
  ⟨bricksOnAxis (D.x / 2 ^ l) B.x, bricksOnAxis (D.y / 2 ^ l) B.y,
    bricksOnAxis (D.z / 2 ^ l) B.z⟩

/-- Modelled from the spec: the ladder from level `l` on, built level by level until a
level has one brick on every axis; `none` when `fuel` levels were not enough. -/
def rebrickLadder (D B : UINT64VECTOR3) : Nat → Nat → Option (List UINT64VECTOR3)
  | 0, _ => none
  | fuel + 1, l =>
    if rebrickCount D B l = ⟨1, 1, 1⟩ then some [rebrickCount D B l]
    else (rebrickLadder D B fuel (l + 1)).map fun rest => rebrickCount D B l :: rest

/-- Modelled from the spec: the validation of `DynamicBrickingDS`, whether on some axis the
domain exceeds the requested brick size and is not evenly divisible by it. -/
def nonDividing (D B : UINT64VECTOR3) : Bool :=
  (decide (B.x < D.x) && decide (D.x % B.x ≠ 0))
    || (decide (B.y < D.y) && decide (D.y % B.y ≠ 0))
    || (decide (B.z < D.z) && decide (D.z % B.z ≠ 0))

/-- Modelled from the spec: the view a `DynamicBrickingDS` keeps, the finest-level domain
size of the wrapped dataset, the requested brick size and the brick counts of the levels of
the new ladder. -/
structure DynamicBrickingDS where
  domain : UINT64VECTOR3
  brickSize : UINT64VECTOR3
  ladder : List UINT64VECTOR3

/-- Modelled from the spec: what the construction of a `DynamicBrickingDS` ends in, a view
or the `std::runtime_error` it throws. -/
inductive Rebricked where
  | view (ds : DynamicBrickingDS) : Rebricked
  | runtime_error : Rebricked

/-- Modelled from the spec: the constructor of `DynamicBrickingDS` (`DynamicBrickingDS.cpp`
is not among the sources) over a dataset with the finest-level domain size `D` and the
requested brick size `B`: a non-dividing pair is an error, otherwise the ladder is built;
`none` when `fuel` levels were not enough. -/
def DynamicBrickingDS.create (fuel : Nat) (D B : UINT64VECTOR3) : Option Rebricked :=
  if nonDividing D B then some Rebricked.runtime_error
  else (rebrickLadder D B fuel 0).map fun ladder => Rebricked.view ⟨D, B, ladder⟩

/-- Modelled from the spec: `DynamicBrickingDS::GetTotalBrickCount`, the sum of the brick
counts of the levels. -/
def DynamicBrickingDS.GetTotalBrickCount (ds : DynamicBrickingDS) : Nat :=
  (ds.ladder.map fun c => c.x * c.y * c.z).sum

/-! ## The order of the per-timestep calls -/

/-- The timestep a call of bricking, of `Verify` or of `AddDataBlock` works on. -/
def Event.brickTimestep : Event → Option Nat
  | Event.flatDataToBrickedLOD ts _ _ _ _ _ _ => some ts
  | Event.verify ts _ => some ts
  | Event.addDataBlock _ ts _ => some ts
  | _ => none

/-- Whether a call is a bricking or a `Verify` that reported failure. -/
def Event.brickFailure : Event → Bool
  | Event.flatDataToBrickedLOD _ _ _ _ _ _ ok => !ok
  | Event.verify _ ok => !ok
  | _ => false

/-- Whether a call adds a block to the container. -/
def Event.isAdd : Event → Bool
  | Event.addDataBlock _ _ _ => true
  | _ => false

/-- Whether a call adds a raster block to the container. -/
def Event.isRasterAdd : Event → Bool
  | Event.addDataBlock BlockKind.raster _ _ => true
  | _ => false

/-- The calls of timestep `ts` besides a failing bricking or `Verify` and the adding of the
raster block. -/
def stepEvent (ts : Nat) (e : Event) : Prop :=
  e.brickFailure = false ∧ e.isRasterAdd = false ∧ ∀ t, e.brickTimestep = some t → t = ts

/-- Every adding of a raster block comes right after a successful bricking and a successful
`Verify` of its timestep. -/
def RasterAfterVerify (tr : Trace) : Prop :=
  ∀ ts ok, Event.addDataBlock BlockKind.raster ts ok ∈ tr →
    ∃ pre post src hdr tmp bits comps,
      tr = pre ++ [Event.flatDataToBrickedLOD ts src hdr tmp bits comps true,
        Event.verify ts true, Event.addDataBlock BlockKind.raster ts ok] ++ post

/-- The state of the trace when the loop enters timestep `n`: the bricking, `Verify` and
`AddDataBlock` calls so far belong to earlier timesteps, and none has failed. -/
def LoopInv (n : Nat) (tr : Trace) : Prop :=
  (∀ e ∈ tr, (∀ ts, e.brickTimestep = some ts → ts < n) ∧ e.brickFailure = false)
  ∧ RasterAfterVerify tr

/-- The state of the trace of a returning call: no block of a timestep whose bricking or
`Verify` failed has been added. -/
def FailInv (tr : Trace) : Prop :=
  RasterAfterVerify tr
  ∧ ∀ e ∈ tr, e.brickFailure = true → ∀ ts, e.brickTimestep = some ts →
      ∀ e2 ∈ tr, e2.isAdd = true → e2.brickTimestep ≠ some ts

/-- A property of the trace a stage leaves: `okP` when it went through, `failedP` when it made
the function return `false`. -/
def Stage.Holds {α : Type} (okP failedP : Trace → Prop) : Stage α → Prop
  | Stage.ok tr _ => okP tr
  | Stage.failed tr => failedP tr
  | Stage.stuck => True

/-! ## Sample data -/

/-- A sample raster block: an 8x8x1 single-component 16-bit volume in two levels, level 0
in 2x2x1 bricks (brick size 6, overlap 2), level 1 in a single 4x4x1 brick. -/
def sampleRdb : RasterDataBlock where
  ulDomainSemantics := [1, 2, 3]
  ulDomainSize := [8, 8, 1]
  ulLODLevelCount := [2]
  ulBrickOverlap := [2, 2, 2]
  ulBrickSize := [6, 6, 6]
  dDomainTransformation := (List.range 16).map fun i => if i % 5 = 0 then Dbl.fin 1 else Dbl.fin 0
  ulElementDimensionSize := [1]
  ulElementBitSize := [[16]]
  bSignedElement := [[false]]
  GetLODDomainSize := fun l => if l = [0] then [8, 8, 1] else [4, 4, 1]
  GetBrickCount := fun l => if l = [0] then [2, 2, 1] else [1, 1, 1]
  GetBrickSize := fun l b =>
    if l = [0] then [if b[0]? = some 0 then 6 else 4, if b[1]? = some 0 then 6 else 4, 1]
    else [4, 4, 1]

/-- A sample max/min block: entry `i` has scalar range `[i, i + 10]` and gradient range
`[0, c + 1]` for component `c`. -/
def sampleMaxMin : MaxMinDataBlock where
  GetValue := fun i c =>
    ⟨Dbl.fin (i : ℕ), Dbl.fin ((i + 10 : ℕ) : ℚ), Dbl.fin 0, Dbl.fin ((c + 1 : ℕ) : ℚ)⟩

/-- The view of the sample raster block with the sample max/min block attached. -/
def sampleView : UVFMetadata :=
  (UVFMetadata.construct sampleRdb (some sampleMaxMin) true).getD UVFMetadata.empty

/-- A raster block with bricks beyond the precision of `float`: one level of 2x1x1 bricks of
the extent 16777217 x 16777219 x 1, overlap 2. -/
def largeRdb : RasterDataBlock :=
  { sampleRdb with
    ulDomainSize := [33554432, 16777219, 1]
    ulLODLevelCount := [1]
    ulBrickSize := [16777217, 16777219, 1]
    GetLODDomainSize := fun _ => [33554432, 16777219, 1]
    GetBrickCount := fun _ => [2, 1, 1]
    GetBrickSize := fun _ _ => [16777217, 16777219, 1] }

/-- The view of the large raster block, without a max/min block. -/
def largeView : UVFMetadata :=
  (UVFMetadata.construct largeRdb none true).getD UVFMetadata.empty

/-- A sample world in which every collaborator succeeds: files open, reads deliver zero
bytes in full, writes are complete, the quantizers write their target file, bricking and
verification succeed.  The host is little-endian. -/
def sampleWorld : World where
  IsBigEndian := false
  GetFilename := fun s => s
  Open := fun _ _ _ => true
  Create := fun _ _ => true
  GetCurrentSize := fun _ _ => 128
  ReadRAW := fun _ _ n => List.replicate n 0
  WriteRAW := fun _ _ d => d.length
  newBuffer := fun _ n => List.replicate n 0
  QuantizeTo8Bit := fun _ _ _ dst _ _ _ _ => dst
  Process8Bits := fun _ _ src _ _ _ => src
  Quantize := fun _ _ _ _ dst _ => dst
  FlatDataToBrickedLOD := fun _ _ _ _ _ _ _ => true
  Verify := fun _ _ => true
  AddDataBlock := fun _ _ _ => true
  Histogram1DEmpty := fun _ => false
  Histogram1DCompute := fun _ _ => true
  Histogram2DCompute := fun _ _ => true

/-- A call after the one of the rebricking test (`mk_uvf`): a headerless 8x8x1
single-component unsigned 16-bit volume, one timestep, target brick size 16, overlap 2. -/
def sampleArgs : ConvertArgs where
  strFilename := "abc"
  strTargetFilename := "out.uvf"
  strTempDir := "."
  iHeaderSkip := 0
  iComponentSize := 16
  iComponentCount := 1
  timesteps := 1
  bConvertEndianness := false
  bSigned := false
  bIsFloat := false
  vVolumeSize := ⟨8, 8, 1⟩
  vVolumeAspect := ⟨1, 1, 1⟩
  strDesc := "desc"
  strSource := "iotest"
  iTargetBrickSize := 16
  iTargetBrickOverlap := 2
  eType := ElementSemanticTable.ES_UNDEFINED
  pKVPairs := none
  bQuantizeTo8Bit := false

/-- The sample call with endianness conversion requested. -/
def swappedArgs : ConvertArgs := { sampleArgs with bConvertEndianness := true }

/-- The sample world with a source file of four bytes. -/
def smallWorld : World := { sampleWorld with GetCurrentSize := fun _ _ => 4 }

/-- The sample world with a source file of four bytes and writes that fall one byte short. -/
def shortWriteWorld : World :=
  { sampleWorld with GetCurrentSize := fun _ _ => 4, WriteRAW := fun _ _ d => d.length - 1 }

/-- The sample world in which bricking fails. -/
def brickFailWorld : World :=
  { sampleWorld with FlatDataToBrickedLOD := fun _ _ _ _ _ _ _ => false }

/-- The sample world in which `Verify` fails. -/
def verifyFailWorld : World := { sampleWorld with Verify := fun _ _ => false }

/-- The sample world in which no file opens for reading. -/
def openFailWorld : World := { sampleWorld with Open := fun _ _ _ => false }

/-- The sample world with a source file of four bytes, a `Quantize` that has nothing to do
(it hands back the name of its input) and a failing bricking. -/
def swappedBrickFailWorld : World :=
  { sampleWorld with
    GetCurrentSize := fun _ _ => 4
    Quantize := fun _ _ _ src _ _ => src
    FlatDataToBrickedLOD := fun _ _ _ _ _ _ _ => false }

/-- A successful conversion to an intermediate file `f` that is to be deleted: a headerless
2x1x1 single-component unsigned 8-bit volume. -/
def sampleConversion (f : String) : RawConversion where
  success := true
  iHeaderSkip := 0
  iComponentSize := 8
  iComponentCount := 1
  bConvertEndianess := false
  bSigned := false
  bIsFloat := false
  vVolumeSize := ⟨2, 1, 1⟩
  vVolumeAspect := ⟨1, 1, 1⟩
  strTitle := "sample"
  eType := ElementSemanticTable.ES_UNDEFINED
  strIntermediateFile := f
  bDeleteIntermediateFile := true

/-- A world over files with the bytes `content f`: a read delivers the next bytes of the
file, as many as asked for or as are left, no target file exists beforehand, files open,
`ConvertToRAW` of a file `f` succeeds with the intermediate file `f ++ ".raw"`; the block
sizes are 4 bytes; everything else is as in the sample world. -/
def filesWorld (big : Bool) (content : String → List Nat) : ConvWorld where
  toWorld :=
    { sampleWorld with
      IsBigEndian := big
      GetCurrentSize := fun _ f => (content f).length
      ReadRAW := fun tr f n => ((content f).drop (bytesRead f tr)).take n }
  FileExists := fun _ _ => false
  Append := fun _ _ => true
  ConvertToRAW := fun _ f _ _ => sampleConversion (f ++ ".raw")
  BLOCK_COPY_SIZE := 4
  GetIncoreSize := 4

/-- A world over intermediate files with the bytes `content f`, each read from its start
after it is opened; everything else is as in `filesWorld` on a little-endian host. -/
def mergeWorld (content : String → List Nat) : ConvWorld :=
  { filesWorld false content with
    ReadRAW := fun tr f n => ((content f).drop (readPos f tr)).take n }

/-- The bytes of two intermediate files: `a.raw` holds 1, 2, 3 and every other file 4, 5. -/
def sampleContent (f : String) : List Nat :=
  if f = "a.raw" then [1, 2, 3] else [4, 5]

/-- A sample world of `Analyze`: the source opens and every scan finds the range `[0, 31]`. -/
def sampleAnalyzeWorld : AnalyzeWorld where
  Open := fun _ _ => true
  scanFloat := fun _ _ => (Dbl.fin 0, Dbl.fin 31)
  scanSigned := fun _ _ => (0, 31)
  scanUnsigned := fun _ _ => (0, 31)

/-- A `RangeInfo` before any scan. -/
def blankRangeInfo : RangeInfo := ⟨0, (Dbl.fin 0, Dbl.fin 0), (0, 0), (0, 0)⟩

/-- The sample raster block declared as four-component data. -/
def sampleRdb4 : RasterDataBlock := { sampleRdb with ulElementDimensionSize := [4] }

/-- The view of the four-component sample raster block with the sample max/min block. -/
def sampleView4 : UVFMetadata :=
  (UVFMetadata.construct sampleRdb4 (some sampleMaxMin) true).getD UVFMetadata.empty

/-- The key of brick `(x, y, z)` of level `lod`. -/
def mkKey (lod x y z : Nat) : NDBrickKey := ⟨[lod], [⟨x, y, z⟩]⟩

/-! ## Theorems -/

theorem Dbl.le_iff (a b : Dbl) : a ≤ b ↔ Dbl.le a b = true := Iff.rfl

theorem Dbl.le_fin_fin (a b : ℚ) : Dbl.le (Dbl.fin a) (Dbl.fin b) = decide (a ≤ b) := rfl

theorem sampleMaxMin_maxScalar (i c : Nat) :
    (sampleMaxMin.GetValue i c).maxScalar = Dbl.fin ((i + 10 : ℕ) : ℚ) := rfl

theorem sampleMaxMin_minScalar (i c : Nat) :
    (sampleMaxMin.GetValue i c).minScalar = Dbl.fin ((i : ℕ) : ℚ) := rfl

theorem sampleMaxMin_maxGradient (i c : Nat) :
    (sampleMaxMin.GetValue i c).maxGradient = Dbl.fin ((c + 1 : ℕ) : ℚ) := rfl

theorem sampleMaxMin_minGradient (i c : Nat) :
    (sampleMaxMin.GetValue i c).minGradient = Dbl.fin 0 := rfl

theorem Dbl.le_trans_bool {a b c : Dbl} (h1 : Dbl.le a b = true) (h2 : Dbl.le b c = true) :
    Dbl.le a c = true := by
  cases a <;> cases b <;> cases c <;> simp_all [Dbl.le]
  exact le_trans h1 h2

theorem Dbl.le_self_of_le_left {a b : Dbl} (h : Dbl.le a b = true) : Dbl.le a a = true := by
  cases a <;> cases b <;> simp_all [Dbl.le]

theorem Dbl.le_self_of_le_right {a b : Dbl} (h : Dbl.le a b = true) : Dbl.le b b = true := by
  cases a <;> cases b <;> simp_all [Dbl.le]

theorem Dbl.le_total_bool {a b : Dbl} (ha : Dbl.le a a = true) (hb : Dbl.le b b = true) :
    Dbl.le a b = true ∨ Dbl.le b a = true := by
  cases a <;> cases b <;> simp_all [Dbl.le]
  exact le_total _ _

theorem UVFMetadata.construct_maxMinData {rdb : RasterDataBlock}
    {p : Option MaxMinDataBlock} {b : Bool} {md : UVFMetadata}
    (h : UVFMetadata.construct rdb p b = some md) : md.m_pMaxMinData = p := by
  unfold UVFMetadata.construct at h
  simp only [Option.bind_eq_bind, Option.pure_def, Option.bind_eq_some] at h
  obtain ⟨_, _, _, _, _, _, _, _, _, _, _, _, _, _, _, _, _, _, h⟩ := h
  injection h with h
  rw [← h]

/-- Claim C1. A metadata view built without an acceleration (max/min) block answers `true`
to all three `ContainsData` overloads, for every brick key (in range or not) and every
query argument. -/
theorem C1_containsData_without_acceleration (rdb : RasterDataBlock) (bIsSameEndianness : Bool)
    (md : UVFMetadata) (h : UVFMetadata.construct rdb none bIsSameEndianness = some md)
    (k : NDBrickKey) (isoval fMin fMax fMinGradient fMaxGradient : Dbl) :
    md.ContainsData1 k isoval = some true
    ∧ md.ContainsData2 k fMin fMax = some true
    ∧ md.ContainsData4 k fMin fMax fMinGradient fMaxGradient = some true := by
  have hp : md.m_pMaxMinData = none := UVFMetadata.construct_maxMinData h
  simp [UVFMetadata.ContainsData1, UVFMetadata.ContainsData2, UVFMetadata.ContainsData4, hp]

/-- Witness of C1: the view of the sample raster block without a max/min block, asked
about a key outside every table with NaN and inverted ranges as arguments. -/
theorem C1_containsData_without_acceleration_witness :
    ∃ md, UVFMetadata.construct sampleRdb none true = some md
      ∧ md.ContainsData1 (mkKey 7 9 9 9) Dbl.nan = some true
      ∧ md.ContainsData2 (mkKey 7 9 9 9) (Dbl.fin 5) (Dbl.fin 2) = some true
      ∧ md.ContainsData4 (mkKey 7 9 9 9) (Dbl.fin 5) (Dbl.fin 2) Dbl.posInf Dbl.nan = some true :=
  match h : UVFMetadata.construct sampleRdb none true with
  | some md =>
    ⟨md, rfl, C1_containsData_without_acceleration sampleRdb true md h _ _ _ _ _ _⟩
  | none => absurd h (by rw [show UVFMetadata.construct sampleRdb none true
      = some ((UVFMetadata.construct sampleRdb none true).getD UVFMetadata.empty) from rfl]; simp)

/-- Claim C2. With an acceleration block attached, for every in-range brick key `k` (one
whose entry `e` is stored in the table) and every isovalue `v`, `ContainsData(k, v)`
returns, and returns `true` if and only if `v <= e.maxScalar`. -/
theorem C2_containsData_isovalue (md : UVFMetadata) (k : NDBrickKey)
    (e : InternalMaxMinElement) (hacc : md.m_pMaxMinData.isSome = true)
    (hk : md.maxMinElement k = some e) (v : Dbl) :
    md.ContainsData1 k v = some (decide (v ≤ e.maxScalar))
    ∧ (md.ContainsData1 k v = some true ↔ v ≤ e.maxScalar) := by
  obtain ⟨mm, hmm⟩ := Option.isSome_iff_exists.mp hacc
  have h1 : md.ContainsData1 k v = some (Dbl.le v e.maxScalar) := by
    simp [UVFMetadata.ContainsData1, hmm, hk]
  refine ⟨?_, ?_⟩
  · rw [h1]; simp [Dbl.le_iff]
  · rw [h1]; simp [Dbl.le_iff]

/-- Witness of C2: brick (1,1,0) of level 0 of the sample view, whose entry has
`maxScalar = 13`, queried with isovalue 13. -/
theorem C2_containsData_isovalue_witness :
    sampleView.ContainsData1 (mkKey 0 1 1 0) (Dbl.fin 13) = some true :=
  ((C2_containsData_isovalue sampleView (mkKey 0 1 1 0)
      (sampleMaxMin.GetValue 3 0) rfl rfl (Dbl.fin 13)).2).mpr
    (by norm_num [Dbl.le_iff, Dbl.le_fin_fin, sampleMaxMin_maxScalar])

/-- Claim C3. With an acceleration block attached, for every in-range brick key `k` with
entry `e` (`e.minScalar <= e.maxScalar`) and every query range with `fMin <= fMax`,
`ContainsData(k, fMin, fMax)` returns the value of the test
`fMax >= e.minScalar && fMin <= e.maxScalar`, and that is `true` if and only if the closed
interval `[fMin, fMax]` meets the closed interval `[e.minScalar, e.maxScalar]`. -/
theorem C3_containsData_range (md : UVFMetadata) (k : NDBrickKey)
    (e : InternalMaxMinElement) (hacc : md.m_pMaxMinData.isSome = true)
    (hk : md.maxMinElement k = some e) (fMin fMax : Dbl)
    (hq : fMin ≤ fMax) (he : e.minScalar ≤ e.maxScalar) :
    md.ContainsData2 k fMin fMax = some (Dbl.ge fMax e.minScalar && Dbl.le fMin e.maxScalar)
    ∧ (md.ContainsData2 k fMin fMax = some true ↔
        ∃ x : Dbl, fMin ≤ x ∧ x ≤ fMax ∧ e.minScalar ≤ x ∧ x ≤ e.maxScalar) := by
  obtain ⟨mm, hmm⟩ := Option.isSome_iff_exists.mp hacc
  have h1 : md.ContainsData2 k fMin fMax
      = some (Dbl.ge fMax e.minScalar && Dbl.le fMin e.maxScalar) := by
    simp [UVFMetadata.ContainsData2, hmm, hk]
  refine ⟨h1, ?_⟩
  rw [h1]
  simp only [Option.some.injEq, Bool.and_eq_true, Dbl.ge, Dbl.le_iff] at *
  constructor
  · rintro ⟨h2, h3⟩
    rcases Dbl.le_total_bool (Dbl.le_self_of_le_left hq) (Dbl.le_self_of_le_left he) with h | h
    · exact ⟨e.minScalar, h, h2, Dbl.le_self_of_le_left he, he⟩
    · exact ⟨fMin, Dbl.le_self_of_le_left hq, hq, h, h3⟩
  · rintro ⟨x, h2, h3, h4, h5⟩
    exact ⟨Dbl.le_trans_bool h4 h3, Dbl.le_trans_bool h2 h5⟩

/-- Witness of C3: brick (1,1,0) of level 0 of the sample view (scalar range `[3, 13]`)
queried with the range `[13, 20]`, which touches it in one point. -/
theorem C3_containsData_range_witness :
    sampleView.ContainsData2 (mkKey 0 1 1 0) (Dbl.fin 13) (Dbl.fin 20) = some true :=
  ((C3_containsData_range sampleView (mkKey 0 1 1 0)
      (sampleMaxMin.GetValue 3 0) rfl rfl (Dbl.fin 13) (Dbl.fin 20)
      (by norm_num [Dbl.le_iff, Dbl.le_fin_fin])
      (by norm_num [Dbl.le_iff, Dbl.le_fin_fin, sampleMaxMin_maxScalar,
        sampleMaxMin_minScalar])).2).mpr
    ⟨Dbl.fin 13, by norm_num [Dbl.le_iff, Dbl.le_fin_fin],
      by norm_num [Dbl.le_iff, Dbl.le_fin_fin],
      by norm_num [Dbl.le_iff, Dbl.le_fin_fin, sampleMaxMin_minScalar],
      by norm_num [Dbl.le_iff, Dbl.le_fin_fin, sampleMaxMin_maxScalar]⟩

/-- Claim C4. With an acceleration block attached, for every in-range brick key `k` with
entry `e` and all arguments, `ContainsData(k, fMin, fMax, gMin, gMax)` equals
`ContainsData(k, fMin, fMax)` AND `(gMax >= e.minGradient && gMin <= e.maxGradient)`;
in particular it implies the scalar-range predicate. -/
theorem C4_containsData_gradient (md : UVFMetadata) (k : NDBrickKey)
    (e : InternalMaxMinElement) (hacc : md.m_pMaxMinData.isSome = true)
    (hk : md.maxMinElement k = some e) (fMin fMax fMinGradient fMaxGradient : Dbl) :
    (∃ r, md.ContainsData2 k fMin fMax = some r
      ∧ md.ContainsData4 k fMin fMax fMinGradient fMaxGradient
          = some (r && (Dbl.ge fMaxGradient e.minGradient && Dbl.le fMinGradient e.maxGradient)))
    ∧ (md.ContainsData4 k fMin fMax fMinGradient fMaxGradient = some true →
        md.ContainsData2 k fMin fMax = some true) := by
  obtain ⟨mm, hmm⟩ := Option.isSome_iff_exists.mp hacc
  have h2 : md.ContainsData2 k fMin fMax
      = some (Dbl.ge fMax e.minScalar && Dbl.le fMin e.maxScalar) := by
    simp [UVFMetadata.ContainsData2, hmm, hk]
  have h4 : md.ContainsData4 k fMin fMax fMinGradient fMaxGradient
      = some ((Dbl.ge fMax e.minScalar && Dbl.le fMin e.maxScalar)
          && (Dbl.ge fMaxGradient e.minGradient && Dbl.le fMinGradient e.maxGradient)) := by
    simp [UVFMetadata.ContainsData4, hmm, hk]
  refine ⟨⟨_, h2, h4⟩, ?_⟩
  rw [h2, h4]
  simp only [Option.some.injEq, Bool.and_eq_true]
  exact fun h => h.1

/-- Witness of C4: brick (1,1,0) of level 0 of the sample view (scalar range `[3, 13]`,
gradient range `[0, 1]`): the scalar range `[5, 6]` meets, the gradient range `[2, 3]`
does not, so the five-argument predicate is `false` where the three-argument one is `true`. -/
theorem C4_containsData_gradient_witness :
    sampleView.ContainsData2 (mkKey 0 1 1 0) (Dbl.fin 5) (Dbl.fin 6) = some true
    ∧ sampleView.ContainsData4 (mkKey 0 1 1 0) (Dbl.fin 5) (Dbl.fin 6) (Dbl.fin 2) (Dbl.fin 3)
        = some false := by
  obtain ⟨⟨r, h2, h4⟩, _⟩ := C4_containsData_gradient sampleView (mkKey 0 1 1 0)
      (sampleMaxMin.GetValue 3 0) rfl rfl
      (Dbl.fin 5) (Dbl.fin 6) (Dbl.fin 2) (Dbl.fin 3)
  have hr : sampleView.ContainsData2 (mkKey 0 1 1 0) (Dbl.fin 5) (Dbl.fin 6) = some true := by
    have e1 : sampleView.m_pMaxMinData = some sampleMaxMin := rfl
    have e2 : sampleView.maxMinElement (mkKey 0 1 1 0) = some (sampleMaxMin.GetValue 3 0) := rfl
    simp only [UVFMetadata.ContainsData2, e1, e2]
    norm_num [Dbl.ge, Dbl.le_fin_fin, sampleMaxMin_maxScalar, sampleMaxMin_minScalar]
  refine ⟨hr, ?_⟩
  rw [h4]
  have : r = true := by rw [hr] at h2; exact (Option.some.inj h2).symm
  norm_num [this, Dbl.ge, Dbl.le_fin_fin, sampleMaxMin_maxGradient, sampleMaxMin_minGradient]

theorem excessBits_small (fuel n : Nat) (h : n < 2 ^ 24) : excessBits fuel n = 0 := by
  cases fuel with
  | zero => rfl
  | succ fuel => rw [excessBits, if_pos h]

/-- The bits left after the excess bits are dropped are at most 24, and exactly 24 when
bits were dropped. -/
theorem excessBits_spec :
    ∀ (fuel n : Nat), n < 2 ^ 24 * 2 ^ fuel →
      n / 2 ^ excessBits fuel n < 2 ^ 24
      ∧ (excessBits fuel n ≠ 0 → 2 ^ 23 ≤ n / 2 ^ excessBits fuel n) := by
  intro fuel
  induction fuel with
  | zero =>
    intro n h
    simp only [pow_zero, Nat.mul_one] at h
    exact ⟨by simpa [excessBits] using h, fun h0 => absurd rfl h0⟩
  | succ fuel ih =>
    intro n h
    by_cases hn : n < 2 ^ 24
    · rw [excessBits, if_pos hn]
      exact ⟨by simpa using hn, fun h0 => absurd rfl h0⟩
    · rw [excessBits, if_neg hn]
      have h2 : n / 2 < 2 ^ 24 * 2 ^ fuel := by
        rw [pow_succ] at h
        omega
      obtain ⟨ih1, ih2⟩ := ih (n / 2) h2
      have hdiv : n / 2 ^ (excessBits fuel (n / 2) + 1) = n / 2 / 2 ^ excessBits fuel (n / 2) := by
        rw [pow_succ, Nat.mul_comm, Nat.div_div_eq_div_mul]
      rw [hdiv]
      refine ⟨ih1, fun _ => ?_⟩
      by_cases he : excessBits fuel (n / 2) = 0
      · rw [he, pow_zero, Nat.div_one]
        omega
      · exact ih2 he

/-- The rounding of `float` arithmetic gives a multiple of `2^e`, `e` the number of bits
dropped, that is no further than half of `2^e` from the number. -/
theorem roundSig24_nearest (n : Nat) :
    2 ^ excessBits n n ∣ roundSig24 n
    ∧ 2 * roundSig24 n ≤ 2 * n + 2 ^ excessBits n n
    ∧ 2 * n ≤ 2 * roundSig24 n + 2 ^ excessBits n n := by
  have h1 := Nat.div_add_mod n (2 ^ excessBits n n)
  have h2 := Nat.mod_lt n (show 0 < 2 ^ excessBits n n from Nat.pow_pos (by decide))
  rw [Nat.mul_comm] at h1
  unfold roundSig24
  simp only []
  split
  · rename_i hup
    refine ⟨Dvd.intro_left _ rfl, ?_, ?_⟩
    · rw [Nat.add_mul, Nat.one_mul]
      rcases hup with h | ⟨h, _⟩ <;> omega
    · rw [Nat.add_mul, Nat.one_mul]
      omega
  · rename_i hup
    refine ⟨Dvd.intro_left _ rfl, by omega, ?_⟩
    have h3 : ¬ 2 * (n % 2 ^ excessBits n n) > 2 ^ excessBits n n := fun h => hup (Or.inl h)
    omega

/-- A number below `2^24` is a `float`. -/
theorem roundSig24_small (n : Nat) (h : n < 2 ^ 24) : roundSig24 n = n := by
  unfold roundSig24
  simp [excessBits_small n n h, Nat.mod_one]

theorem roundHalves_small (h : Int) (hh : h.natAbs < 2 ^ 24) : roundHalves h = h := by
  unfold roundHalves
  rw [roundSig24_small _ hh]
  split <;> omega

/-- The `x` axis of `GetEffectiveBrickSize` in closed form, for an in-range brick with an
extent and an overlap below `2^23`. -/
theorem effectiveAxisX_eq (size count idx overlap : Nat) (h : idx < count)
    (hs : size < 2 ^ 23) (ho : overlap < 2 ^ 23) :
    effectiveAxisX size count idx overlap
      = (size : ℚ) - (overlap : ℚ) / 2 * (interiorFaces count idx : ℚ) := by
  have e1 : roundHalves (2 * (size : Int) - (overlap : Int)) = 2 * (size : Int) - overlap :=
    roundHalves_small _ (by omega)
  have e2 : roundHalves (2 * (size : Int) - (overlap : Int) - (overlap : Int))
      = 2 * (size : Int) - overlap - overlap := roundHalves_small _ (by omega)
  unfold effectiveAxisX effectiveHalvesX interiorFaces
  rw [roundSig24_small size (by omega), roundSig24_small overlap (by omega)]
  by_cases h1 : count > 1 <;> by_cases h2 : idx > 0 <;> by_cases h3 : idx < count - 1 <;>
    simp only [h1, h2, h3, if_true, if_false, e1, e2] <;>
    first | (exfalso; omega) | (push_cast; ring)

/-- The `y` and `z` axes of `GetEffectiveBrickSize` in closed form, for an in-range brick
with an extent and an overlap below `2^23`. -/
theorem effectiveAxisYZ_eq (size count idx overlap : Nat) (h : idx < count)
    (hs : size < 2 ^ 23) (ho : overlap < 2 ^ 23) :
    effectiveAxisYZ size count idx overlap
      = (size : ℚ) - (overlap : ℚ) / 2 * (interiorFaces count idx : ℚ) := by
  have e1 : roundHalves (2 * (size : Int) - (overlap : Int)) = 2 * (size : Int) - overlap :=
    roundHalves_small _ (by omega)
  have e2 : roundHalves (2 * (size : Int) - (overlap : Int) - (overlap : Int))
      = 2 * (size : Int) - overlap - overlap := roundHalves_small _ (by omega)
  unfold effectiveAxisYZ effectiveHalvesYZ interiorFaces
  rw [roundSig24_small size (by omega), roundSig24_small overlap (by omega)]
  by_cases h1 : count > 1 <;> by_cases h2 : idx > 0 <;> by_cases h3 : idx < count - 1 <;>
    simp only [h1, h2, h3, if_true, if_false, e1, e2] <;>
    first | (exfalso; omega) | (push_cast; ring)

/-- The closed form of an axis gives all the parts of `AxisSpec`. -/
theorem axisSpec_of_eq (eff : ℚ) (size count idx overlap : Nat) (h : idx < count)
    (he : eff = (size : ℚ) - (overlap : ℚ) / 2 * (interiorFaces count idx : ℚ)) :
    AxisSpec eff size count idx overlap := by
  have hov : (0 : ℚ) ≤ (overlap : ℚ) / 2 := by positivity
  refine ⟨he, ?_, ?_, ?_, ?_⟩
  · rw [he]
    have : (0 : ℚ) ≤ (overlap : ℚ) / 2 * (interiorFaces count idx : ℚ) := by positivity
    linarith
  · intro h1
    have : interiorFaces count idx = 0 := by
      unfold interiorFaces
      have : idx = 0 := by omega
      simp [this, h1]
    rw [he, this]; simp
  · intro h0
    rw [he]; unfold interiorFaces; simp [h0]
  · intro h0
    rw [he]; unfold interiorFaces
    have : ¬ idx < count - 1 := by omega
    simp [this]

/-- Claim C5 fails as stated. Brick (1,0,0) of the view of the large raster block has the
extent 16777217 x 16777219 x 1, on axes with 2 x 1 x 1 bricks and the overlap 2.  On the
`x` axis, with one interior face, `GetEffectiveBrickSize` gives 16777215 and not
16777217 - 1: the conversion of the extent to `float` rounds it to 16777216.  On the `y`
axis, with a single brick, it gives 16777220, which is not the brick size and exceeds
it. -/
theorem C5_float_rounding_counterexample :
    largeView.GetBrickSize (mkKey 0 1 0 0) = some ⟨16777217, 16777219, 1⟩
    ∧ largeView.GetBrickCount 0 = some ⟨2, 1, 1⟩
    ∧ largeView.m_aOverlap = ⟨2, 2, 2⟩
    ∧ interiorFaces 2 1 = 1
    ∧ ∃ eff, largeView.GetEffectiveBrickSize (mkKey 0 1 0 0) = some eff
      ∧ eff.x = 16777215
      ∧ eff.x ≠ (16777217 : ℚ) - (2 : ℚ) / 2 * 1
      ∧ eff.y = 16777220
      ∧ (16777219 : ℚ) < eff.y := by
  have hx : effectiveAxisX 16777217 2 1 2 = 16777215 := by
    unfold effectiveAxisX
    rw [show effectiveHalvesX 16777217 2 1 2 = 33554430 by decide]
    norm_num
  have hy : effectiveAxisYZ 16777219 1 0 2 = 16777220 := by
    unfold effectiveAxisYZ
    rw [show effectiveHalvesYZ 16777219 1 0 2 = 33554440 by decide]
    norm_num
  refine ⟨rfl, rfl, rfl, rfl,
    ⟨effectiveAxisX 16777217 2 1 2, effectiveAxisYZ 16777219 1 0 2, effectiveAxisYZ 1 1 0 2⟩,
    rfl, hx, ?_, hy, ?_⟩
  · rw [hx]; norm_num
  · rw [hy]; norm_num

/-- Claim C5, amended. For every level and every in-range brick of it whose extent and
overlap are below `2^23` on every axis (so that the `float` arithmetic of the function is
exact), each component of `GetEffectiveBrickSize` equals the component of `GetBrickSize`
minus half the overlap times the number of interior faces of the brick on that axis (low
face interior iff the index is positive, high face iff it is below the last index); hence
it never exceeds the brick size, equals it on an axis with a single brick, and a boundary
face is never trimmed. -/
theorem C5_effective_brick_size (md : UVFMetadata) (k : NDBrickKey) (lod : Nat)
    (b sz cnt : UINT64VECTOR3)
    (hl : k.first[0]? = some lod) (hb : k.second[0]? = some b)
    (hsz : md.GetBrickSize k = some sz) (hcnt : md.GetBrickCount lod = some cnt)
    (hx : b.x < cnt.x) (hy : b.y < cnt.y) (hz : b.z < cnt.z)
    (hsmall : sz.x < 2 ^ 23 ∧ sz.y < 2 ^ 23 ∧ sz.z < 2 ^ 23)
    (hov : md.m_aOverlap.x < 2 ^ 23 ∧ md.m_aOverlap.y < 2 ^ 23 ∧ md.m_aOverlap.z < 2 ^ 23) :
    ∃ eff, md.GetEffectiveBrickSize k = some eff
      ∧ AxisSpec eff.x sz.x cnt.x b.x md.m_aOverlap.x
      ∧ AxisSpec eff.y sz.y cnt.y b.y md.m_aOverlap.y
      ∧ AxisSpec eff.z sz.z cnt.z b.z md.m_aOverlap.z := by
  have hsz2 : read4 md.m_vvaBrickSize lod b.x b.y b.z = some sz := by
    simpa [UVFMetadata.GetBrickSize, hl, hb] using hsz
  have hcnt2 : md.m_vaBrickCount[lod]? = some cnt := hcnt
  refine ⟨_, by simp [UVFMetadata.GetEffectiveBrickSize, hl, hb, hsz2, hcnt2]; rfl, ?_, ?_, ?_⟩
  · exact axisSpec_of_eq _ _ _ _ _ hx (effectiveAxisX_eq _ _ _ _ hx hsmall.1 hov.1)
  · exact axisSpec_of_eq _ _ _ _ _ hy (effectiveAxisYZ_eq _ _ _ _ hy hsmall.2.1 hov.2.1)
  · exact axisSpec_of_eq _ _ _ _ _ hz (effectiveAxisYZ_eq _ _ _ _ hz hsmall.2.2 hov.2.2)

/-- Witness of C5: brick (1,0,0) of level 0 of the sample view (2x2x1 bricks, overlap 2,
stored extent 4x6x1) has the effective extent 3x5x1. -/
theorem C5_effective_brick_size_witness :
    ∃ eff, sampleView.GetEffectiveBrickSize (mkKey 0 1 0 0) = some eff
      ∧ AxisSpec eff.x 4 2 1 2 ∧ AxisSpec eff.y 6 2 0 2 ∧ AxisSpec eff.z 1 1 0 2 :=
  C5_effective_brick_size sampleView (mkKey 0 1 0 0) 0 ⟨1, 0, 0⟩ ⟨4, 6, 1⟩ ⟨2, 2, 1⟩
    rfl rfl rfl rfl (by decide) (by decide) (by decide)
    ⟨by decide, by decide, by decide⟩ ⟨by decide, by decide, by decide⟩

/-- The loop of the level count: started at count `c` it adds the least `k` with
`m / 2 ^ k <= thr`. -/
theorem lodLoop_spec (thr : Nat) (m : Nat) :
    ∀ c, ∃ k, lodLoop thr m c = c + k ∧ m / 2 ^ k ≤ thr ∧ ∀ j, j < k → thr < m / 2 ^ j := by
  induction m using Nat.strong_induction_on with
  | _ m ih =>
    intro c
    by_cases h : m > thr
    · obtain ⟨k, hk, hle, hlt⟩ := ih (m / 2) (by omega) (c + 1)
      refine ⟨k + 1, ?_, ?_, ?_⟩
      · rw [lodLoop, dif_pos h, hk]; omega
      · rw [pow_succ, mul_comm, ← Nat.div_div_eq_div_mul]; exact hle
      · intro j hj
        cases j with
        | zero => simpa using h
        | succ j =>
          rw [pow_succ, mul_comm, ← Nat.div_div_eq_div_mul]
          exact hlt j (by omega)
    · refine ⟨0, ?_, ?_, ?_⟩
      · rw [lodLoop, dif_neg h]; rfl
      · simpa using Nat.le_of_not_gt h
      · intro j hj; omega

/-- Claim C6. For every volume size and target brick size `B`, the LOD level count computed by
`ConvertRAWDataset` is `1 + k` for the least `k` with `floor(M / 2^k) <= min(64, B)`, `M` the
largest of the three volume axes; it is 1 exactly when `M <= min(64, B)`, and an 8x8x1
volume with target brick size 16 gets exactly one level: the call of the rebricking test
sets up its raster block with that level count. -/
theorem C6_lod_level_count (vVolumeSize : UINT64VECTOR3) (iTargetBrickSize : Nat) :
    (∃ k, lodLevelCount vVolumeSize iTargetBrickSize = 1 + k
        ∧ vVolumeSize.maxVal / 2 ^ k ≤ min 64 iTargetBrickSize
        ∧ ∀ j, j < k → min 64 iTargetBrickSize < vVolumeSize.maxVal / 2 ^ j)
    ∧ (lodLevelCount vVolumeSize iTargetBrickSize = 1 ↔
        vVolumeSize.maxVal ≤ min 64 iTargetBrickSize)
    ∧ lodLevelCount ⟨8, 8, 1⟩ 16 = 1
    ∧ (∃ tr, ConvertRAWDataset sampleWorld 0 sampleArgs
        = some (true,
            Event.quantize SrcType.ushort 0 "abc" ".abc.quantized" 64 ".abc.quantized"
            :: Event.rasterBlock 0 (rasterSetup sampleArgs 16 (lodLevelCount ⟨8, 8, 1⟩ 16))
            :: tr)) := by
  obtain ⟨k, hk, hle, hlt⟩ := lodLoop_spec (min 64 iTargetBrickSize) vVolumeSize.maxVal 1
  refine ⟨⟨k, hk, hle, hlt⟩, ?_, ?_, ⟨_, rfl⟩⟩
  · constructor
    · intro h1
      have hk0 : k = 0 := by
        have : lodLevelCount vVolumeSize iTargetBrickSize = 1 + k := hk
        omega
      subst hk0
      simpa using hle
    · intro hM
      cases k with
      | zero => exact hk
      | succ k =>
        have := hlt 0 (by omega)
        simp at this
        omega
  · simp [lodLevelCount, lodLoop, UINT64VECTOR3.maxVal]

/-- Claim C7. Every call of `ConvertRAWDataset` with a component count greater than 4 returns
`false`, whatever the other arguments and the collaborators are, and before any call to a
collaborator. -/
theorem C7_component_count_rejected (W : World) (fuel : Nat) (a : ConvertArgs)
    (h : a.iComponentCount > 4) :
    ConvertRAWDataset W fuel a = some (false, []) := by
  simp [ConvertRAWDataset, convertStages, h]

/-- Witness of C7: the sample call with five components. -/
theorem C7_component_count_rejected_witness :
    ConvertRAWDataset sampleWorld 0 { sampleArgs with iComponentCount := 5 } = some (false, []) :=
  C7_component_count_rejected sampleWorld 0 { sampleArgs with iComponentCount := 5 }
    (by decide)

/-- Claim C8 fails as stated. The sample call with the unsupported component width 24
returns `false` only in the bricking dispatch of the first timestep, after the source file
`abc` has been opened for reading; and with no timestep at all the same width is not
rejected: the call returns `true` and writes the container. -/
theorem C8_unsupported_width_counterexample :
    ConvertRAWDataset sampleWorld 0 { sampleArgs with iComponentSize := 24 }
      = some (false,
          [Event.rasterBlock 0
              (rasterSetup { sampleArgs with iComponentSize := 24 } 24
                (lodLevelCount ⟨8, 8, 1⟩ 16)),
            Event.openRead "abc" 0 true, Event.uvfClose "out.uvf", Event.close "abc"])
    ∧ ConvertRAWDataset sampleWorld 0 { sampleArgs with iComponentSize := 24, timesteps := 0 }
      = some (true,
          [Event.keyValuePairs
              (metaPairs sampleWorld { sampleArgs with iComponentSize := 24, timesteps := 0 }),
            Event.uvfCreate "out.uvf", Event.uvfClose "out.uvf"]) :=
  ⟨rfl, rfl⟩

theorem timestepLoop_unsupported_size (W : World) (a : ConvertArgs) (e : LoopEnv) (n : Nat)
    (iHeaderSkip : Nat)
    (hw : e.iComponentSize ≠ 8 ∧ e.iComponentSize ≠ 16 ∧ e.iComponentSize ≠ 32) :
    timestepLoop W a e (n + 1) 0 [] iHeaderSkip
      = Stage.failed
          ([Event.rasterBlock 0 (rasterSetup a e.iComponentSize e.iLodLevelCount),
            Event.openRead e.strSourceFilename iHeaderSkip
              (W.Open [Event.rasterBlock 0 (rasterSetup a e.iComponentSize e.iLodLevelCount)]
                e.strSourceFilename iHeaderSkip)]
            ++ if W.Open [Event.rasterBlock 0 (rasterSetup a e.iComponentSize e.iLodLevelCount)]
                e.strSourceFilename iHeaderSkip
              then [Event.uvfClose a.strTargetFilename, Event.close e.strSourceFilename]
              else []) := by
  obtain ⟨h8, h16, h32⟩ := hw
  cases hopen : W.Open [Event.rasterBlock 0 (rasterSetup a e.iComponentSize e.iLodLevelCount)]
      e.strSourceFilename iHeaderSkip <;>
    simp [timestepLoop, timestepBody, hopen, h8, h16, h32]

/-- Claim C8, amended. For every call of `ConvertRAWDataset` whose component bit width is not
one of 8, 16, 32, 64, with at least one timestep and the width not handed to the forced
8-bit quantizer (flag off, or width at most 8), the call returns `false`, and when it does
no temp or target file has been created or written: either no collaborator has been called
at all, or the raster block of timestep 0 has been set up in memory and the source file has
been opened for reading, the open failing, or succeeding and being followed only by the
closing of the (never created) container and of the source file. -/
theorem C8_unsupported_width_rejected (W : World) (fuel : Nat) (a : ConvertArgs)
    (hw : a.iComponentSize ≠ 8 ∧ a.iComponentSize ≠ 16 ∧ a.iComponentSize ≠ 32
      ∧ a.iComponentSize ≠ 64)
    (hts : 0 < a.timesteps)
    (hq : a.bQuantizeTo8Bit = false ∨ a.iComponentSize ≤ 8) :
    ConvertRAWDataset W fuel a = some (false, [])
    ∨ (∃ blk hdr, ConvertRAWDataset W fuel a
        = some (false, [Event.rasterBlock 0 blk, Event.openRead a.strFilename hdr false]))
    ∨ (∃ blk hdr, ConvertRAWDataset W fuel a
        = some (false, [Event.rasterBlock 0 blk, Event.openRead a.strFilename hdr true,
            Event.uvfClose a.strTargetFilename, Event.close a.strFilename])) := by
  obtain ⟨h8, h16, h32, h64⟩ := hw
  obtain ⟨n, hn⟩ : ∃ n, a.timesteps = n + 1 := ⟨a.timesteps - 1, by omega⟩
  by_cases hc : a.iComponentCount > 4
  · left; simp [ConvertRAWDataset, convertStages, hc]
  unfold ConvertRAWDataset convertStages
  rw [if_neg hc]
  by_cases hconv : downgradeEndianness a.bConvertEndianness a.iComponentSize = true
  · left
    have hE : ∀ t, endianStage W fuel a true t = Stage.failed [] := by
      intro t
      have hlt : ¬ a.iComponentSize < 16 := by
        intro hlt
        cases hb : a.bConvertEndianness <;> simp [downgradeEndianness, hb, hlt] at hconv
      simp [endianStage, h16, h32, h64]
    simp only [hconv, hE]
  have hflag : downgradeEndianness a.bConvertEndianness a.iComponentSize = false := by
    simpa using hconv
  have hE : ∀ t, endianStage W fuel a false t = Stage.ok [] (a.strFilename, a.iHeaderSkip) := by
    intro t; simp [endianStage]
  have hq8 : (a.bQuantizeTo8Bit && decide (a.iComponentSize > 8)) = false := by
    rcases hq with hq | hq
    · simp [hq]
    · have : ¬ a.iComponentSize > 8 := by omega
      simp [this]
  have hQ : ∀ t, quantStage W a [] a.strFilename a.iHeaderSkip t
      = checkName [] a.strFilename a.iComponentSize := by
    intro t; simp [quantStage, hq8, h8, h16, h32, h64]
  simp only [hflag, hE, hQ]
  by_cases hname : a.strFilename = ""
  · left; simp [checkName, hname]
  right
  have hloop := fun e hdr hw => timestepLoop_unsupported_size W a e n hdr hw
  simp only [checkName, if_neg hname, convertTail, hn, Bool.and_false, Bool.false_eq_true,
    if_false]
  rw [hloop _ _ ⟨h8, h16, h32⟩]
  cases hopen : W.Open
      [Event.rasterBlock 0 (rasterSetup a a.iComponentSize
        (lodLevelCount a.vVolumeSize a.iTargetBrickSize))]
      a.strFilename
      (if decide (a.strFilename
          = a.strTempDir ++ W.GetFilename a.strFilename ++ ".quantized") = true
        then 0 else a.iHeaderSkip)
  · left
    exact ⟨_, _, by simp only [hopen]; rfl⟩
  · right
    exact ⟨_, _, by simp only [hopen]; rfl⟩

/-- Witness of C8 (amended): the sample call with the unsupported width 24. -/
theorem C8_unsupported_width_rejected_witness :
    ConvertRAWDataset sampleWorld 0 { sampleArgs with iComponentSize := 24 } = some (false, [])
    ∨ (∃ blk hdr, ConvertRAWDataset sampleWorld 0 { sampleArgs with iComponentSize := 24 }
        = some (false, [Event.rasterBlock 0 blk, Event.openRead "abc" hdr false]))
    ∨ (∃ blk hdr, ConvertRAWDataset sampleWorld 0 { sampleArgs with iComponentSize := 24 }
        = some (false, [Event.rasterBlock 0 blk, Event.openRead "abc" hdr true,
            Event.uvfClose "out.uvf", Event.close "abc"])) :=
  C8_unsupported_width_rejected sampleWorld 0 { sampleArgs with iComponentSize := 24 }
    (by decide) (by decide) (Or.inl rfl)

/-- Claim C9, the code at the failing input. For 32-bit and for 64-bit input flagged
floating-point and unsigned, `ConvertRAWDataset` does not reject: its first call selects
`Quantize<float, unsigned short>` (resp. `Quantize<double, unsigned short>`) for the data,
and in the sample world the whole conversion then succeeds. -/
theorem C9_unsigned_float_is_quantized :
    (∃ tr, ConvertRAWDataset sampleWorld 0
        { sampleArgs with iComponentSize := 32, bIsFloat := true, bSigned := false }
      = some (true,
          Event.quantize SrcType.float 0 "abc" ".abc.quantized" 64 ".abc.quantized" :: tr))
    ∧ (∃ tr, ConvertRAWDataset sampleWorld 0
        { sampleArgs with iComponentSize := 64, bIsFloat := true, bSigned := false }
      = some (true,
          Event.quantize SrcType.double 0 "abc" ".abc.quantized" 64 ".abc.quantized" :: tr)) :=
  ⟨⟨_, rfl⟩, ⟨_, rfl⟩⟩

/-- Claim C10. Given that the source file opens, the eight-argument `Analyze` returns `true`
if and only if the (bit width, signed, float) combination is supported: float and signed
with width 32 or 64, or non-float with width 8, 16, 32 or 64; every other combination,
unsigned float included, returns `false`. -/
theorem C10_analyze_supported (W : AnalyzeWorld) (strSourceFilename : String)
    (iHeaderSkip iComponentSize iComponentCount : Nat) (bSigned bFloatingPoint : Bool)
    (vVolumeSize : UINT64VECTOR3) (info : RangeInfo)
    (hopen : W.Open strSourceFilename iHeaderSkip = true) :
    ((Analyze W strSourceFilename iHeaderSkip iComponentSize iComponentCount bSigned
        bFloatingPoint vVolumeSize info).1 = true
      ↔ supportedCombination iComponentSize bSigned bFloatingPoint)
    ∧ (bFloatingPoint = true → bSigned = false →
        (Analyze W strSourceFilename iHeaderSkip iComponentSize iComponentCount bSigned
          bFloatingPoint vVolumeSize info).1 = false) := by
  unfold Analyze supportedCombination
  cases bFloatingPoint <;> cases bSigned <;> simp [hopen] <;>
    by_cases h32 : iComponentSize = 32 <;> by_cases h64 : iComponentSize = 64 <;>
    by_cases h8 : iComponentSize = 8 <;> by_cases h16 : iComponentSize = 16 <;>
    simp_all

/-- Witness of C10: the unsigned 16-bit sample is analysed successfully. -/
theorem C10_analyze_supported_witness :
    (Analyze sampleAnalyzeWorld "abc" 0 16 1 false false ⟨8, 8, 1⟩ blankRangeInfo).1 = true :=
  ((C10_analyze_supported sampleAnalyzeWorld "abc" 0 16 1 false false ⟨8, 8, 1⟩
      blankRangeInfo rfl).1).mpr (Or.inr ⟨rfl, Or.inr (Or.inl rfl)⟩)

/-! ### The table of acceleration entries -/

theorem read4_isSome {α : Type} {T : List (List (List (List α)))} {l x y z : Nat}
    (h : (read4 T l x y z).isSome = true) :
    ∃ a b c, T[l]? = some a ∧ a[x]? = some b ∧ b[y]? = some c ∧ z < c.length := by
  unfold read4 at h
  cases ha : T[l]? with
  | none => simp [ha] at h
  | some a =>
    cases hb : a[x]? with
    | none => simp [ha, hb] at h
    | some b =>
      cases hc : b[y]? with
      | none => simp [ha, hb, hc] at h
      | some c =>
        refine ⟨a, b, c, rfl, hb, hc, ?_⟩
        simp [ha, hb, hc, List.get?_eq_getElem?] at h
        obtain ⟨v, hv⟩ := Option.isSome_iff_exists.mp h
        exact (List.getElem?_eq_some.mp hv).1

/-- An assignment inside the table succeeds, changes the assigned slot and no other. -/
theorem assign4_spec {α : Type} (T : List (List (List (List α)))) (l x y z : Nat) (e : α)
    (h : (read4 T l x y z).isSome = true) :
    ∃ T', assign4 T l x y z e = some T'
      ∧ ∀ l' x' y' z', read4 T' l' x' y' z'
          = if l' = l ∧ x' = x ∧ y' = y ∧ z' = z then some e else read4 T l' x' y' z' := by
  obtain ⟨a, b, c, ha, hb, hc, hz⟩ := read4_isSome h
  have hl : l < T.length := (List.getElem?_eq_some.mp ha).1
  have hx : x < a.length := (List.getElem?_eq_some.mp hb).1
  have hy : y < b.length := (List.getElem?_eq_some.mp hc).1
  refine ⟨T.set l (a.set x (b.set y (c.set z e))), by simp [assign4, ha, hb, hc, hz], ?_⟩
  intro l' x' y' z'
  by_cases h1 : l' = l
  · subst h1
    by_cases h2 : x' = x
    · subst h2
      by_cases h3 : y' = y
      · subst h3
        by_cases h4 : z' = z
        · subst h4
          simp [read4, List.getElem?_set, hl, hx, hy, hz, List.get?_eq_getElem?]
        · have h4' : ¬ z = z' := fun h => h4 h.symm
          simp [read4, List.getElem?_set, hl, hx, hy, h4, h4', ha, hb, hc,
            List.get?_eq_getElem?]
      · have h3' : ¬ y = y' := fun h => h3 h.symm
        simp [read4, List.getElem?_set, hl, hx, h3, h3', ha, hb]
    · have h2' : ¬ x = x' := fun h => h2 h.symm
      simp [read4, List.getElem?_set, hl, h2, h2', ha]
  · have h1' : ¬ l = l' := fun h => h1 h.symm
    simp [read4, List.getElem?_set, h1, h1']

/-- The slots of the freshly resized table: exactly the in-range ones exist. -/
theorem read4_blank (counts : List UINT64VECTOR3) (l x y z : Nat) :
    (read4 (counts.map blankMaxMinLevel) l x y z).isSome = true
      ↔ ∃ cnt, counts[l]? = some cnt ∧ x < cnt.x ∧ y < cnt.y ∧ z < cnt.z := by
  unfold read4
  cases hc : counts[l]? with
  | none => simp [hc]
  | some cnt =>
    simp only [List.getElem?_map, hc, Option.map_some', Option.bind_eq_bind, Option.some_bind,
      blankMaxMinLevel, List.getElem?_replicate, List.get?_eq_getElem?]
    by_cases hx : x < cnt.x <;> by_cases hy : y < cnt.y <;> by_cases hz : z < cnt.z <;>
      simp [hx, hy, hz, List.getElem?_replicate]

/-- A loop over `range n` whose round `j` assigns the slots of block `j` (the keys with
`blk = j` that satisfy `Q`) from consecutive serialized entries, `w j` of them, assigns all
slots of the blocks below `n`, in order. -/
theorem fold_writes (G : Nat → InternalMaxMinElement)
    (F : Option FillState → Nat → Option FillState)
    (blk : Nat → Nat → Nat → Nat → Nat) (Q : Nat → Nat → Nat → Nat → Prop)
    (v : Nat → Nat → Nat → Nat → Nat) (w : Nat → Nat) (n : Nat)
    (hstep : ∀ j, j < n → ∀ s : FillState,
      (∀ l x y z, blk l x y z = j → Q l x y z → (read4 s.table l x y z).isSome = true) →
      ∃ s1, F (some s) j = some s1 ∧ s1.iSerializedIndex = s.iSerializedIndex + w j
        ∧ (∀ l x y z, blk l x y z = j → Q l x y z →
            read4 s1.table l x y z = some (G (s.iSerializedIndex + v l x y z)))
        ∧ (∀ l x y z, ¬ (blk l x y z = j ∧ Q l x y z) →
            read4 s1.table l x y z = read4 s.table l x y z))
    (s0 : FillState)
    (hdom : ∀ l x y z, blk l x y z < n → Q l x y z →
      (read4 s0.table l x y z).isSome = true) :
    ∃ s1, (List.range n).foldl F (some s0) = some s1
      ∧ s1.iSerializedIndex = s0.iSerializedIndex + ∑ j ∈ Finset.range n, w j
      ∧ (∀ l x y z, blk l x y z < n → Q l x y z →
          read4 s1.table l x y z
            = some (G (s0.iSerializedIndex + (∑ j ∈ Finset.range (blk l x y z), w j)
                + v l x y z)))
      ∧ (∀ l x y z, ¬ (blk l x y z < n ∧ Q l x y z) →
          read4 s1.table l x y z = read4 s0.table l x y z) := by
  induction n with
  | zero =>
    exact ⟨s0, by simp, by simp, fun l x y z h => absurd h (Nat.not_lt_zero _),
      fun _ _ _ _ _ => rfl⟩
  | succ n ih =>
    obtain ⟨s1, hf1, hi1, hv1, hu1⟩ :=
      ih (fun j hj => hstep j (Nat.lt_succ_of_lt hj))
        (fun l x y z hb hq => hdom l x y z (Nat.lt_succ_of_lt hb) hq)
    have hd1 : ∀ l x y z, blk l x y z = n → Q l x y z →
        (read4 s1.table l x y z).isSome = true := by
      intro l x y z hb hq
      rw [hu1 l x y z (by intro h; omega)]
      exact hdom l x y z (by omega) hq
    obtain ⟨s2, hf2, hi2, hv2, hu2⟩ := hstep n (Nat.lt_succ_self n) s1 hd1
    refine ⟨s2, ?_, ?_, ?_, ?_⟩
    · rw [List.range_succ, List.foldl_append, hf1]; simpa using hf2
    · rw [hi2, hi1, Finset.sum_range_succ]; omega
    · intro l x y z hb hq
      by_cases hbn : blk l x y z = n
      · rw [hv2 l x y z hbn hq, hi1, hbn]
      · rw [hu2 l x y z (fun h => hbn h.1)]
        exact hv1 l x y z (by omega) hq
    · intro l x y z hnot
      rw [hu2 l x y z (fun h => hnot ⟨by omega, h.2⟩)]
      exact hu1 l x y z (fun h => hnot ⟨by omega, h.2⟩)

/-- The innermost loop (over `x`) of the filling of the table. -/
theorem fill_x (rdb : RasterDataBlock) (mm : MaxMinDataBlock) (nComp : Nat)
    (hn : rdb.ulElementDimensionSize[0]? = some nComp) (lod z y cx : Nat) (s : FillState)
    (hdom : ∀ x, x < cx → (read4 s.table lod x y z).isSome = true) :
    ∃ s1, (List.range cx).foldl (fillStep rdb mm lod z y) (some s) = some s1
      ∧ s1.iSerializedIndex = s.iSerializedIndex + cx
      ∧ (∀ x, x < cx → read4 s1.table lod x y z
          = some (mm.GetValue (s.iSerializedIndex + x) (accelerationComponent nComp)))
      ∧ (∀ l1 x1 y1 z1, ¬ (l1 = lod ∧ x1 < cx ∧ y1 = y ∧ z1 = z) →
          read4 s1.table l1 x1 y1 z1 = read4 s.table l1 x1 y1 z1) := by
  obtain ⟨s1, hf, hi, hv, hu⟩ := fold_writes
    (fun i => mm.GetValue i (accelerationComponent nComp)) (fillStep rdb mm lod z y)
    (fun _ x1 _ _ => x1) (fun l1 _ y1 z1 => l1 = lod ∧ y1 = y ∧ z1 = z)
    (fun _ _ _ _ => 0) (fun _ => 1) cx
    (by
      intro j _ st hd
      obtain ⟨T1, hT, hr⟩ := assign4_spec st.table lod j y z
        (mm.GetValue st.iSerializedIndex (accelerationComponent nComp))
        (hd lod j y z rfl ⟨rfl, rfl, rfl⟩)
      refine ⟨⟨T1, st.iSerializedIndex + 1⟩, ?_, rfl, ?_, ?_⟩
      · simp only [fillStep, hn, accelerationComponent] at hT ⊢
        simp [hT]
      · rintro l1 x1 y1 z1 hb ⟨h1, h2, h3⟩
        simp only at hb
        rw [hr]; simp [hb, h1, h2, h3]
      · intro l1 x1 y1 z1 hnot
        rw [hr]
        have : ¬ (l1 = lod ∧ x1 = j ∧ y1 = y ∧ z1 = z) :=
          fun h => hnot ⟨h.2.1, h.1, h.2.2.1, h.2.2.2⟩
        simp [this])
    s (by rintro l1 x1 y1 z1 hb ⟨h1, h2, h3⟩; subst h1 h2 h3; exact hdom x1 hb)
  refine ⟨s1, hf, by simpa using hi, ?_, ?_⟩
  · intro x hx
    have := hv lod x y z hx ⟨rfl, rfl, rfl⟩
    simpa using this
  · intro l1 x1 y1 z1 hnot
    exact hu l1 x1 y1 z1 (fun h => hnot ⟨h.2.1, h.1, h.2.2.1, h.2.2.2⟩)

/-- The loop over `y` (with the loop over `x` inside) of the filling of the table. -/
theorem fill_y (rdb : RasterDataBlock) (mm : MaxMinDataBlock) (nComp : Nat)
    (hn : rdb.ulElementDimensionSize[0]? = some nComp) (lod z cx cy : Nat) (s : FillState)
    (hdom : ∀ x y, x < cx → y < cy → (read4 s.table lod x y z).isSome = true) :
    ∃ s1, (List.range cy).foldl
        (fun s y => (List.range cx).foldl (fillStep rdb mm lod z y) s) (some s) = some s1
      ∧ s1.iSerializedIndex = s.iSerializedIndex + cy * cx
      ∧ (∀ x y, x < cx → y < cy → read4 s1.table lod x y z
          = some (mm.GetValue (s.iSerializedIndex + y * cx + x) (accelerationComponent nComp)))
      ∧ (∀ l1 x1 y1 z1, ¬ (l1 = lod ∧ x1 < cx ∧ y1 < cy ∧ z1 = z) →
          read4 s1.table l1 x1 y1 z1 = read4 s.table l1 x1 y1 z1) := by
  obtain ⟨s1, hf, hi, hv, hu⟩ := fold_writes
    (fun i => mm.GetValue i (accelerationComponent nComp))
    (fun s y => (List.range cx).foldl (fillStep rdb mm lod z y) s)
    (fun _ _ y1 _ => y1) (fun l1 x1 _ z1 => l1 = lod ∧ x1 < cx ∧ z1 = z)
    (fun _ x1 _ _ => x1) (fun _ => cx) cy
    (by
      intro j _ st hd
      obtain ⟨s1, hf, hi, hv, hu⟩ := fill_x rdb mm nComp hn lod z j cx st
        (fun x hx => hd lod x j z rfl ⟨rfl, hx, rfl⟩)
      refine ⟨s1, hf, hi, ?_, ?_⟩
      · rintro l1 x1 y1 z1 hb ⟨h1, h2, h3⟩
        simp only at hb
        subst h1 h3 hb
        exact hv x1 h2
      · intro l1 x1 y1 z1 hnot
        exact hu l1 x1 y1 z1 (fun h => hnot ⟨h.2.2.1, h.1, h.2.1, h.2.2.2⟩))
    s (by rintro l1 x1 y1 z1 hb ⟨h1, h2, h3⟩; subst h1 h3; exact hdom x1 y1 h2 hb)
  refine ⟨s1, hf, by simpa using hi, ?_, ?_⟩
  · intro x y hx hy
    have := hv lod x y z hy ⟨rfl, hx, rfl⟩
    simpa using this
  · intro l1 x1 y1 z1 hnot
    exact hu l1 x1 y1 z1 (fun h => hnot ⟨h.2.1, h.2.2.1, h.1, h.2.2.2⟩)

/-- The loop over `z` (with the loops over `y` and `x` inside): the filling of one level. -/
theorem fill_z (rdb : RasterDataBlock) (mm : MaxMinDataBlock) (nComp : Nat)
    (hn : rdb.ulElementDimensionSize[0]? = some nComp) (lod cx cy cz : Nat) (s : FillState)
    (hdom : ∀ x y z, x < cx → y < cy → z < cz → (read4 s.table lod x y z).isSome = true) :
    ∃ s1, (List.range cz).foldl
        (fun s z => (List.range cy).foldl
          (fun s y => (List.range cx).foldl (fillStep rdb mm lod z y) s) s) (some s) = some s1
      ∧ s1.iSerializedIndex = s.iSerializedIndex + cx * cy * cz
      ∧ (∀ x y z, x < cx → y < cy → z < cz → read4 s1.table lod x y z
          = some (mm.GetValue (s.iSerializedIndex + z * cx * cy + y * cx + x)
              (accelerationComponent nComp)))
      ∧ (∀ l1 x1 y1 z1, ¬ (l1 = lod ∧ x1 < cx ∧ y1 < cy ∧ z1 < cz) →
          read4 s1.table l1 x1 y1 z1 = read4 s.table l1 x1 y1 z1) := by
  obtain ⟨s1, hf, hi, hv, hu⟩ := fold_writes
    (fun i => mm.GetValue i (accelerationComponent nComp))
    (fun s z => (List.range cy).foldl
      (fun s y => (List.range cx).foldl (fillStep rdb mm lod z y) s) s)
    (fun _ _ _ z1 => z1) (fun l1 x1 y1 _ => l1 = lod ∧ x1 < cx ∧ y1 < cy)
    (fun _ x1 y1 _ => y1 * cx + x1) (fun _ => cy * cx) cz
    (by
      intro j _ st hd
      obtain ⟨s1, hf, hi, hv, hu⟩ := fill_y rdb mm nComp hn lod j cx cy st
        (fun x y hx hy => hd lod x y j rfl ⟨rfl, hx, hy⟩)
      refine ⟨s1, hf, hi, ?_, ?_⟩
      · rintro l1 x1 y1 z1 hb ⟨h1, h2, h3⟩
        simp only at hb
        subst h1 hb
        rw [hv x1 y1 h2 h3, Nat.add_assoc]
      · intro l1 x1 y1 z1 hnot
        exact hu l1 x1 y1 z1 (fun h => hnot ⟨h.2.2.2, h.1, h.2.1, h.2.2.1⟩))
    s (by rintro l1 x1 y1 z1 hb ⟨h1, h2, h3⟩; subst h1; exact hdom x1 y1 z1 h2 h3 hb)
  refine ⟨s1, hf, ?_, ?_, ?_⟩
  · rw [hi]; simp; ring
  · intro x y z hx hy hz
    have := hv lod x y z hz ⟨rfl, hx, hy⟩
    rw [this]
    congr 2
    simp
    ring
  · intro l1 x1 y1 z1 hnot
    exact hu l1 x1 y1 z1 (fun h => hnot ⟨h.2.1, h.2.2.1, h.2.2.2, h.1⟩)

theorem countAt_of_getElem? {counts : List UINT64VECTOR3} {l : Nat} {cnt : UINT64VECTOR3}
    (h : counts[l]? = some cnt) : countAt counts l = cnt := by
  simp [countAt, h]

/-- The loops of `fillMaxMin`: every in-range slot of the levels below `nLod` receives the
serialized entry at its `serialPosition`, from the component `accelerationComponent`. -/
theorem fill_lod (rdb : RasterDataBlock) (mm : MaxMinDataBlock) (nComp : Nat)
    (hn : rdb.ulElementDimensionSize[0]? = some nComp) (counts : List UINT64VECTOR3)
    (nLod : Nat) (hlen : nLod ≤ counts.length) (s : FillState)
    (hdom : ∀ l x y z, l < nLod → x < (countAt counts l).x → y < (countAt counts l).y →
      z < (countAt counts l).z → (read4 s.table l x y z).isSome = true) :
    ∃ s1, fillMaxMin rdb mm nLod counts s = some s1
      ∧ s1.iSerializedIndex
          = s.iSerializedIndex + ∑ j ∈ Finset.range nLod, levelBricks counts j
      ∧ (∀ l x y z, l < nLod → x < (countAt counts l).x → y < (countAt counts l).y →
          z < (countAt counts l).z →
          read4 s1.table l x y z
            = some (mm.GetValue (s.iSerializedIndex + serialPosition counts l x y z)
                (accelerationComponent nComp)))
      ∧ (∀ l x y z, ¬ (l < nLod ∧ x < (countAt counts l).x ∧ y < (countAt counts l).y
            ∧ z < (countAt counts l).z) →
          read4 s1.table l x y z = read4 s.table l x y z) := by
  obtain ⟨s1, hf, hi, hv, hu⟩ := fold_writes
    (fun i => mm.GetValue i (accelerationComponent nComp))
    (fun s lod =>
      match counts[lod]? with
      | none => none
      | some cnt =>
        (List.range cnt.z).foldl
          (fun s z =>
            (List.range cnt.y).foldl
              (fun s y => (List.range cnt.x).foldl (fillStep rdb mm lod z y) s)
              s)
          s)
    (fun l1 _ _ _ => l1)
    (fun l1 x1 y1 z1 => x1 < (countAt counts l1).x ∧ y1 < (countAt counts l1).y
      ∧ z1 < (countAt counts l1).z)
    (fun l1 x1 y1 z1 => z1 * (countAt counts l1).x * (countAt counts l1).y
      + y1 * (countAt counts l1).x + x1)
    (levelBricks counts) nLod
    (by
      intro j hj st hd
      obtain ⟨cnt, hc⟩ : ∃ cnt, counts[j]? = some cnt :=
        ⟨counts[j], List.getElem?_eq_getElem (by omega)⟩
      have hca := countAt_of_getElem? hc
      obtain ⟨s1, hf, hi, hv, hu⟩ := fill_z rdb mm nComp hn j cnt.x cnt.y cnt.z st
        (fun x y z hx hy hz => hd j x y z rfl (by simp only [hca]; exact ⟨hx, hy, hz⟩))
      refine ⟨s1, by simp only [hc]; exact hf, by rw [hi, levelBricks, hca], ?_, ?_⟩
      · rintro l1 x1 y1 z1 hb ⟨h1, h2, h3⟩
        simp only at hb
        subst hb
        simp only [hca] at h1 h2 h3 ⊢
        rw [hv x1 y1 z1 h1 h2 h3]
        congr 2
        omega
      · intro l1 x1 y1 z1 hnot
        refine hu l1 x1 y1 z1 (fun h => hnot ⟨h.1, ?_⟩)
        obtain ⟨h0, h1, h2, h3⟩ := h
        subst h0
        simp only [hca]
        exact ⟨h1, h2, h3⟩)
    s (by rintro l1 x1 y1 z1 hb ⟨h1, h2, h3⟩; exact hdom l1 x1 y1 z1 hb h1 h2 h3)
  refine ⟨s1, hf, hi, ?_, ?_⟩
  · intro l x y z hl hx hy hz
    rw [hv l x y z hl ⟨hx, hy, hz⟩, serialPosition]
    congr 2
    omega
  · intro l x y z hnot
    exact hu l x y z (fun h => hnot ⟨h.1, h.2.1, h.2.2.1, h.2.2.2⟩)

/-- A successful `mapM` in `Option` keeps the length. -/
theorem mapM_option_length {α β : Type} (f : α → Option β) :
    ∀ (l : List α) (r : List β), l.mapM f = some r → r.length = l.length := by
  intro l
  induction l with
  | nil => intro r h; rw [List.mapM_nil] at h; cases h; rfl
  | cons a l ih =>
    intro r h
    simp only [List.mapM_cons, Option.bind_eq_bind, Option.pure_def, Option.bind_eq_some] at h
    obtain ⟨b, _, bs, hbs, hr⟩ := h
    injection hr with hr
    subst hr
    simp [ih bs hbs]

/-- What the constructor leaves in a view built with a max/min block: the level count, the
brick counts (one per level) and the table the loops of `fillMaxMin` produce from the
resized table and a serialized index of zero. -/
theorem UVFMetadata.construct_fill {rdb : RasterDataBlock} {mm : MaxMinDataBlock} {b : Bool}
    {md : UVFMetadata} (h : UVFMetadata.construct rdb (some mm) b = some md) :
    md.m_vaBrickCount.length = md.m_iLODLevel
    ∧ ∃ st, fillMaxMin rdb mm md.m_iLODLevel md.m_vaBrickCount
        ⟨md.m_vaBrickCount.map blankMaxMinLevel, 0⟩ = some st
      ∧ md.m_vvaMaxMin = st.table := by
  unfold UVFMetadata.construct at h
  simp only [Option.bind_eq_bind, Option.pure_def, Option.bind_eq_some] at h
  obtain ⟨_, _, nLod, _, _, _, _, _, _, _, _, _, _, _, levels, hlev, T, hT, h⟩ := h
  injection h with h
  subst h
  simp only [buildMaxMin, Option.map_eq_some'] at hT
  obtain ⟨st, hst, hTt⟩ := hT
  have hlen := mapM_option_length _ _ _ hlev
  refine ⟨by simpa using hlen, st, hst, hTt.symm⟩

/-- The entry the constructor stores for an in-range brick, and the number of serialized
entries it consumes. -/
theorem UVFMetadata.construct_entry {rdb : RasterDataBlock} {mm : MaxMinDataBlock} {b : Bool}
    {md : UVFMetadata} {nComp : Nat}
    (h : UVFMetadata.construct rdb (some mm) b = some md)
    (hn : rdb.ulElementDimensionSize[0]? = some nComp) :
    (∀ l x y z cnt, md.GetBrickCount l = some cnt → x < cnt.x → y < cnt.y → z < cnt.z →
      read4 md.m_vvaMaxMin l x y z
        = some (mm.GetValue (serialPosition md.m_vaBrickCount l x y z)
            (accelerationComponent nComp)))
    ∧ ∃ st, fillMaxMin rdb mm md.m_iLODLevel md.m_vaBrickCount
          ⟨md.m_vaBrickCount.map blankMaxMinLevel, 0⟩ = some st
        ∧ md.m_vvaMaxMin = st.table
        ∧ st.iSerializedIndex
            = ∑ j ∈ Finset.range md.m_iLODLevel, levelBricks md.m_vaBrickCount j := by
  obtain ⟨hlen, st, hst, htab⟩ := UVFMetadata.construct_fill h
  obtain ⟨s1, hf, hi, hv, _⟩ := fill_lod rdb mm nComp hn md.m_vaBrickCount md.m_iLODLevel
    (by omega) ⟨md.m_vaBrickCount.map blankMaxMinLevel, 0⟩
    (by
      intro l x y z hl hx hy hz
      have hc : md.m_vaBrickCount[l]? = some (md.m_vaBrickCount[l]) :=
        List.getElem?_eq_getElem (by omega)
      rw [countAt_of_getElem? hc] at hx hy hz
      exact (read4_blank _ l x y z).mpr ⟨_, hc, hx, hy, hz⟩)
  have hs : st = s1 := by rw [hst] at hf; exact Option.some.inj hf
  subst hs
  refine ⟨?_, st, hst, htab, by simpa using hi⟩
  intro l x y z cnt hc hx hy hz
  have hc2 : md.m_vaBrickCount[l]? = some cnt := hc
  have hl : l < md.m_iLODLevel := by
    have := (List.getElem?_eq_some.mp hc2).1
    omega
  have hca := countAt_of_getElem? hc2
  rw [htab, hv l x y z hl (by rw [hca]; exact hx) (by rw [hca]; exact hy)
    (by rw [hca]; exact hz)]
  simp

theorem mul_add_unique {n a b q r : Nat} (ha : a < n) (hb : b < n)
    (h : q * n + a = r * n + b) : q = r ∧ a = b := by
  have h1 : (q * n + a) % n = a := by
    rw [Nat.add_comm, Nat.add_mul_mod_self_right]; exact Nat.mod_eq_of_lt ha
  have h2 : (r * n + b) % n = b := by
    rw [Nat.add_comm, Nat.add_mul_mod_self_right]; exact Nat.mod_eq_of_lt hb
  have hab : a = b := by rw [← h1, ← h2, h]
  subst hab
  have hn : 0 < n := by omega
  exact ⟨Nat.eq_of_mul_eq_mul_right hn (by omega), rfl⟩

/-- The position of a brick inside its level is below the number of bricks of the level. -/
theorem local_lt {cx cy cz x y z : Nat} (hx : x < cx) (hy : y < cy) (hz : z < cz) :
    z * cx * cy + y * cx + x < cx * cy * cz := by
  have h1 : z * cx * cy + y * cx + x < (z * cy + y + 1) * cx := by
    have : z * cx * cy = z * cy * cx := by ring
    rw [this]
    have : (z * cy + y + 1) * cx = z * cy * cx + y * cx + cx := by ring
    omega
  have h2 : z * cy + y + 1 ≤ cz * cy := by
    have : (z + 1) * cy ≤ cz * cy := Nat.mul_le_mul_right cy hz
    have : (z + 1) * cy = z * cy + cy := by ring
    omega
  have h3 : (z * cy + y + 1) * cx ≤ cz * cy * cx := Nat.mul_le_mul_right cx h2
  have : cz * cy * cx = cx * cy * cz := by ring
  omega

theorem local_unique {cx cy x y z x1 y1 z1 : Nat} (hx : x < cx) (hy : y < cy)
    (hx1 : x1 < cx) (hy1 : y1 < cy)
    (h : z * cx * cy + y * cx + x = z1 * cx * cy + y1 * cx + x1) :
    x = x1 ∧ y = y1 ∧ z = z1 := by
  have e1 : z * cx * cy + y * cx + x = (z * cy + y) * cx + x := by ring
  have e2 : z1 * cx * cy + y1 * cx + x1 = (z1 * cy + y1) * cx + x1 := by ring
  rw [e1, e2] at h
  obtain ⟨h1, h2⟩ := mul_add_unique hx hx1 h
  obtain ⟨h3, h4⟩ := mul_add_unique hy hy1 h1
  exact ⟨h2, h4, h3⟩

theorem levelOffset_mono (counts : List UINT64VECTOR3) {l m : Nat} (h : l ≤ m) :
    ∑ j ∈ Finset.range l, levelBricks counts j ≤ ∑ j ∈ Finset.range m, levelBricks counts j :=
  Finset.sum_le_sum_of_subset (Finset.range_mono h)

/-- The serialized positions of in-range bricks: below the total of a longer ladder, and
different for different bricks. -/
theorem serialPosition_lt (counts : List UINT64VECTOR3) {l x y z n : Nat} (hl : l < n)
    (hx : x < (countAt counts l).x) (hy : y < (countAt counts l).y)
    (hz : z < (countAt counts l).z) :
    serialPosition counts l x y z < ∑ j ∈ Finset.range n, levelBricks counts j := by
  have h1 : z * (countAt counts l).x * (countAt counts l).y + y * (countAt counts l).x + x
      < levelBricks counts l := local_lt hx hy hz
  have h2 := levelOffset_mono counts (Nat.succ_le_of_lt hl)
  rw [Finset.sum_range_succ] at h2
  unfold serialPosition
  omega

theorem serialPosition_injective (counts : List UINT64VECTOR3) {l x y z l1 x1 y1 z1 : Nat}
    (hx : x < (countAt counts l).x) (hy : y < (countAt counts l).y)
    (hz : z < (countAt counts l).z)
    (hx1 : x1 < (countAt counts l1).x) (hy1 : y1 < (countAt counts l1).y)
    (hz1 : z1 < (countAt counts l1).z)
    (h : serialPosition counts l x y z = serialPosition counts l1 x1 y1 z1) :
    l = l1 ∧ x = x1 ∧ y = y1 ∧ z = z1 := by
  have key : ∀ {l x y z l1 x1 y1 z1 : Nat}, l < l1 →
      x < (countAt counts l).x → y < (countAt counts l).y → z < (countAt counts l).z →
      serialPosition counts l x y z ≠ serialPosition counts l1 x1 y1 z1 := by
    intro l x y z l1 x1 y1 z1 hlt hx hy hz heq
    have h1 := serialPosition_lt counts (Nat.lt_succ_self l) hx hy hz
    have h2 := levelOffset_mono counts (Nat.succ_le_of_lt hlt)
    have h3 : ∑ j ∈ Finset.range l1, levelBricks counts j
        ≤ serialPosition counts l1 x1 y1 z1 := by
      unfold serialPosition; omega
    omega
  have hl : l = l1 := by
    rcases Nat.lt_trichotomy l l1 with hlt | heq | hgt
    · exact absurd h (key hlt hx hy hz)
    · exact heq
    · exact absurd h.symm (key hgt hx1 hy1 hz1)
  subst hl
  unfold serialPosition at h
  have h2 : (∑ j ∈ Finset.range l, levelBricks counts j)
        + (z * (countAt counts l).x * (countAt counts l).y + y * (countAt counts l).x + x)
      = (∑ j ∈ Finset.range l, levelBricks counts j)
        + (z1 * (countAt counts l).x * (countAt counts l).y + y1 * (countAt counts l).x + x1) := by
    simpa [Nat.add_assoc] using h
  exact ⟨rfl, local_unique hx hy hx1 hy1 (Nat.add_left_cancel h2)⟩

theorem local_surjective {cx cy cz q : Nat} (hqlt : q < cx * cy * cz) :
    ∃ x y z, x < cx ∧ y < cy ∧ z < cz ∧ z * cx * cy + y * cx + x = q := by
  have hcx0 : 0 < cx := by
    rcases Nat.eq_zero_or_pos cx with h0 | h0
    · subst h0; simp at hqlt
    · exact h0
  have hcy0 : 0 < cy := by
    rcases Nat.eq_zero_or_pos cy with h0 | h0
    · subst h0; simp at hqlt
    · exact h0
  refine ⟨q % cx, q / cx % cy, q / cx / cy, Nat.mod_lt _ hcx0, Nat.mod_lt _ hcy0, ?_, ?_⟩
  · rw [Nat.div_div_eq_div_mul]
    refine (Nat.div_lt_iff_lt_mul (Nat.mul_pos hcx0 hcy0)).mpr ?_
    have : cz * (cx * cy) = cx * cy * cz := by ring
    rw [this]; exact hqlt
  · have h1 := Nat.div_add_mod q cx
    have h2 := Nat.div_add_mod (q / cx) cy
    have e1 : q / cx / cy * cx * cy + q / cx % cy * cx
        = cx * (cy * (q / cx / cy) + q / cx % cy) := by ring
    rw [e1, h2]
    exact h1

theorem serialPosition_surjective (counts : List UINT64VECTOR3) :
    ∀ n p, p < ∑ j ∈ Finset.range n, levelBricks counts j →
      ∃ l x y z, l < n ∧ x < (countAt counts l).x ∧ y < (countAt counts l).y
        ∧ z < (countAt counts l).z ∧ serialPosition counts l x y z = p := by
  intro n
  induction n with
  | zero => intro p hp; simp at hp
  | succ n ih =>
    intro p hp
    rw [Finset.sum_range_succ] at hp
    by_cases hlt : p < ∑ j ∈ Finset.range n, levelBricks counts j
    · obtain ⟨l, x, y, z, hl, h⟩ := ih p hlt
      exact ⟨l, x, y, z, Nat.lt_succ_of_lt hl, h⟩
    · obtain ⟨q, hq⟩ : ∃ q, p = (∑ j ∈ Finset.range n, levelBricks counts j) + q :=
        ⟨p - ∑ j ∈ Finset.range n, levelBricks counts j, by omega⟩
      have hqlt : q < (countAt counts n).x * (countAt counts n).y * (countAt counts n).z := by
        have : levelBricks counts n
            = (countAt counts n).x * (countAt counts n).y * (countAt counts n).z := rfl
        omega
      obtain ⟨x, y, z, hx, hy, hz, hloc⟩ := local_surjective hqlt
      refine ⟨n, x, y, z, Nat.lt_succ_self n, hx, hy, hz, ?_⟩
      unfold serialPosition
      omega

/-- Claim C16. For every in-range brick, the metadata view takes the acceleration entry of
the brick from component index 3 when the component count of the raster block is exactly 4,
and from component index 0 for every other component count. -/
theorem C16_acceleration_component (rdb : RasterDataBlock) (mm : MaxMinDataBlock)
    (bIsSameEndianness : Bool) (md : UVFMetadata) (nComp : Nat)
    (h : UVFMetadata.construct rdb (some mm) bIsSameEndianness = some md)
    (hn : rdb.ulElementDimensionSize[0]? = some nComp)
    (k : NDBrickKey) (l : Nat) (brick cnt : UINT64VECTOR3)
    (hl : k.first[0]? = some l) (hb : k.second[0]? = some brick)
    (hc : md.GetBrickCount l = some cnt)
    (hx : brick.x < cnt.x) (hy : brick.y < cnt.y) (hz : brick.z < cnt.z) :
    ∃ i, md.maxMinElement k = some (mm.GetValue i (if nComp = 4 then 3 else 0))
      ∧ (nComp = 4 → md.maxMinElement k = some (mm.GetValue i 3))
      ∧ (nComp ≠ 4 → md.maxMinElement k = some (mm.GetValue i 0)) := by
  have he := (UVFMetadata.construct_entry h hn).1 l brick.x brick.y brick.z cnt hc hx hy hz
  have hk : md.maxMinElement k
      = some (mm.GetValue (serialPosition md.m_vaBrickCount l brick.x brick.y brick.z)
          (if nComp = 4 then 3 else 0)) := by
    simpa [UVFMetadata.maxMinElement, hl, hb, accelerationComponent] using he
  refine ⟨_, hk, ?_, ?_⟩
  · intro h4; rw [hk]; simp [h4]
  · intro h4; rw [hk]; simp [h4]

/-- Witness of C16: brick (1,1,0) of level 0 of the four-component sample view takes its
entry from component 3. -/
theorem C16_acceleration_component_witness :
    ∃ i, sampleView4.maxMinElement (mkKey 0 1 1 0) = some (sampleMaxMin.GetValue i 3) := by
  obtain ⟨i, _, h4, _⟩ := C16_acceleration_component sampleRdb4 sampleMaxMin true sampleView4 4
    rfl rfl (mkKey 0 1 1 0) 0 ⟨1, 1, 0⟩ ⟨2, 2, 1⟩ rfl rfl rfl (by decide) (by decide)
    (by decide)
  exact ⟨i, h4 rfl⟩

/-- Claim C17. After construction with an acceleration block, for every level `l` and every
in-range brick `(x, y, z)` of it, the stored entry is the serialized entry at position
`(sum over l' < l of cx(l') * cy(l') * cz(l')) + z * cx(l) * cy(l) + y * cx(l) + x`: the
entries are consumed in level, then z, then y, then x order with x fastest; the number of
entries consumed is the sum of the per-level brick counts, and the in-range bricks and the
positions below that sum correspond one to one. -/
theorem C17_serialized_order (rdb : RasterDataBlock) (mm : MaxMinDataBlock)
    (bIsSameEndianness : Bool) (md : UVFMetadata) (nComp : Nat)
    (h : UVFMetadata.construct rdb (some mm) bIsSameEndianness = some md)
    (hn : rdb.ulElementDimensionSize[0]? = some nComp) :
    (∀ l x y z cnt, md.GetBrickCount l = some cnt → x < cnt.x → y < cnt.y → z < cnt.z →
      md.maxMinElement (mkKey l x y z)
        = some (mm.GetValue
            ((∑ j ∈ Finset.range l, levelBricks md.m_vaBrickCount j)
              + z * cnt.x * cnt.y + y * cnt.x + x)
            (accelerationComponent nComp))
      ∧ serialPosition md.m_vaBrickCount l x y z
          = (∑ j ∈ Finset.range l, levelBricks md.m_vaBrickCount j)
              + z * cnt.x * cnt.y + y * cnt.x + x
      ∧ serialPosition md.m_vaBrickCount l x y z
          < ∑ j ∈ Finset.range md.m_iLODLevel, levelBricks md.m_vaBrickCount j)
    ∧ (∃ st, fillMaxMin rdb mm md.m_iLODLevel md.m_vaBrickCount
          ⟨md.m_vaBrickCount.map blankMaxMinLevel, 0⟩ = some st
        ∧ md.m_vvaMaxMin = st.table
        ∧ st.iSerializedIndex
            = ∑ j ∈ Finset.range md.m_iLODLevel, levelBricks md.m_vaBrickCount j)
    ∧ (∀ l x y z l1 x1 y1 z1 cnt cnt1,
        md.GetBrickCount l = some cnt → x < cnt.x → y < cnt.y → z < cnt.z →
        md.GetBrickCount l1 = some cnt1 → x1 < cnt1.x → y1 < cnt1.y → z1 < cnt1.z →
        serialPosition md.m_vaBrickCount l x y z = serialPosition md.m_vaBrickCount l1 x1 y1 z1 →
        l = l1 ∧ x = x1 ∧ y = y1 ∧ z = z1)
    ∧ (∀ p, p < ∑ j ∈ Finset.range md.m_iLODLevel, levelBricks md.m_vaBrickCount j →
        ∃ l x y z cnt, md.GetBrickCount l = some cnt ∧ x < cnt.x ∧ y < cnt.y ∧ z < cnt.z
          ∧ serialPosition md.m_vaBrickCount l x y z = p) := by
  obtain ⟨hentry, htotal⟩ := UVFMetadata.construct_entry h hn
  have hlen := (UVFMetadata.construct_fill h).1
  refine ⟨?_, htotal, ?_, ?_⟩
  · intro l x y z cnt hc hx hy hz
    have hc2 : md.m_vaBrickCount[l]? = some cnt := hc
    have hca := countAt_of_getElem? hc2
    have hpos : serialPosition md.m_vaBrickCount l x y z
        = (∑ j ∈ Finset.range l, levelBricks md.m_vaBrickCount j)
            + z * cnt.x * cnt.y + y * cnt.x + x := by
      rw [serialPosition, hca]
    have hl : l < md.m_iLODLevel := by
      have := (List.getElem?_eq_some.mp hc2).1
      omega
    refine ⟨?_, hpos, ?_⟩
    · rw [← hpos]
      simpa [UVFMetadata.maxMinElement, mkKey] using hentry l x y z cnt hc hx hy hz
    · exact serialPosition_lt _ hl (by rw [hca]; exact hx) (by rw [hca]; exact hy)
        (by rw [hca]; exact hz)
  · intro l x y z l1 x1 y1 z1 cnt cnt1 hc hx hy hz hc1 hx1 hy1 hz1 heq
    have hca := countAt_of_getElem? (show md.m_vaBrickCount[l]? = some cnt from hc)
    have hca1 := countAt_of_getElem? (show md.m_vaBrickCount[l1]? = some cnt1 from hc1)
    exact serialPosition_injective _ (by rw [hca]; exact hx) (by rw [hca]; exact hy)
      (by rw [hca]; exact hz) (by rw [hca1]; exact hx1) (by rw [hca1]; exact hy1)
      (by rw [hca1]; exact hz1) heq
  · intro p hp
    obtain ⟨l, x, y, z, hl, hx, hy, hz, hpos⟩ :=
      serialPosition_surjective md.m_vaBrickCount md.m_iLODLevel p hp
    have hc : md.m_vaBrickCount[l]? = some (md.m_vaBrickCount[l]) :=
      List.getElem?_eq_getElem (by omega)
    rw [countAt_of_getElem? hc] at hx hy hz
    exact ⟨l, x, y, z, _, hc, hx, hy, hz, hpos⟩

/-- Witness of C17: in the sample view (2x2x1 bricks in level 0, one brick in level 1) the
single brick of level 1 holds the serialized entry 4, and brick (1,1,0) of level 0 entry 3. -/
theorem C17_serialized_order_witness :
    sampleView.maxMinElement (mkKey 1 0 0 0)
      = some (sampleMaxMin.GetValue
          ((∑ j ∈ Finset.range 1, levelBricks sampleView.m_vaBrickCount j)
            + 0 * 1 * 1 + 0 * 1 + 0) (accelerationComponent 1))
    ∧ sampleView.maxMinElement (mkKey 1 0 0 0) = some (sampleMaxMin.GetValue 4 0)
    ∧ sampleView.maxMinElement (mkKey 0 1 1 0) = some (sampleMaxMin.GetValue 3 0) :=
  ⟨((C17_serialized_order sampleRdb sampleMaxMin true sampleView 1 rfl rfl).1
      1 0 0 0 ⟨1, 1, 1⟩ rfl (by decide) (by decide) (by decide)).1, rfl, rfl⟩

/-! ### Traces of the stages of `ConvertRAWDataset` -/

theorem Extends.refl (P : Event → Prop) (tr : Trace) : Extends P tr tr :=
  ⟨[], by simp, by simp⟩

theorem Extends.trans {P : Event → Prop} {tr tr1 tr2 : Trace} (h1 : Extends P tr tr1)
    (h2 : Extends P tr1 tr2) : Extends P tr tr2 := by
  obtain ⟨e1, rfl, hp1⟩ := h1
  obtain ⟨e2, rfl, hp2⟩ := h2
  refine ⟨e1 ++ e2, by simp, ?_⟩
  intro e he
  rcases List.mem_append.mp he with h | h
  · exact hp1 e h
  · exact hp2 e h

theorem Extends.append {P : Event → Prop} (tr ext : Trace) (h : ∀ e ∈ ext, P e) :
    Extends P tr (tr ++ ext) :=
  ⟨ext, rfl, h⟩

theorem Extends.mono {P Q : Event → Prop} {tr tr1 : Trace} (hPQ : ∀ e, P e → Q e)
    (h : Extends P tr tr1) : Extends Q tr tr1 := by
  obtain ⟨ext, rfl, hp⟩ := h
  exact ⟨ext, rfl, fun e he => hPQ e (hp e he)⟩

theorem Extends.mem {P : Event → Prop} {tr tr1 : Trace} (h : Extends P tr tr1) {e : Event}
    (he : e ∈ tr1) : e ∈ tr ∨ P e := by
  obtain ⟨ext, rfl, hp⟩ := h
  rcases List.mem_append.mp he with h | h
  · exact Or.inl h
  · exact Or.inr (hp e h)

theorem swapAt_length {k : Nat} {buf b : List Nat} {i : Nat} (h : swapAt k buf i = some b) :
    b.length = buf.length := by
  unfold swapAt at h
  split at h
  · injection h with h
    subst h
    simp only [List.length_append, List.length_take, List.length_reverse, List.length_drop]
    omega
  · exact absurd h (by simp)

theorem swapLoop_length {k : Nat} {buf b : List Nat} {n : Nat} (h : swapLoop k buf n = some b) :
    b.length = buf.length := by
  unfold swapLoop at h
  have key : ∀ (l : List Nat) (init : Option (List Nat)) (b : List Nat),
      (∀ b0, init = some b0 → b0.length = buf.length) →
      l.foldl (fun b j => b.bind fun b => swapAt k b (j * k)) init = some b →
      b.length = buf.length := by
    intro l
    induction l with
    | nil => intro init b hinit h; exact hinit b h
    | cons j l ih =>
      intro init b hinit h
      rw [List.foldl_cons] at h
      refine ih _ b ?_ h
      intro b0 hb0
      cases init with
      | none => simp at hb0
      | some b1 =>
        simp only [Option.bind_eq_bind, Option.some_bind] at hb0
        rw [swapAt_length hb0]
        exact hinit b1 rfl
  exact key _ _ b (fun b0 hb0 => by injection hb0 with hb0; rw [hb0]) h

theorem swapChunk_length {w : Nat} {buf b : List Nat} {n : Nat}
    (h : swapChunk w buf n = some b) : b.length = buf.length := by
  unfold swapChunk at h
  split_ifs at h
  · exact swapLoop_length h
  · exact swapLoop_length h
  · exact swapLoop_length h
  · injection h with h; rw [h]

/-- One round of the conversion loop either goes on after a read and a complete write, or
fails after a read and a short write followed by the closing of both files and the removal
of the temp file, or has no defined result. -/
theorem endianBody_cases (W : World) (src tmp0 : String) (w iBufferSize : Nat)
    (s : EndianLoopState) :
    (∃ s1 data out, endianBody W src tmp0 w iBufferSize s = EndianStep.next s1
        ∧ s1.tr = s.tr ++ [Event.readRAW src iBufferSize data,
            Event.writeRAW tmp0 out out.length]
        ∧ data.length ≤ iBufferSize ∧ out.length = data.length
        ∧ s1.ulBufferConverted = u64 (s.ulBufferConverted + data.length))
    ∨ (∃ data out n, endianBody W src tmp0 w iBufferSize s
          = EndianStep.failed (s.tr ++ [Event.readRAW src iBufferSize data,
              Event.writeRAW tmp0 out n, Event.close src, Event.close tmp0,
              Event.remove tmp0])
        ∧ data.length ≤ iBufferSize ∧ out.length = data.length ∧ n ≠ out.length)
    ∨ endianBody W src tmp0 w iBufferSize s = EndianStep.undefined := by
  unfold endianBody
  simp only []
  cases hsw : swapChunk w
      ((W.ReadRAW s.tr src iBufferSize).take iBufferSize
        ++ s.pBuffer.drop ((W.ReadRAW s.tr src iBufferSize).take iBufferSize).length)
      ((W.ReadRAW s.tr src iBufferSize).take iBufferSize).length with
  | none => right; right; rfl
  | some buf2 =>
    have hlen := swapChunk_length hsw
    have hdata : ((W.ReadRAW s.tr src iBufferSize).take iBufferSize).length ≤ iBufferSize := by
      simp [List.length_take]
    have hout : (buf2.take ((W.ReadRAW s.tr src iBufferSize).take iBufferSize).length).length
        = ((W.ReadRAW s.tr src iBufferSize).take iBufferSize).length := by
      rw [List.length_take, hlen, List.length_append]
      omega
    simp only []
    split_ifs with hne
    · right; left
      refine ⟨_, _, _, by simp only [List.append_assoc, List.singleton_append,
        List.cons_append, List.nil_append]; rfl, hdata, hout, ?_⟩
      rw [hout]
      exact fun hcon => hne hcon.symm
    · left
      refine ⟨_, _, _, rfl, ?_, hdata, hout, ?_⟩
      · simp only [List.append_assoc, List.singleton_append, List.cons_append,
          List.nil_append]
        have : W.WriteRAW (s.tr ++ [Event.readRAW src iBufferSize
            ((W.ReadRAW s.tr src iBufferSize).take iBufferSize)]) tmp0
            (buf2.take ((W.ReadRAW s.tr src iBufferSize).take iBufferSize).length)
            = (buf2.take ((W.ReadRAW s.tr src iBufferSize).take iBufferSize).length).length := by
          rw [hout]; push_neg at hne; exact hne.symm
        rw [this]
      · push_neg at hne
        simp only [← hne]

/-- The conversion loop ends in one of three ways: it goes through after rounds of complete
reads and writes; it fails in the round of the first short write, after which both files are
closed and the temp file is removed; or it has no defined result. -/
theorem endianLoop_cases (W : World) (src tmp0 : String) (w iBufferSize L : Nat) :
    ∀ (fuel : Nat) (s : EndianLoopState),
      (∃ s1, endianLoop W src tmp0 w iBufferSize L fuel s = Stage.ok s1.tr s1
          ∧ Extends (chunkEvent src tmp0 iBufferSize true) s.tr s1.tr)
      ∨ (∃ ext data out n, endianLoop W src tmp0 w iBufferSize L fuel s
            = Stage.failed (s.tr ++ ext ++ [Event.readRAW src iBufferSize data,
                Event.writeRAW tmp0 out n, Event.close src, Event.close tmp0,
                Event.remove tmp0])
          ∧ (∀ e ∈ ext, chunkEvent src tmp0 iBufferSize true e)
          ∧ data.length ≤ iBufferSize ∧ out.length = data.length ∧ n ≠ out.length)
      ∨ endianLoop W src tmp0 w iBufferSize L fuel s = Stage.stuck := by
  intro fuel
  induction fuel with
  | zero =>
    intro s
    unfold endianLoop
    split_ifs
    · right; right; rfl
    · left; exact ⟨s, rfl, Extends.refl _ _⟩
  | succ fuel ih =>
    intro s
    unfold endianLoop
    split_ifs with hlt
    · rcases endianBody_cases W src tmp0 w iBufferSize s with
        ⟨s1, data, out, hb, htr, hd, ho, _⟩ | ⟨data, out, n, hb, hd, ho, hn⟩ | hb
      · rw [hb]
        simp only []
        have hext : Extends (chunkEvent src tmp0 iBufferSize true) s.tr s1.tr :=
          ⟨_, htr, by
            intro e he
            simp only [List.mem_cons, List.mem_singleton, List.not_mem_nil, or_false] at he
            rcases he with rfl | rfl
            · exact ⟨rfl, rfl, hd⟩
            · exact ⟨rfl, fun _ => rfl⟩⟩
        rcases ih s1 with ⟨s2, h2, he2⟩ | ⟨ext, data2, out2, n2, h2, he2, hd2, ho2, hn2⟩ | h2
        · left; exact ⟨s2, h2, hext.trans he2⟩
        · right; left
          obtain ⟨ext1, hext1, hp1⟩ := hext
          refine ⟨ext1 ++ ext, data2, out2, n2, ?_, ?_, hd2, ho2, hn2⟩
          · rw [h2, hext1]; simp only [List.append_assoc]
          · intro e he
            rcases List.mem_append.mp he with h | h
            · exact hp1 e h
            · exact he2 e h
        · right; right; exact h2
      · rw [hb]
        right; left
        exact ⟨[], data, out, n, by simp, by simp, hd, ho, hn⟩
      · rw [hb]
        right; right; rfl
    · left; exact ⟨s, rfl, Extends.refl _ _⟩

/-- The endianness branch of `ConvertRAWDataset`, by cases: without the (downgraded) flag
nothing is called and the source name and header skip stay; with it, the stage rejects an
unsupported width at once, fails on an open or create failure, goes through after complete
chunks (the source is then the temp file, with no header), fails at the first short write
(closing both files and removing the temp file), or has no defined result. -/
theorem endianStage_cases (W : World) (fuel : Nat) (a : ConvertArgs) (flag : Bool) :
    (flag = false
      ∧ endianStage W fuel a flag (tmpFilename0 W a) = Stage.ok [] (a.strFilename, a.iHeaderSkip))
    ∨ (flag = true
      ∧ (endianStage W fuel a flag (tmpFilename0 W a) = Stage.failed []
        ∨ endianStage W fuel a flag (tmpFilename0 W a)
            = Stage.failed [Event.openRead a.strFilename a.iHeaderSkip false]
        ∨ endianStage W fuel a flag (tmpFilename0 W a)
            = Stage.failed [Event.openRead a.strFilename a.iHeaderSkip true,
                Event.create (tmpFilename0 W a) false, Event.close a.strFilename]
        ∨ (∃ ext, endianStage W fuel a flag (tmpFilename0 W a)
              = Stage.ok ([Event.openRead a.strFilename a.iHeaderSkip true,
                    Event.create (tmpFilename0 W a) true] ++ ext
                  ++ [Event.close a.strFilename, Event.close (tmpFilename0 W a)])
                  (tmpFilename0 W a, 0)
            ∧ ∀ e ∈ ext, chunkEvent a.strFilename (tmpFilename0 W a)
                (endianBufferSize (endianFileLength W a) a.iTargetBrickSize a.iComponentSize)
                true e)
        ∨ (∃ ext data out n, endianStage W fuel a flag (tmpFilename0 W a)
              = Stage.failed ([Event.openRead a.strFilename a.iHeaderSkip true,
                    Event.create (tmpFilename0 W a) true] ++ ext
                  ++ [Event.readRAW a.strFilename
                        (endianBufferSize (endianFileLength W a) a.iTargetBrickSize
                          a.iComponentSize) data,
                      Event.writeRAW (tmpFilename0 W a) out n, Event.close a.strFilename,
                      Event.close (tmpFilename0 W a), Event.remove (tmpFilename0 W a)])
            ∧ (∀ e ∈ ext, chunkEvent a.strFilename (tmpFilename0 W a)
                (endianBufferSize (endianFileLength W a) a.iTargetBrickSize a.iComponentSize)
                true e)
            ∧ data.length
                ≤ endianBufferSize (endianFileLength W a) a.iTargetBrickSize a.iComponentSize
            ∧ out.length = data.length ∧ n ≠ out.length)
        ∨ endianStage W fuel a flag (tmpFilename0 W a) = Stage.stuck)) := by
  cases flag with
  | false => left; exact ⟨rfl, by simp [endianStage]⟩
  | true =>
    right
    refine ⟨rfl, ?_⟩
    by_cases hw : a.iComponentSize ≠ 16 ∧ a.iComponentSize ≠ 32 ∧ a.iComponentSize ≠ 64
    · left; simp only [endianStage, if_true, if_pos hw]
    cases hopen : W.Open [] a.strFilename a.iHeaderSkip with
    | false =>
      right; left
      simp only [endianStage, if_true, if_neg hw, hopen, Bool.not_false]
    | true =>
      cases hcreate : W.Create [Event.openRead a.strFilename a.iHeaderSkip true]
          (tmpFilename0 W a) with
      | false =>
        right; right; left
        simp only [endianStage, if_true, if_neg hw, hopen, hcreate, Bool.not_true,
          Bool.not_false, Bool.false_eq_true, if_false, List.singleton_append,
          List.cons_append, List.nil_append]
      | true =>
        right; right; right
        have hdef : endianStage W fuel a true (tmpFilename0 W a)
            = match endianLoop W a.strFilename (tmpFilename0 W a) a.iComponentSize
                (endianBufferSize (endianFileLength W a) a.iTargetBrickSize a.iComponentSize)
                (endianFileLength W a) fuel
                ⟨[Event.openRead a.strFilename a.iHeaderSkip true,
                    Event.create (tmpFilename0 W a) true],
                  (W.newBuffer [Event.openRead a.strFilename a.iHeaderSkip true,
                      Event.create (tmpFilename0 W a) true]
                      (endianBufferSize (endianFileLength W a) a.iTargetBrickSize
                        a.iComponentSize)).take
                      (endianBufferSize (endianFileLength W a) a.iTargetBrickSize
                        a.iComponentSize)
                    ++ List.replicate
                      (endianBufferSize (endianFileLength W a) a.iTargetBrickSize
                          a.iComponentSize
                        - (W.newBuffer [Event.openRead a.strFilename a.iHeaderSkip true,
                            Event.create (tmpFilename0 W a) true]
                            (endianBufferSize (endianFileLength W a) a.iTargetBrickSize
                              a.iComponentSize)).length) 0,
                  0⟩ with
              | Stage.ok tr3 _ =>
                Stage.ok (tr3 ++ [Event.close a.strFilename, Event.close (tmpFilename0 W a)])
                  (tmpFilename0 W a, 0)
              | Stage.failed tr3 => Stage.failed tr3
              | Stage.stuck => Stage.stuck := by
          simp only [endianStage, if_true, if_neg hw, hopen, hcreate, Bool.not_true,
            Bool.false_eq_true, if_false, List.singleton_append, List.cons_append,
            List.nil_append, endianFileLength]
        rw [hdef]
        rcases endianLoop_cases W a.strFilename (tmpFilename0 W a) a.iComponentSize
            (endianBufferSize (endianFileLength W a) a.iTargetBrickSize a.iComponentSize)
            (endianFileLength W a) fuel
            ⟨[Event.openRead a.strFilename a.iHeaderSkip true,
                Event.create (tmpFilename0 W a) true],
              (W.newBuffer [Event.openRead a.strFilename a.iHeaderSkip true,
                  Event.create (tmpFilename0 W a) true]
                  (endianBufferSize (endianFileLength W a) a.iTargetBrickSize
                    a.iComponentSize)).take
                  (endianBufferSize (endianFileLength W a) a.iTargetBrickSize
                    a.iComponentSize)
                ++ List.replicate
                  (endianBufferSize (endianFileLength W a) a.iTargetBrickSize
                      a.iComponentSize
                    - (W.newBuffer [Event.openRead a.strFilename a.iHeaderSkip true,
                        Event.create (tmpFilename0 W a) true]
                        (endianBufferSize (endianFileLength W a) a.iTargetBrickSize
                          a.iComponentSize)).length) 0,
              0⟩ with ⟨s1, h1, ext, hext, hp⟩ | ⟨ext, data, out, n, h1, hp, hd, ho, hn⟩ | h1
        · left
          refine ⟨ext, ?_, hp⟩
          rw [h1]
          simp only [hext, List.append_assoc, List.cons_append, List.nil_append]
        · right; left
          refine ⟨ext, data, out, n, ?_, hp, hd, ho, hn⟩
          rw [h1]
        · right; right
          rw [h1]

theorem Stage.Extends.of_extends {α : Type} {P : Event → Prop} {tr tr1 : Trace} {r : Stage α}
    (h1 : Tuvok.Extends P tr tr1) (h2 : Stage.Extends P tr1 r) : Stage.Extends P tr r := by
  cases r with
  | ok tr2 x => exact Tuvok.Extends.trans h1 h2
  | failed tr2 => exact Tuvok.Extends.trans h1 h2
  | stuck => exact h2

theorem extends_append_iff (P : Event → Prop) (tr ext : Trace) (h : ∀ e ∈ ext, P e) :
    Extends P tr (tr ++ ext) := ⟨ext, rfl, h⟩

theorem checkName_extends {P : Event → Prop} {tr tr1 : Trace} (s : String) (size : Nat)
    (h : Extends P tr tr1) : Stage.Extends P tr (checkName tr1 s size) := by
  unfold checkName
  split_ifs <;> exact h

theorem extends_snoc (P : Event → Prop) (tr : Trace) (e : Event) (h : P e) :
    Extends P tr (tr ++ [e]) :=
  ⟨[e], rfl, fun x hx => by simp only [List.mem_singleton] at hx; subst hx; exact h⟩

/-- The quantization dispatch calls at most the quantizer the working width stands for. -/
theorem quantStage_extends (W : World) (a : ConvertArgs) (tr : Trace) (src : String)
    (hdr : Nat) (t1 : String) :
    Stage.Extends (laterEvent W a) tr (quantStage W a tr src hdr t1) := by
  unfold quantStage
  simp only [callQuantize]
  by_cases hq : (a.bQuantizeTo8Bit && decide (a.iComponentSize > 8)) = true
  · rw [if_pos hq]
    refine checkName_extends _ _ (extends_snoc _ _ _ ?_)
    simpa [laterEvent] using hq
  · rw [if_neg hq]
    have hq1 : a.bQuantizeTo8Bit = false ∨ a.iComponentSize ≤ 8 := by
      cases hb : a.bQuantizeTo8Bit with
      | false => exact Or.inl rfl
      | true =>
        right
        simp only [hb, Bool.true_and, decide_eq_true_eq] at hq
        omega
    by_cases h8 : a.iComponentSize = 8
    · rw [if_pos h8]
      split_ifs
      · exact checkName_extends _ _ (extends_snoc _ _ _ ⟨hq1, h8⟩)
      · exact checkName_extends _ _ (Extends.refl _ _)
    · rw [if_neg h8]
      by_cases h16 : a.iComponentSize = 16
      · rw [if_pos h16]
        exact checkName_extends _ _ (extends_snoc _ _ _ ⟨hq1, Or.inl ⟨h16, rfl⟩⟩)
      · rw [if_neg h16]
        by_cases h32 : a.iComponentSize = 32
        · rw [if_pos h32]
          exact checkName_extends _ _ (extends_snoc _ _ _ ⟨hq1, Or.inr (Or.inl ⟨h32, rfl⟩)⟩)
        · rw [if_neg h32]
          by_cases h64 : a.iComponentSize = 64
          · rw [if_pos h64]
            exact checkName_extends _ _
              (extends_snoc _ _ _ ⟨hq1, Or.inr (Or.inr ⟨h64, rfl⟩)⟩)
          · rw [if_neg h64]
            exact checkName_extends _ _ (Extends.refl _ _)

theorem checkName_ok {tr tr1 : Trace} {s s1 : String} {k size : Nat}
    (h : checkName tr s k = Stage.ok tr1 (s1, size)) : size = k ∧ s1 = s ∧ tr1 = tr := by
  unfold checkName at h
  split_ifs at h
  injection h with h1 h2
  injection h2 with h3 h4
  exact ⟨h4.symm, h3.symm, h1.symm⟩

/-- The working width the quantization dispatch leaves. -/
theorem quantStage_size {W : World} {a : ConvertArgs} {tr tr1 : Trace} {src s : String}
    {hdr size : Nat} {t1 : String}
    (h : quantStage W a tr src hdr t1 = Stage.ok tr1 (s, size)) :
    size = workingComponentSize a := by
  unfold quantStage at h
  simp only [callQuantize] at h
  unfold workingComponentSize
  by_cases hq : (a.bQuantizeTo8Bit && decide (a.iComponentSize > 8)) = true
  · rw [if_pos hq] at h ⊢
    exact (checkName_ok h).1
  · rw [if_neg hq] at h ⊢
    by_cases h8 : a.iComponentSize = 8
    · rw [if_pos h8] at h
      have h2 : ¬ (a.iComponentSize = 32 ∨ a.iComponentSize = 64) := by omega
      rw [if_neg h2, h8]
      split_ifs at h
      · exact (checkName_ok h).1
      · exact (checkName_ok h).1
    · rw [if_neg h8] at h
      by_cases h16 : a.iComponentSize = 16
      · rw [if_pos h16] at h
        have h2 : ¬ (a.iComponentSize = 32 ∨ a.iComponentSize = 64) := by omega
        rw [if_neg h2, h16]
        exact (checkName_ok h).1
      · rw [if_neg h16] at h
        by_cases h32 : a.iComponentSize = 32
        · rw [if_pos h32] at h
          rw [if_pos (Or.inl h32)]
          exact (checkName_ok h).1
        · rw [if_neg h32] at h
          by_cases h64 : a.iComponentSize = 64
          · rw [if_pos h64] at h
            rw [if_pos (Or.inr h64)]
            exact (checkName_ok h).1
          · rw [if_neg h64] at h
            have h2 : ¬ (a.iComponentSize = 32 ∨ a.iComponentSize = 64) := by omega
            rw [if_neg h2]
            exact (checkName_ok h).1

theorem removeTemps_later (W : World) (a : ConvertArgs) (env : LoopEnv)
    (h0 : env.tmpFilename0 = tmpFilename0 W a) (h1 : env.tmpFilename1 = tmpFilename1 W a) :
    ∀ e ∈ removeTemps env, laterEvent W a e := by
  intro e he
  unfold removeTemps at he
  rcases List.mem_append.mp he with h | h
  · split_ifs at h
    · simp only [List.mem_singleton] at h; subst h; exact Or.inl h0
    · simp at h
  · split_ifs at h
    · simp only [List.mem_singleton] at h; subst h; exact Or.inr h1
    · simp at h

theorem histogram2DPart_extends (W : World) (a : ConvertArgs) (env : LoopEnv) (ts : Nat)
    (tr : Trace)
    (h0 : env.tmpFilename0 = tmpFilename0 W a) (h1 : env.tmpFilename1 = tmpFilename1 W a) :
    Stage.Extends (laterEvent W a) tr (histogram2DPart W a env ts tr) := by
  have hrm := removeTemps_later W a env h0 h1
  unfold histogram2DPart
  simp only []
  split_ifs
  · refine ⟨_, by simp only [List.append_assoc]; rfl, ?_⟩
    intro e he
    simp only [List.mem_append, List.mem_cons, List.mem_singleton, List.not_mem_nil,
      or_false] at he
    rcases he with rfl | rfl | he
    · trivial
    · rfl
    · exact hrm e he
  · refine ⟨_, by simp only [List.append_assoc]; rfl, ?_⟩
    intro e he
    simp only [List.mem_append, List.mem_cons, List.mem_singleton, List.not_mem_nil,
      or_false] at he
    rcases he with rfl | rfl | rfl <;> trivial

theorem histogramPart_extends (W : World) (a : ConvertArgs) (env : LoopEnv) (ts : Nat)
    (tr : Trace)
    (h0 : env.tmpFilename0 = tmpFilename0 W a) (h1 : env.tmpFilename1 = tmpFilename1 W a) :
    Stage.Extends (laterEvent W a) tr (histogramPart W a env ts tr) := by
  have hrm := removeTemps_later W a env h0 h1
  unfold histogramPart
  simp only []
  split_ifs
  · refine ⟨_, by simp only [List.append_assoc]; rfl, ?_⟩
    intro e he
    simp only [List.mem_append, List.mem_cons, List.mem_singleton, List.not_mem_nil,
      or_false] at he
    rcases he with rfl | rfl | he
    · trivial
    · rfl
    · exact hrm e he
  · refine Stage.Extends.of_extends (extends_append_iff _ _ _ ?_)
      (histogram2DPart_extends W a env ts _ h0 h1)
    intro e he
    simp only [List.mem_singleton] at he
    subst he
    trivial
  · exact histogram2DPart_extends W a env ts _ h0 h1
  · exact Extends.refl _ _

theorem histogramPart_extends_of_eq {W : World} {a : ConvertArgs} {env : LoopEnv} {ts : Nat}
    {tr : Trace} {r : Stage Unit}
    (h0 : env.tmpFilename0 = tmpFilename0 W a) (h1 : env.tmpFilename1 = tmpFilename1 W a)
    (h : histogramPart W a env ts tr = r) : Stage.Extends (laterEvent W a) tr r :=
  h ▸ histogramPart_extends W a env ts tr h0 h1

/-- The body of the timestep loop makes only calls of the later stages, on a block typed
with the working component width. -/
theorem timestepBody_extends (W : World) (a : ConvertArgs) (env : LoopEnv) (ts : Nat)
    (tr : Trace) (hdr : Nat)
    (hs : env.iComponentSize = workingComponentSize a)
    (hl : env.iLodLevelCount = lodLevelCount a.vVolumeSize a.iTargetBrickSize)
    (h0 : env.tmpFilename0 = tmpFilename0 W a) (h1 : env.tmpFilename1 = tmpFilename1 W a) :
    Stage.Extends (laterEvent W a) tr (timestepBody W a env ts tr hdr) := by
  have hrm := removeTemps_later W a env h0 h1
  have hrb : laterEvent W a
      (Event.rasterBlock ts (rasterSetup a env.iComponentSize env.iLodLevelCount)) := by
    simp only [laterEvent, hs, hl]
  have hfl : ∀ src hd tmp ok, laterEvent W a
      (Event.flatDataToBrickedLOD ts src hd tmp env.iComponentSize a.iComponentCount ok) :=
    fun _ _ _ _ => ⟨hs, rfl⟩
  unfold timestepBody
  simp only []
  split_ifs
  · refine ⟨_, by simp only [List.append_assoc]; rfl, ?_⟩
    simp only [List.forall_mem_append, List.forall_mem_cons, List.not_mem_nil, false_implies,
      implies_true, and_true]
    exact ⟨hrb, trivial⟩
  · refine ⟨_, by simp only [List.append_assoc]; rfl, ?_⟩
    simp only [List.forall_mem_append, List.forall_mem_cons, List.not_mem_nil, false_implies,
      implies_true, and_true]
    exact ⟨hrb, trivial, hfl _ _ _ _, rfl⟩
  · refine ⟨_, by simp only [List.append_assoc]; rfl, ?_⟩
    simp only [List.forall_mem_append, List.forall_mem_cons, List.not_mem_nil, false_implies,
      implies_true, and_true]
    exact ⟨hrb, trivial, hfl _ _ _ _, trivial, rfl, hrm⟩
  · refine ⟨_, by simp only [List.append_assoc]; rfl, ?_⟩
    simp only [List.forall_mem_append, List.forall_mem_cons, List.not_mem_nil, false_implies,
      implies_true, and_true]
    exact ⟨hrb, trivial, hfl _ _ _ _, trivial, trivial, rfl, hrm⟩
  · split
    · rename_i tr6 _ heq
      have hh := histogramPart_extends_of_eq h0 h1 heq
      refine Extends.trans (Extends.trans ?_ hh)
        ⟨_, by simp only [List.append_assoc]; rfl, ?_⟩
      · refine ⟨_, by simp only [List.append_assoc]; rfl, ?_⟩
        simp only [List.forall_mem_append, List.forall_mem_cons, List.not_mem_nil,
          false_implies, implies_true, and_true]
        exact ⟨hrb, trivial, hfl _ _ _ _, trivial, trivial⟩
      · simp only [List.forall_mem_append, List.forall_mem_cons, List.not_mem_nil,
          false_implies, implies_true, and_true]
        exact ⟨trivial, trivial⟩
    · rename_i tr6 heq
      have hh := histogramPart_extends_of_eq h0 h1 heq
      refine Extends.trans ?_ hh
      refine ⟨_, by simp only [List.append_assoc]; rfl, ?_⟩
      simp only [List.forall_mem_append, List.forall_mem_cons, List.not_mem_nil,
        false_implies, implies_true, and_true]
      exact ⟨hrb, trivial, hfl _ _ _ _, trivial, trivial⟩
    · rename_i heq
      have hh := histogramPart_extends_of_eq h0 h1 heq
      exact hh
  · refine ⟨_, by simp only [List.append_assoc]; rfl, ?_⟩
    simp only [List.forall_mem_append, List.forall_mem_cons, List.not_mem_nil, false_implies,
      implies_true, and_true]
    exact ⟨hrb, trivial, rfl, trivial⟩

/-- The timestep loop makes only calls of the later stages. -/
theorem timestepLoop_extends (W : World) (a : ConvertArgs) (env : LoopEnv)
    (hs : env.iComponentSize = workingComponentSize a)
    (hl : env.iLodLevelCount = lodLevelCount a.vVolumeSize a.iTargetBrickSize)
    (h0 : env.tmpFilename0 = tmpFilename0 W a) (h1 : env.tmpFilename1 = tmpFilename1 W a) :
    ∀ (n ts : Nat) (tr : Trace) (hdr : Nat),
      Stage.Extends (laterEvent W a) tr (timestepLoop W a env n ts tr hdr) := by
  intro n
  induction n with
  | zero => intro ts tr hdr; exact Extends.refl _ _
  | succ n ih =>
    intro ts tr hdr
    have hb := timestepBody_extends W a env ts tr hdr hs hl h0 h1
    unfold timestepLoop
    cases hres : timestepBody W a env ts tr hdr with
    | ok tr1 hdr1 =>
      rw [hres] at hb
      exact Stage.Extends.of_extends hb (ih (ts + 1) tr1 hdr1)
    | failed tr1 => rw [hres] at hb; exact hb
    | stuck => rw [hres] at hb; exact hb

/-- The part of `ConvertRAWDataset` after the quantization dispatch makes only calls of the
later stages. -/
theorem convertTail_extends (W : World) (a : ConvertArgs) (flag : Bool) (tr : Trace)
    (src : String) (hdr : Nat) :
    Stage.Extends (laterEvent W a) tr
      (convertTail W a flag (tmpFilename0 W a) (tmpFilename1 W a) tr src hdr
        (workingComponentSize a)) := by
  unfold convertTail
  simp only []
  have hpre : Extends (laterEvent W a) tr
      (if (decide (src = tmpFilename1 W a) && flag) = true
        then tr ++ [Event.remove (tmpFilename0 W a)] else tr) := by
    split_ifs
    · exact extends_snoc _ _ _ (Or.inl rfl)
    · exact Extends.refl _ _
  have hloop := timestepLoop_extends W a
    { strSourceFilename := src
      iComponentSize := workingComponentSize a
      iLodLevelCount := lodLevelCount a.vVolumeSize a.iTargetBrickSize
      bConvertEndianness := if decide (src = tmpFilename1 W a) = true then false else flag
      bQuantized := decide (src = tmpFilename1 W a)
      tmpFilename0 := tmpFilename0 W a
      tmpFilename1 := tmpFilename1 W a } rfl rfl rfl rfl a.timesteps 0
    (if (decide (src = tmpFilename1 W a) && flag) = true
      then tr ++ [Event.remove (tmpFilename0 W a)] else tr)
    (if decide (src = tmpFilename1 W a) = true then 0 else hdr)
  split
  · rename_i tr2 _ heq
    rw [heq] at hloop
    refine Extends.trans (hpre.trans hloop) ⟨_, by simp only [List.append_assoc]; rfl, ?_⟩
    simp only [List.forall_mem_append, List.forall_mem_cons, List.not_mem_nil, false_implies,
      implies_true, and_true]
    exact ⟨⟨rfl, rfl, rfl⟩, removeTemps_later W a _ rfl rfl⟩
  · rename_i tr2 heq
    rw [heq] at hloop
    exact hpre.trans hloop
  · rename_i heq
    rw [heq] at hloop
    exact hloop

/-- The function `convertStages` past the test of the component count, with the names of
the temp files. -/
theorem convertStages_eq (W : World) (fuel : Nat) (a : ConvertArgs)
    (hc : ¬ a.iComponentCount > 4) :
    convertStages W fuel a
      = match endianStage W fuel a
            (downgradeEndianness a.bConvertEndianness a.iComponentSize) (tmpFilename0 W a) with
        | Stage.stuck => Stage.stuck
        | Stage.failed tr => Stage.failed tr
        | Stage.ok tr (strSourceFilename, iHeaderSkip) =>
          match quantStage W a tr strSourceFilename iHeaderSkip (tmpFilename1 W a) with
          | Stage.stuck => Stage.stuck
          | Stage.failed tr1 => Stage.failed tr1
          | Stage.ok tr1 (strSourceFilename1, iComponentSize) =>
            convertTail W a (downgradeEndianness a.bConvertEndianness a.iComponentSize)
              (tmpFilename0 W a) (tmpFilename1 W a) tr1 strSourceFilename1 iHeaderSkip
              iComponentSize := by
  unfold convertStages
  rw [if_neg hc]
  rfl

/-- A call of `ConvertRAWDataset` that returns has rejected the component count, or failed
in the endianness pass, or has gone through that pass and then made only calls of the later
stages. -/
theorem convert_cases {W : World} {fuel : Nat} {a : ConvertArgs} {b : Bool} {tr : Trace}
    (h : ConvertRAWDataset W fuel a = some (b, tr)) :
    (a.iComponentCount > 4 ∧ b = false ∧ tr = [])
    ∨ (¬ a.iComponentCount > 4 ∧ b = false
        ∧ endianStage W fuel a (downgradeEndianness a.bConvertEndianness a.iComponentSize)
            (tmpFilename0 W a) = Stage.failed tr)
    ∨ (¬ a.iComponentCount > 4
        ∧ ∃ trE src hdr,
            endianStage W fuel a (downgradeEndianness a.bConvertEndianness a.iComponentSize)
              (tmpFilename0 W a) = Stage.ok trE (src, hdr)
            ∧ Extends (laterEvent W a) trE tr) := by
  by_cases hc : a.iComponentCount > 4
  · left
    have : ConvertRAWDataset W fuel a = some (false, []) := by
      simp [ConvertRAWDataset, convertStages, hc]
    rw [this] at h
    injection h with h
    injection h with h1 h2
    exact ⟨hc, h1.symm, h2.symm⟩
  · right
    unfold ConvertRAWDataset at h
    rw [convertStages_eq W fuel a hc] at h
    cases hE : endianStage W fuel a
        (downgradeEndianness a.bConvertEndianness a.iComponentSize) (tmpFilename0 W a) with
    | stuck => rw [hE] at h; simp at h
    | failed trE =>
      rw [hE] at h
      simp only [Option.some.injEq, Prod.mk.injEq] at h
      left
      exact ⟨hc, h.1.symm, by rw [h.2]⟩
    | ok trE p =>
      obtain ⟨src, hdr⟩ := p
      rw [hE] at h
      simp only [] at h
      right
      refine ⟨hc, trE, src, hdr, rfl, ?_⟩
      have hQ := quantStage_extends W a trE src hdr (tmpFilename1 W a)
      cases hq : quantStage W a trE src hdr (tmpFilename1 W a) with
      | stuck => rw [hq] at hQ; exact absurd hQ (by simp [Stage.Extends])
      | failed tr1 =>
        rw [hq] at h hQ
        simp only [Option.some.injEq, Prod.mk.injEq] at h
        rw [← h.2]
        exact hQ
      | ok tr1 p1 =>
        obtain ⟨src1, size⟩ := p1
        rw [hq] at h hQ
        simp only [] at h
        have hsize := quantStage_size hq
        subst hsize
        have hT := convertTail_extends W a
          (downgradeEndianness a.bConvertEndianness a.iComponentSize) tr1 src1 hdr
        cases ht : convertTail W a (downgradeEndianness a.bConvertEndianness a.iComponentSize)
            (tmpFilename0 W a) (tmpFilename1 W a) tr1 src1 hdr (workingComponentSize a) with
        | stuck => rw [ht] at hT; exact absurd hT (by simp [Stage.Extends])
        | failed tr2 =>
          rw [ht] at h hT
          simp only [Option.some.injEq, Prod.mk.injEq] at h
          rw [← h.2]
          exact Extends.trans hQ hT
        | ok tr2 u =>
          rw [ht] at h hT
          simp only [Option.some.injEq, Prod.mk.injEq] at h
          rw [← h.2]
          exact Extends.trans hQ hT

theorem chunkEvent_endian {W : World} {a : ConvertArgs} {full : Bool} {e : Event}
    (h : chunkEvent a.strFilename (tmpFilename0 W a)
      (endianBufferSize (endianFileLength W a) a.iTargetBrickSize a.iComponentSize) full e) :
    endianEvent W a e := by
  cases e <;> simp only [chunkEvent] at h
  · exact h
  · exact h.1

/-- The calls made by a successful endianness pass are calls of that pass, and its writes
are complete. -/
theorem endianStage_ok_events {W : World} {fuel : Nat} {a : ConvertArgs} {flag : Bool}
    {trE : Trace} {src : String} {hdr : Nat}
    (h : endianStage W fuel a flag (tmpFilename0 W a) = Stage.ok trE (src, hdr)) :
    (∀ e ∈ trE, endianEvent W a e)
    ∧ (∀ f out n, Event.writeRAW f out n ∈ trE → n = out.length)
    ∧ (flag = false → trE = [] ∧ src = a.strFilename ∧ hdr = a.iHeaderSkip) := by
  rcases endianStage_cases W fuel a flag with ⟨hf, h1⟩ | ⟨hf, h1 | h1 | h1 | h1 | h1 | h1⟩
  · rw [h1] at h
    simp only [Stage.ok.injEq, Prod.mk.injEq] at h
    obtain ⟨rfl, rfl, rfl⟩ := h
    exact ⟨by simp, by simp, fun _ => ⟨rfl, rfl, rfl⟩⟩
  · rw [h1] at h; simp at h
  · rw [h1] at h; simp at h
  · rw [h1] at h; simp at h
  · obtain ⟨ext, h1, hp⟩ := h1
    rw [h1] at h
    simp only [Stage.ok.injEq, Prod.mk.injEq] at h
    obtain ⟨rfl, -, -⟩ := h
    refine ⟨?_, ?_, fun hff => by rw [hf] at hff; simp at hff⟩
    · simp only [List.forall_mem_append, List.forall_mem_cons, List.not_mem_nil,
        false_implies, implies_true, and_true]
      exact ⟨⟨⟨⟨rfl, rfl⟩, rfl⟩, fun e he => chunkEvent_endian (hp e he)⟩,
        Or.inl rfl, Or.inr rfl⟩
    · intro f out n he
      simp at he
      exact (hp _ he).2 rfl
  · obtain ⟨ext, data, out, n, h1, _⟩ := h1
    rw [h1] at h; simp at h
  · rw [h1] at h; simp at h

/-- The calls made by a failed endianness pass are calls of that pass. -/
theorem endianStage_failed_events {W : World} {fuel : Nat} {a : ConvertArgs} {flag : Bool}
    {tr : Trace}
    (h : endianStage W fuel a flag (tmpFilename0 W a) = Stage.failed tr) :
    flag = true ∧ (∀ e ∈ tr, endianEvent W a e)
    ∧ ((∃ f out n, Event.writeRAW f out n ∈ tr ∧ n ≠ out.length) →
        ∃ pre, tr = pre ++ [Event.close a.strFilename, Event.close (tmpFilename0 W a),
          Event.remove (tmpFilename0 W a)]) := by
  rcases endianStage_cases W fuel a flag with ⟨hf, h1⟩ | ⟨hf, h1 | h1 | h1 | h1 | h1 | h1⟩
  · rw [h1] at h; simp at h
  · rw [h1] at h
    simp only [Stage.failed.injEq] at h
    subst h
    exact ⟨hf, by simp, by simp⟩
  · rw [h1] at h
    simp only [Stage.failed.injEq] at h
    subst h
    refine ⟨hf, ?_, by simp⟩
    intro e he
    simp only [List.mem_singleton] at he
    subst he
    exact ⟨rfl, rfl⟩
  · rw [h1] at h
    simp only [Stage.failed.injEq] at h
    subst h
    refine ⟨hf, ?_, by simp⟩
    intro e he
    simp only [List.mem_cons, List.mem_singleton, List.not_mem_nil, or_false] at he
    rcases he with rfl | rfl | rfl
    · exact ⟨rfl, rfl⟩
    · rfl
    · exact Or.inl rfl
  · obtain ⟨ext, h1, _⟩ := h1
    rw [h1] at h; simp at h
  · obtain ⟨ext, data, out, n, h1, hp, hd, ho, hn⟩ := h1
    rw [h1] at h
    simp only [Stage.failed.injEq] at h
    subst h
    refine ⟨hf, ?_, fun _ => ⟨[Event.openRead a.strFilename a.iHeaderSkip true,
        Event.create (tmpFilename0 W a) true] ++ ext
      ++ [Event.readRAW a.strFilename
          (endianBufferSize (endianFileLength W a) a.iTargetBrickSize a.iComponentSize) data,
        Event.writeRAW (tmpFilename0 W a) out n], by simp⟩⟩
    simp only [List.forall_mem_append, List.forall_mem_cons, List.not_mem_nil,
      false_implies, implies_true, and_true]
    exact ⟨⟨⟨⟨rfl, rfl⟩, rfl⟩, fun e he => chunkEvent_endian (hp e he)⟩,
      ⟨rfl, rfl, hd⟩, rfl, Or.inl rfl, Or.inr rfl, rfl⟩
  · rw [h1] at h; simp at h

/-- Every call of a returning `ConvertRAWDataset` is a call of the endianness pass or of the
later stages; without the (downgraded) conversion flag all are calls of the later stages. -/
theorem convert_events {W : World} {fuel : Nat} {a : ConvertArgs} {b : Bool} {tr : Trace}
    (h : ConvertRAWDataset W fuel a = some (b, tr)) :
    (∀ e ∈ tr, endianEvent W a e ∨ laterEvent W a e)
    ∧ (downgradeEndianness a.bConvertEndianness a.iComponentSize = false →
        ∀ e ∈ tr, laterEvent W a e) := by
  rcases convert_cases h with ⟨_, _, rfl⟩ | ⟨_, _, hE⟩ | ⟨_, trE, src, hdr, hE, hext⟩
  · exact ⟨by simp, fun _ => by simp⟩
  · obtain ⟨hf, hev, _⟩ := endianStage_failed_events hE
    exact ⟨fun e he => Or.inl (hev e he), fun hff => by rw [hf] at hff; simp at hff⟩
  · obtain ⟨hev, _, hnil⟩ := endianStage_ok_events hE
    refine ⟨?_, ?_⟩
    · intro e he
      rcases hext.mem he with h1 | h1
      · exact Or.inl (hev e h1)
      · exact Or.inr h1
    · intro hff e he
      obtain ⟨rfl, _, _⟩ := hnil hff
      rcases hext.mem he with h1 | h1
      · simp at h1
      · exact h1

/-- Without the (downgraded) conversion flag `ConvertRAWDataset` returns, whatever the fuel. -/
theorem convert_returns (W : World) (fuel : Nat) (a : ConvertArgs)
    (hff : downgradeEndianness a.bConvertEndianness a.iComponentSize = false) :
    ∃ b tr, ConvertRAWDataset W fuel a = some (b, tr) := by
  by_cases hc : a.iComponentCount > 4
  · exact ⟨false, [], by simp [ConvertRAWDataset, convertStages, hc]⟩
  · unfold ConvertRAWDataset
    rw [convertStages_eq W fuel a hc, hff]
    have hE : endianStage W fuel a false (tmpFilename0 W a)
        = Stage.ok [] (a.strFilename, a.iHeaderSkip) := by simp [endianStage]
    rw [hE]
    simp only []
    have hQ := quantStage_extends W a [] a.strFilename a.iHeaderSkip (tmpFilename1 W a)
    cases hq : quantStage W a [] a.strFilename a.iHeaderSkip (tmpFilename1 W a) with
    | stuck => rw [hq] at hQ; exact absurd hQ (by simp [Stage.Extends])
    | failed tr1 => exact ⟨false, tr1, rfl⟩
    | ok tr1 p1 =>
      obtain ⟨src1, size⟩ := p1
      simp only []
      have hsize := quantStage_size hq
      subst hsize
      have hT := convertTail_extends W a false tr1 src1 a.iHeaderSkip
      cases ht : convertTail W a false (tmpFilename0 W a) (tmpFilename1 W a) tr1 src1
          a.iHeaderSkip (workingComponentSize a) with
      | stuck => rw [ht] at hT; exact absurd hT (by simp [Stage.Extends])
      | failed tr2 => exact ⟨false, tr2, rfl⟩
      | ok tr2 u => exact ⟨true, tr2, rfl⟩

/-- Claim C11. When forced 8-bit quantization is requested and the source component width is
greater than 8, the quantization dispatch calls `QuantizeTo8Bit` and, when that succeeds
(returns a non-empty name), leaves the working component width 8; in every returning call
every raster block is typed with bit width 8 and bricked as 8-bit data, and neither a
16-bit-intermediate `Quantize` routine nor `Process8Bits` is called.  Without endianness
conversion the call returns whatever the fuel. -/
theorem C11_forced_8bit (W : World) (fuel : Nat) (a : ConvertArgs)
    (hq : a.bQuantizeTo8Bit = true) (hw : a.iComponentSize > 8) :
    workingComponentSize a = 8
    ∧ (∀ tr src hdr t1, quantStage W a tr src hdr t1
        = checkName
            (tr ++ [Event.quantizeTo8Bit hdr src t1 a.iComponentSize (elemCount a) a.bSigned
              a.bIsFloat
              (W.QuantizeTo8Bit tr hdr src t1 a.iComponentSize (elemCount a) a.bSigned
                a.bIsFloat)])
            (W.QuantizeTo8Bit tr hdr src t1 a.iComponentSize (elemCount a) a.bSigned
              a.bIsFloat) 8)
    ∧ (∀ b tr, ConvertRAWDataset W fuel a = some (b, tr) →
        (∀ ts blk, Event.rasterBlock ts blk ∈ tr → blk.typeBitWidth = 8)
        ∧ (∀ ts src hdr tmp bits comps ok,
            Event.flatDataToBrickedLOD ts src hdr tmp bits comps ok ∈ tr → bits = 8)
        ∧ (∀ ty hdr src dst n r, Event.quantize ty hdr src dst n r ∉ tr)
        ∧ (∀ hdr src dst n sg r, Event.process8Bits hdr src dst n sg r ∉ tr))
    ∧ (downgradeEndianness a.bConvertEndianness a.iComponentSize = false →
        ∃ b tr, ConvertRAWDataset W fuel a = some (b, tr)) := by
  have hws : workingComponentSize a = 8 := by
    simp [workingComponentSize, hq, hw]
  refine ⟨hws, ?_, ?_, convert_returns W fuel a⟩
  · intro tr src hdr t1
    simp [quantStage, hq, hw]
  · intro b tr h
    have hev := (convert_events h).1
    refine ⟨?_, ?_, ?_, ?_⟩
    · intro ts blk he
      rcases hev _ he with h1 | h1
      · exact absurd h1 (by simp [endianEvent])
      · simp only [laterEvent] at h1
        rw [h1, hws]
        rfl
    · intro ts src hdr tmp bits comps ok he
      rcases hev _ he with h1 | h1
      · exact absurd h1 (by simp [endianEvent])
      · simp only [laterEvent] at h1
        rw [h1.1, hws]
    · intro ty hdr src dst n r he
      rcases hev _ he with h1 | h1
      · exact absurd h1 (by simp [endianEvent])
      · simp only [laterEvent] at h1
        rcases h1.1 with h2 | h2
        · rw [hq] at h2; exact absurd h2 (by simp)
        · omega
    · intro hdr src dst n sg r he
      rcases hev _ he with h1 | h1
      · exact absurd h1 (by simp [endianEvent])
      · simp only [laterEvent] at h1
        omega

/-- Witness of C11: the sample call (16-bit data) with forced 8-bit quantization returns,
and its raster blocks are typed with bit width 8. -/
theorem C11_forced_8bit_witness :
    ∃ b tr, ConvertRAWDataset sampleWorld 0 { sampleArgs with bQuantizeTo8Bit := true }
        = some (b, tr)
      ∧ ∀ ts blk, Event.rasterBlock ts blk ∈ tr → blk.typeBitWidth = 8 := by
  obtain ⟨_, _, hall, hret⟩ := C11_forced_8bit sampleWorld 0
    { sampleArgs with bQuantizeTo8Bit := true } rfl (by decide)
  obtain ⟨b, tr, h⟩ := hret rfl
  exact ⟨b, tr, h, (hall b tr h).1⟩

/-- Claim C12. Without forced 8-bit quantization, for every supported source of width 16, 32
or 64 (signed or unsigned integer, or float) the quantization dispatch calls the `Quantize`
routine (to unsigned 16-bit) whose source type matches (width, signed, float) and leaves the
working component width 16; in every returning call no other quantizer is called and every
raster block is typed with bit width 16.  Consequently, for every supported width (8, 16,
32, 64), with or without forced quantization, the bit width recorded in a raster block is 8
or 16. -/
theorem C12_quantize_dispatch (W : World) (fuel : Nat) (a : ConvertArgs) :
    (∀ ty, a.bQuantizeTo8Bit = false →
      matchingSrcType a.iComponentSize a.bSigned a.bIsFloat = some ty →
      workingComponentSize a = 16
      ∧ (∀ tr src hdr t1, quantStage W a tr src hdr t1
          = checkName
              (tr ++ [Event.quantize ty hdr src t1 (elemCount a)
                (W.Quantize tr ty hdr src t1 (elemCount a))])
              (W.Quantize tr ty hdr src t1 (elemCount a)) 16)
      ∧ (∀ b tr, ConvertRAWDataset W fuel a = some (b, tr) →
          (∀ ty1 hdr src dst n r, Event.quantize ty1 hdr src dst n r ∈ tr → ty1 = ty)
          ∧ (∀ hdr src dst n sg r, Event.process8Bits hdr src dst n sg r ∉ tr)
          ∧ (∀ hdr src dst w n sg fl r,
              Event.quantizeTo8Bit hdr src dst w n sg fl r ∉ tr)
          ∧ (∀ ts blk, Event.rasterBlock ts blk ∈ tr → blk.typeBitWidth = 16)))
    ∧ ((a.iComponentSize = 8 ∨ a.iComponentSize = 16 ∨ a.iComponentSize = 32
          ∨ a.iComponentSize = 64) →
        (workingComponentSize a = 8 ∨ workingComponentSize a = 16)
        ∧ ∀ b tr, ConvertRAWDataset W fuel a = some (b, tr) →
          ∀ ts blk, Event.rasterBlock ts blk ∈ tr →
            blk.typeBitWidth = 8 ∨ blk.typeBitWidth = 16) := by
  have hraster : ∀ b tr, ConvertRAWDataset W fuel a = some (b, tr) →
      ∀ ts blk, Event.rasterBlock ts blk ∈ tr →
        blk.typeBitWidth = workingComponentSize a := by
    intro b tr h ts blk he
    rcases (convert_events h).1 _ he with h1 | h1
    · exact absurd h1 (by simp [endianEvent])
    · simp only [laterEvent] at h1
      rw [h1]
      rfl
  refine ⟨?_, ?_⟩
  · intro ty hq hty
    have hw : (a.iComponentSize = 16 ∧ ty = if a.bSigned then SrcType.short else SrcType.ushort)
        ∨ (a.iComponentSize = 32
            ∧ ty = if a.bIsFloat then SrcType.float
                   else if a.bSigned then SrcType.int32 else SrcType.uint32)
        ∨ (a.iComponentSize = 64
            ∧ ty = if a.bIsFloat then SrcType.double
                   else if a.bSigned then SrcType.int64 else SrcType.uint64) := by
      unfold matchingSrcType at hty
      cases hf : a.bIsFloat with
      | false =>
        rw [hf] at hty
        simp only [Bool.false_eq_true, if_false] at hty ⊢
        by_cases h16 : a.iComponentSize = 16
        · rw [if_pos h16] at hty
          exact Or.inl ⟨h16, (Option.some.inj hty).symm⟩
        · rw [if_neg h16] at hty
          by_cases h32 : a.iComponentSize = 32
          · rw [if_pos h32] at hty
            exact Or.inr (Or.inl ⟨h32, (Option.some.inj hty).symm⟩)
          · rw [if_neg h32] at hty
            by_cases h64 : a.iComponentSize = 64
            · rw [if_pos h64] at hty
              exact Or.inr (Or.inr ⟨h64, (Option.some.inj hty).symm⟩)
            · rw [if_neg h64] at hty
              exact absurd hty (by simp)
      | true =>
        rw [hf] at hty
        simp only [if_true] at hty ⊢
        cases hs : a.bSigned with
        | false => rw [hs] at hty; exact absurd hty (by simp)
        | true =>
          rw [hs] at hty
          simp only [if_true] at hty
          by_cases h32 : a.iComponentSize = 32
          · rw [if_pos h32] at hty
            exact Or.inr (Or.inl ⟨h32, (Option.some.inj hty).symm⟩)
          · rw [if_neg h32] at hty
            by_cases h64 : a.iComponentSize = 64
            · rw [if_pos h64] at hty
              exact Or.inr (Or.inr ⟨h64, (Option.some.inj hty).symm⟩)
            · rw [if_neg h64] at hty
              exact absurd hty (by simp)
    have hws : workingComponentSize a = 16 := by
      rcases hw with ⟨h, _⟩ | ⟨h, _⟩ | ⟨h, _⟩ <;> simp [workingComponentSize, hq, h]
    refine ⟨hws, ?_, ?_⟩
    · intro tr src hdr t1
      rcases hw with ⟨h, ht⟩ | ⟨h, ht⟩ | ⟨h, ht⟩ <;>
        simp [quantStage, callQuantize, hq, h, ht]
    · intro b tr h
      have hev := (convert_events h).1
      refine ⟨?_, ?_, ?_, ?_⟩
      · intro ty1 hdr src dst n r he
        rcases hev _ he with h1 | h1
        · exact absurd h1 (by simp [endianEvent])
        · simp only [laterEvent] at h1
          rcases hw with ⟨h, ht⟩ | ⟨h, ht⟩ | ⟨h, ht⟩ <;>
            rcases h1.2 with ⟨h2, ht2⟩ | ⟨h2, ht2⟩ | ⟨h2, ht2⟩ <;>
            first
            | omega
            | (rw [ht, ht2])
      · intro hdr src dst n sg r he
        rcases hev _ he with h1 | h1
        · exact absurd h1 (by simp [endianEvent])
        · simp only [laterEvent] at h1
          rcases hw with ⟨h, _⟩ | ⟨h, _⟩ | ⟨h, _⟩ <;> omega
      · intro hdr src dst w n sg fl r he
        rcases hev _ he with h1 | h1
        · exact absurd h1 (by simp [endianEvent])
        · simp only [laterEvent] at h1
          rw [hq] at h1
          exact absurd h1.1 (by simp)
      · intro ts blk he
        rw [hraster b tr h ts blk he, hws]
  · intro hw
    have hws : workingComponentSize a = 8 ∨ workingComponentSize a = 16 := by
      unfold workingComponentSize
      split_ifs with h1 h2
      · exact Or.inl rfl
      · exact Or.inr rfl
      · omega
    refine ⟨hws, ?_⟩
    intro b tr h ts blk he
    rw [hraster b tr h ts blk he]
    exact hws

/-- Witness of C12: the sample call (unsigned 16-bit data, no forced quantization) calls
`Quantize<unsigned short, unsigned short>` and types its raster blocks with bit width 16. -/
theorem C12_quantize_dispatch_witness :
    ∃ b tr, ConvertRAWDataset sampleWorld 0 sampleArgs = some (b, tr)
      ∧ (∀ ty1 hdr src dst n r, Event.quantize ty1 hdr src dst n r ∈ tr →
          ty1 = SrcType.ushort)
      ∧ (∀ ts blk, Event.rasterBlock ts blk ∈ tr → blk.typeBitWidth = 16) := by
  obtain ⟨_, _, hall⟩ := (C12_quantize_dispatch sampleWorld 0 sampleArgs).1 SrcType.ushort
    rfl rfl
  obtain ⟨b, tr, h⟩ := convert_returns sampleWorld 0 sampleArgs rfl
  exact ⟨b, tr, h, (hall b tr h).1, (hall b tr h).2.2.2⟩

/-- The timestep loop does not look at the conversion flag among the arguments. -/
theorem timestepLoop_flag (W : World) (a : ConvertArgs) (env : LoopEnv) :
    ∀ (n ts : Nat) (tr : Trace) (hdr : Nat),
      timestepLoop W { a with bConvertEndianness := false } env n ts tr hdr
        = timestepLoop W a env n ts tr hdr := by
  intro n
  induction n with
  | zero => intro ts tr hdr; rfl
  | succ n ih =>
    intro ts tr hdr
    have hb : timestepBody W { a with bConvertEndianness := false } env ts tr hdr
        = timestepBody W a env ts tr hdr := rfl
    unfold timestepLoop
    rw [hb]
    cases timestepBody W a env ts tr hdr with
    | ok tr1 hdr1 => exact ih (ts + 1) tr1 hdr1
    | failed tr1 => rfl
    | stuck => rfl

/-- A call without the (downgraded) conversion flag, unfolded up to the timestep loop. -/
theorem convert_unconverted_eq (W : World) (fuel : Nat) (a : ConvertArgs)
    (hc : ¬ a.iComponentCount > 4)
    (hff : downgradeEndianness a.bConvertEndianness a.iComponentSize = false) :
    ConvertRAWDataset W fuel a
      = match quantStage W a [] a.strFilename a.iHeaderSkip (tmpFilename1 W a) with
        | Stage.stuck => none
        | Stage.failed tr1 => some (false, tr1)
        | Stage.ok tr1 (src1, size) =>
          match timestepLoop W a
              { strSourceFilename := src1
                iComponentSize := size
                iLodLevelCount := lodLevelCount a.vVolumeSize a.iTargetBrickSize
                bConvertEndianness := false
                bQuantized := decide (src1 = tmpFilename1 W a)
                tmpFilename0 := tmpFilename0 W a
                tmpFilename1 := tmpFilename1 W a }
              a.timesteps 0 tr1
              (if decide (src1 = tmpFilename1 W a) = true then 0 else a.iHeaderSkip) with
          | Stage.ok tr2 _ =>
            some (true, tr2 ++ [Event.keyValuePairs (metaPairs W a),
                Event.uvfCreate a.strTargetFilename, Event.uvfClose a.strTargetFilename]
              ++ (if decide (src1 = tmpFilename1 W a) = true
                  then [Event.remove (tmpFilename1 W a)] else []))
          | Stage.failed tr2 => some (false, tr2)
          | Stage.stuck => none := by
  unfold ConvertRAWDataset
  rw [convertStages_eq W fuel a hc, hff]
  have hE : endianStage W fuel a false (tmpFilename0 W a)
      = Stage.ok [] (a.strFilename, a.iHeaderSkip) := by simp [endianStage]
  rw [hE]
  simp only []
  cases quantStage W a [] a.strFilename a.iHeaderSkip (tmpFilename1 W a) with
  | stuck => rfl
  | failed tr1 => rfl
  | ok tr1 p =>
    obtain ⟨src1, size⟩ := p
    simp only [convertTail, Bool.and_false, Bool.false_eq_true, if_false, ite_self]
    cases timestepLoop W a
        { strSourceFilename := src1
          iComponentSize := size
          iLodLevelCount := lodLevelCount a.vVolumeSize a.iTargetBrickSize
          bConvertEndianness := false
          bQuantized := decide (src1 = tmpFilename1 W a)
          tmpFilename0 := tmpFilename0 W a
          tmpFilename1 := tmpFilename1 W a }
        a.timesteps 0 tr1
        (if decide (src1 = tmpFilename1 W a) = true then 0 else a.iHeaderSkip) with
    | stuck => rfl
    | failed tr2 => rfl
    | ok tr2 u => simp [removeTemps]

theorem downgradeEndianness_false (w : Nat) : downgradeEndianness false w = false := by
  simp [downgradeEndianness]

/-- Claim C13. When endianness conversion is requested for data whose component width is
below 16 bits, `ConvertRAWDataset` downgrades the request to a no-op: the endianness branch
calls nothing and leaves the source file name and the header skip as given; the call returns
whatever the fuel, creates no file, reads and writes no chunk (so swaps no byte), and does
not fail on that account: its result is that of the same call without the request, up to the
source-endianness pair of the key/value block. -/
theorem C13_small_width_conversion_downgraded (W : World) (fuel : Nat) (a : ConvertArgs)
    (hreq : a.bConvertEndianness = true) (hw : a.iComponentSize < 16) :
    downgradeEndianness a.bConvertEndianness a.iComponentSize = false
    ∧ endianStage W fuel a (downgradeEndianness a.bConvertEndianness a.iComponentSize)
        (tmpFilename0 W a) = Stage.ok [] (a.strFilename, a.iHeaderSkip)
    ∧ (∃ b tr, ConvertRAWDataset W fuel a = some (b, tr))
    ∧ (∀ b tr, ConvertRAWDataset W fuel a = some (b, tr) →
        (∀ f ok, Event.create f ok ∉ tr)
        ∧ (∀ f req data, Event.readRAW f req data ∉ tr)
        ∧ (∀ f out n, Event.writeRAW f out n ∉ tr))
    ∧ (∀ tr, ConvertRAWDataset W fuel a = some (false, tr) ↔
        ConvertRAWDataset W fuel { a with bConvertEndianness := false } = some (false, tr))
    ∧ (∀ tr, ConvertRAWDataset W fuel a = some (true, tr) →
        ∃ pre post, tr = pre ++ Event.keyValuePairs (metaPairs W a) :: post
          ∧ ConvertRAWDataset W fuel { a with bConvertEndianness := false }
              = some (true, pre ++ Event.keyValuePairs
                  (metaPairs W { a with bConvertEndianness := false }) :: post)) := by
  have hff : downgradeEndianness a.bConvertEndianness a.iComponentSize = false := by
    simp [downgradeEndianness, hreq, hw]
  have hnone : ∀ b tr, ConvertRAWDataset W fuel a = some (b, tr) →
      ∀ e ∈ tr, laterEvent W a e := fun b tr h => (convert_events h).2 hff
  refine ⟨hff, by rw [hff]; simp [endianStage], convert_returns W fuel a hff, ?_, ?_⟩
  · intro b tr h
    refine ⟨?_, ?_, ?_⟩
    · intro f ok he; exact absurd (hnone b tr h _ he) (by simp [laterEvent])
    · intro f req data he; exact absurd (hnone b tr h _ he) (by simp [laterEvent])
    · intro f out n he; exact absurd (hnone b tr h _ he) (by simp [laterEvent])
  · by_cases hc : a.iComponentCount > 4
    · have h1 : ConvertRAWDataset W fuel a = some (false, []) := by
        simp [ConvertRAWDataset, convertStages, hc]
      have h2 : ConvertRAWDataset W fuel { a with bConvertEndianness := false }
          = some (false, []) := by
        simp [ConvertRAWDataset, convertStages, hc]
      rw [h1, h2]
      exact ⟨fun tr => Iff.rfl, fun tr h => by simp at h⟩
    · have e1 := convert_unconverted_eq W fuel a hc hff
      have e2 := convert_unconverted_eq W fuel { a with bConvertEndianness := false } hc
        (downgradeEndianness_false _)
      have hqs : quantStage W { a with bConvertEndianness := false } [] a.strFilename
          a.iHeaderSkip (tmpFilename1 W a)
          = quantStage W a [] a.strFilename a.iHeaderSkip (tmpFilename1 W a) := rfl
      rw [e1]
      rw [show ConvertRAWDataset W fuel { a with bConvertEndianness := false }
          = _ from e2]
      simp only [show tmpFilename1 W { a with bConvertEndianness := false }
          = tmpFilename1 W a from rfl,
        show tmpFilename0 W { a with bConvertEndianness := false }
          = tmpFilename0 W a from rfl, hqs, timestepLoop_flag]
      cases quantStage W a [] a.strFilename a.iHeaderSkip (tmpFilename1 W a) with
      | stuck => exact ⟨fun tr => Iff.rfl, fun tr h => by simp at h⟩
      | failed tr1 => exact ⟨fun tr => Iff.rfl, fun tr h => by simp at h⟩
      | ok tr1 p =>
        obtain ⟨src1, size⟩ := p
        simp only []
        cases timestepLoop W a
            { strSourceFilename := src1
              iComponentSize := size
              iLodLevelCount := lodLevelCount a.vVolumeSize a.iTargetBrickSize
              bConvertEndianness := false
              bQuantized := decide (src1 = tmpFilename1 W a)
              tmpFilename0 := tmpFilename0 W a
              tmpFilename1 := tmpFilename1 W a }
            a.timesteps 0 tr1
            (if decide (src1 = tmpFilename1 W a) = true then 0 else a.iHeaderSkip) with
        | stuck => exact ⟨fun tr => Iff.rfl, fun tr h => by simp at h⟩
        | failed tr2 => exact ⟨fun tr => Iff.rfl, fun tr h => by simp at h⟩
        | ok tr2 u =>
          refine ⟨fun tr => by simp, ?_⟩
          intro tr h
          simp only [Option.some.injEq, Prod.mk.injEq, true_and] at h
          subst h
          refine ⟨tr2, [Event.uvfCreate a.strTargetFilename,
            Event.uvfClose a.strTargetFilename]
              ++ (if decide (src1 = tmpFilename1 W a) = true
                  then [Event.remove (tmpFilename1 W a)] else []), ?_, ?_⟩
          · simp only [List.append_assoc, List.cons_append, List.nil_append]
          · simp only [List.append_assoc, List.cons_append, List.nil_append]

/-- Witness of C13: the sample call as 8-bit data with endianness conversion requested
returns, and creates no file. -/
theorem C13_small_width_conversion_downgraded_witness :
    ∃ b tr, ConvertRAWDataset sampleWorld 0
        { sampleArgs with iComponentSize := 8, bConvertEndianness := true } = some (b, tr)
      ∧ ∀ f ok, Event.create f ok ∉ tr := by
  obtain ⟨_, _, ⟨b, tr, h⟩, hall, _⟩ := C13_small_width_conversion_downgraded sampleWorld 0
    { sampleArgs with iComponentSize := 8, bConvertEndianness := true } rfl (by decide)
  exact ⟨b, tr, h, (hall b tr h).1⟩

/-- A call of `ConvertRAWDataset` whose endianness pass has a defined result returns. -/
theorem convert_returns_of_endian (W : World) (fuel : Nat) (a : ConvertArgs)
    (hE : endianStage W fuel a (downgradeEndianness a.bConvertEndianness a.iComponentSize)
        (tmpFilename0 W a) ≠ Stage.stuck) :
    ∃ b tr, ConvertRAWDataset W fuel a = some (b, tr) := by
  by_cases hc : a.iComponentCount > 4
  · exact ⟨false, [], by simp [ConvertRAWDataset, convertStages, hc]⟩
  · unfold ConvertRAWDataset
    rw [convertStages_eq W fuel a hc]
    cases hes : endianStage W fuel a
        (downgradeEndianness a.bConvertEndianness a.iComponentSize) (tmpFilename0 W a) with
    | stuck => exact absurd hes hE
    | failed tr0 => exact ⟨false, tr0, rfl⟩
    | ok tr0 p0 =>
      obtain ⟨src0, hdr0⟩ := p0
      simp only []
      have hQ := quantStage_extends W a tr0 src0 hdr0 (tmpFilename1 W a)
      cases hq : quantStage W a tr0 src0 hdr0 (tmpFilename1 W a) with
      | stuck => rw [hq] at hQ; exact absurd hQ (by simp [Stage.Extends])
      | failed tr1 => exact ⟨false, tr1, rfl⟩
      | ok tr1 p1 =>
        obtain ⟨src1, size⟩ := p1
        simp only []
        have hsize := quantStage_size hq
        subst hsize
        have hT := convertTail_extends W a
          (downgradeEndianness a.bConvertEndianness a.iComponentSize) tr1 src1 hdr0
        cases ht : convertTail W a
            (downgradeEndianness a.bConvertEndianness a.iComponentSize)
            (tmpFilename0 W a) (tmpFilename1 W a) tr1 src1 hdr0
            (workingComponentSize a) with
        | stuck => rw [ht] at hT; exact absurd hT (by simp [Stage.Extends])
        | failed tr2 => exact ⟨false, tr2, rfl⟩
        | ok tr2 u => exact ⟨true, tr2, rfl⟩

/-- A failing endianness pass makes `ConvertRAWDataset` return `false` at once. -/
theorem convert_of_endian_failed (W : World) (fuel : Nat) (a : ConvertArgs) (tr : Trace)
    (hc : ¬ a.iComponentCount > 4)
    (hE : endianStage W fuel a (downgradeEndianness a.bConvertEndianness a.iComponentSize)
        (tmpFilename0 W a) = Stage.failed tr) :
    ConvertRAWDataset W fuel a = some (false, tr) := by
  unfold ConvertRAWDataset
  rw [convertStages_eq W fuel a hc, hE]

/-- Claim C14. In the endianness pass of `ConvertRAWDataset` the chunk buffer size is
`min(L, (B*B*B*w)/8)`, with `L` the length of the source file, `B` the target brick size and
`w` the component width in bits, the product taken in 64-bit unsigned arithmetic; every
round of the conversion loop requests that many bytes and takes at most that many, and every
read of a returning call is a read of the source file that requests exactly that size, so at
most `L` and at most one target-brick volume. -/
theorem C14_endian_chunk_size (W : World) (fuel : Nat) (a : ConvertArgs) :
    endianBufferSize (endianFileLength W a) a.iTargetBrickSize a.iComponentSize
      = min (endianFileLength W a)
          ((a.iTargetBrickSize * a.iTargetBrickSize * a.iTargetBrickSize * a.iComponentSize)
            % 2 ^ 64 / 8)
    ∧ (∀ tmp0 s s1, endianBody W a.strFilename tmp0 a.iComponentSize
          (endianBufferSize (endianFileLength W a) a.iTargetBrickSize a.iComponentSize) s
          = EndianStep.next s1 →
        ∃ data out, s1.tr = s.tr ++ [Event.readRAW a.strFilename
            (endianBufferSize (endianFileLength W a) a.iTargetBrickSize a.iComponentSize) data,
            Event.writeRAW tmp0 out out.length]
          ∧ data.length ≤ endianBufferSize (endianFileLength W a) a.iTargetBrickSize
              a.iComponentSize)
    ∧ (∀ b tr, ConvertRAWDataset W fuel a = some (b, tr) →
        ∀ f req data, Event.readRAW f req data ∈ tr →
          f = a.strFilename
          ∧ req = endianBufferSize (endianFileLength W a) a.iTargetBrickSize a.iComponentSize
          ∧ data.length ≤ req
          ∧ req ≤ endianFileLength W a
          ∧ req ≤ (a.iTargetBrickSize * a.iTargetBrickSize * a.iTargetBrickSize
              * a.iComponentSize) % 2 ^ 64 / 8) := by
  have hsize : endianBufferSize (endianFileLength W a) a.iTargetBrickSize a.iComponentSize
      = min (endianFileLength W a)
          ((a.iTargetBrickSize * a.iTargetBrickSize * a.iTargetBrickSize * a.iComponentSize)
            % 2 ^ 64 / 8) := by
    simp [endianBufferSize, u64]
  refine ⟨hsize, ?_, ?_⟩
  · intro tmp0 s s1 hb
    rcases endianBody_cases W a.strFilename tmp0 a.iComponentSize
        (endianBufferSize (endianFileLength W a) a.iTargetBrickSize a.iComponentSize) s with
      ⟨s2, data, out, h1, h2, h3, _, _⟩ | ⟨data, out, n, h1, _⟩ | h1
    · rw [hb] at h1
      cases h1
      exact ⟨data, out, h2, h3⟩
    · rw [hb] at h1; cases h1
    · rw [hb] at h1; cases h1
  · intro b tr h f req data he
    have hev := (convert_events h).1 _ he
    rcases hev with h1 | h1
    · obtain ⟨hf, hreq, hlen⟩ := h1
      refine ⟨hf, hreq, hlen, ?_, ?_⟩
      · rw [hreq, hsize]; exact Nat.min_le_left _ _
      · rw [hreq, hsize]; exact Nat.min_le_right _ _
    · exact absurd h1 (by simp [laterEvent])

/-- Witness of C14: the sample call with endianness conversion on a four-byte source reads
it in chunks of four bytes. -/
theorem C14_endian_chunk_size_witness :
    ∃ b tr, ConvertRAWDataset smallWorld 1 swappedArgs
        = some (b, tr)
      ∧ Event.readRAW "abc" 4 [0, 0, 0, 0] ∈ tr
      ∧ ∀ f req data, Event.readRAW f req data ∈ tr → req = 4 := by
  have hE : endianStage smallWorld 1 swappedArgs
      (downgradeEndianness swappedArgs.bConvertEndianness swappedArgs.iComponentSize)
      (tmpFilename0 smallWorld swappedArgs)
      = Stage.ok [Event.openRead "abc" 0 true, Event.create ".abc.endianess" true,
          Event.readRAW "abc" 4 [0, 0, 0, 0], Event.writeRAW ".abc.endianess" [0, 0, 0, 0] 4,
          Event.close "abc", Event.close ".abc.endianess"] (".abc.endianess", 0) := by
    rfl
  obtain ⟨b, tr, h⟩ := convert_returns_of_endian smallWorld 1
    swappedArgs (by rw [hE]; exact fun h => Stage.noConfusion h)
  refine ⟨b, tr, h, ?_, ?_⟩
  · rcases convert_cases h with ⟨hc, _⟩ | ⟨_, _, hF⟩ | ⟨_, trE, src, hdr, hO, hext⟩
    · exact absurd hc (by decide)
    · rw [hE] at hF; cases hF
    · rw [hE] at hO
      cases hO
      obtain ⟨ext, rfl, _⟩ := hext
      simp
  · intro f req data he
    have h3 := (C14_endian_chunk_size smallWorld 1
      swappedArgs).2.2 b tr h f req data he
    rw [h3.2.1]
    decide

/-- Claim C15. In the endianness pass, a chunk whose write count differs from the bytes read
makes the conversion loop fail in that round, after closing both files and removing the endianness
temp file, and a failing pass makes `ConvertRAWDataset` return `false` at once; so in every
returning call whose trace shows a write whose count differs from the bytes handed over, the
result is `false`, the last three calls are the two closes and the removal of the endianness
temp file, and no later stage has run: no quantizer was called, nothing was bricked, and no
block was added to the container. -/
theorem C15_short_write_aborts (W : World) (fuel : Nat) (a : ConvertArgs) :
    (∀ src tmp0 w iBufferSize s, ∀ data out n,
        (W.ReadRAW s.tr src iBufferSize).take iBufferSize = data →
        swapChunk w (data ++ s.pBuffer.drop data.length) data.length = some out →
        n = W.WriteRAW (s.tr ++ [Event.readRAW src iBufferSize data]) tmp0
              (out.take data.length) →
        data.length ≠ n →
        endianBody W src tmp0 w iBufferSize s
          = EndianStep.failed (s.tr ++ [Event.readRAW src iBufferSize data,
              Event.writeRAW tmp0 (out.take data.length) n,
              Event.close src, Event.close tmp0, Event.remove tmp0]))
    ∧ (∀ src tmp0 w iBufferSize L fuel1 s t, s.ulBufferConverted < L →
        endianBody W src tmp0 w iBufferSize s = EndianStep.failed t →
        endianLoop W src tmp0 w iBufferSize L (fuel1 + 1) s = Stage.failed t)
    ∧ (∀ tr, ¬ a.iComponentCount > 4 →
        endianStage W fuel a (downgradeEndianness a.bConvertEndianness a.iComponentSize)
          (tmpFilename0 W a) = Stage.failed tr →
        ConvertRAWDataset W fuel a = some (false, tr))
    ∧ (∀ b tr, ConvertRAWDataset W fuel a = some (b, tr) →
        ∀ f out n, Event.writeRAW f out n ∈ tr → n ≠ out.length →
          b = false
          ∧ (∃ pre, tr = pre ++ [Event.close a.strFilename, Event.close (tmpFilename0 W a),
              Event.remove (tmpFilename0 W a)])
          ∧ (∀ e ∈ tr, endianEvent W a e)
          ∧ (∀ e ∈ tr, match e with
              | Event.quantizeTo8Bit _ _ _ _ _ _ _ _ => False
              | Event.process8Bits _ _ _ _ _ _ => False
              | Event.quantize _ _ _ _ _ _ => False
              | Event.flatDataToBrickedLOD _ _ _ _ _ _ _ => False
              | Event.addDataBlock _ _ _ => False
              | _ => True)) := by
  refine ⟨?_, ?_, ?_, ?_⟩
  · intro src tmp0 w iBufferSize s data out n hdata hswap hn hne
    subst hdata
    subst hn
    unfold endianBody
    simp only [hswap]
    rw [if_pos hne]
    simp only [List.append_assoc, List.cons_append, List.nil_append]
  · intro src tmp0 w iBufferSize L fuel1 s t hlt hb
    unfold endianLoop
    rw [if_pos hlt, hb]
  · intro tr hc hE
    exact convert_of_endian_failed W fuel a tr hc hE
  · intro b tr h f out n he hne
    have key : b = false
        ∧ (∃ pre, tr = pre ++ [Event.close a.strFilename, Event.close (tmpFilename0 W a),
              Event.remove (tmpFilename0 W a)])
        ∧ (∀ e ∈ tr, endianEvent W a e) := by
      rcases convert_cases h with ⟨_, _, rfl⟩ | ⟨_, hb, hF⟩ | ⟨_, trE, src, hdr, hO, hext⟩
      · simp at he
      · obtain ⟨_, hev, hshort⟩ := endianStage_failed_events hF
        exact ⟨hb, hshort ⟨f, out, n, he, hne⟩, hev⟩
      · obtain ⟨_, hfull, _⟩ := endianStage_ok_events hO
        rcases hext.mem he with h1 | h1
        · exact absurd (hfull f out n h1) hne
        · exact absurd h1 (by simp [laterEvent])
    refine ⟨key.1, key.2.1, key.2.2, ?_⟩
    intro e he1
    have h2 := key.2.2 e he1
    cases e <;> trivial

/-- Witness of C15: with writes that fall one byte short, the sample call with endianness
conversion returns `false` after removing the endianness temp file. -/
theorem C15_short_write_aborts_witness :
    ConvertRAWDataset shortWriteWorld 1 swappedArgs
      = some (false, [Event.openRead "abc" 0 true, Event.create ".abc.endianess" true,
          Event.readRAW "abc" 4 [0, 0, 0, 0], Event.writeRAW ".abc.endianess" [0, 0, 0, 0] 3,
          Event.close "abc", Event.close ".abc.endianess", Event.remove ".abc.endianess"]) :=
  (C15_short_write_aborts shortWriteWorld 1
    swappedArgs).2.2.1 _ (by decide) rfl

theorem stepEvent_of_untagged {ts : Nat} {e : Event} (h : e.brickTimestep = none) :
    stepEvent ts e := by
  cases e <;> simp_all [stepEvent, Event.brickTimestep, Event.brickFailure, Event.isRasterAdd]

theorem isAdd_false_of_untagged {e : Event} (h : e.brickTimestep = none) :
    e.isAdd = false := by
  cases e <;> simp_all [Event.brickTimestep, Event.isAdd]

theorem isRasterAdd_false_of_isAdd {e : Event} (h : e.isAdd = false) :
    e.isRasterAdd = false := by
  cases e <;> simp_all [Event.isRasterAdd, Event.isAdd]

theorem RasterAfterVerify.join {tr1 tr2 : Trace} (h1 : RasterAfterVerify tr1)
    (h2 : RasterAfterVerify tr2) : RasterAfterVerify (tr1 ++ tr2) := by
  intro ts ok he
  rcases List.mem_append.mp he with h | h
  · obtain ⟨pre, post, src, hdr, tmp, bits, comps, hh⟩ := h1 ts ok h
    exact ⟨pre, post ++ tr2, src, hdr, tmp, bits, comps, by rw [hh]; simp⟩
  · obtain ⟨pre, post, src, hdr, tmp, bits, comps, hh⟩ := h2 ts ok h
    exact ⟨tr1 ++ pre, post, src, hdr, tmp, bits, comps, by rw [hh]; simp⟩

theorem RasterAfterVerify.of_none {tr : Trace} (h : ∀ e ∈ tr, e.isRasterAdd = false) :
    RasterAfterVerify tr := by
  intro ts ok he
  have h1 := h _ he
  simp [Event.isRasterAdd] at h1

theorem RasterAfterVerify.triple (ts : Nat) (src : String) (hdr : Nat) (tmp : String)
    (bits comps : Nat) (ok : Bool) :
    RasterAfterVerify [Event.flatDataToBrickedLOD ts src hdr tmp bits comps true,
      Event.verify ts true, Event.addDataBlock BlockKind.raster ts ok] := by
  intro ts1 ok1 he
  simp only [List.mem_cons, List.mem_singleton, List.not_mem_nil, or_false] at he
  rcases he with he | he | he
  · cases he
  · cases he
  · cases he
    exact ⟨[], [], src, hdr, tmp, bits, comps, rfl⟩

theorem LoopInv.untagged {tr : Trace} (h : ∀ e ∈ tr, e.brickTimestep = none) :
    LoopInv 0 tr := by
  refine ⟨fun e he => ⟨fun ts hts => ?_, (stepEvent_of_untagged (h e he) : stepEvent 0 e).1⟩,
    RasterAfterVerify.of_none fun e he => (stepEvent_of_untagged (h e he) : stepEvent 0 e).2.1⟩
  rw [h e he] at hts
  cases hts

/-- Calls of timestep `ts` other than the adding of the raster block carry the loop on to
the next timestep. -/
theorem LoopInv.plain {ts : Nat} {tr ext : Trace} (h : LoopInv ts tr)
    (hext : ∀ e ∈ ext, stepEvent ts e) : LoopInv (ts + 1) (tr ++ ext) := by
  refine ⟨?_, RasterAfterVerify.join h.2 (RasterAfterVerify.of_none fun e he =>
    (hext e he).2.1)⟩
  intro e he
  rcases List.mem_append.mp he with h1 | h1
  · exact ⟨fun t ht => Nat.lt_succ_of_lt ((h.1 e h1).1 t ht), (h.1 e h1).2⟩
  · exact ⟨fun t ht => by rw [(hext e h1).2.2 t ht]; exact Nat.lt_succ_self _, (hext e h1).1⟩

/-- A timestep that bricks, verifies and adds its raster block in this order carries the
loop on to the next timestep. -/
theorem LoopInv.step {ts : Nat} {tr pre post : Trace} (h : LoopInv ts tr)
    (src : String) (hdr : Nat) (tmp : String) (bits comps : Nat) (ok : Bool)
    (hpre : ∀ e ∈ pre, stepEvent ts e) (hpost : ∀ e ∈ post, stepEvent ts e) :
    LoopInv (ts + 1) (tr ++ (pre ++ ([Event.flatDataToBrickedLOD ts src hdr tmp bits comps true,
      Event.verify ts true, Event.addDataBlock BlockKind.raster ts ok] ++ post))) := by
  refine ⟨?_, RasterAfterVerify.join h.2 (RasterAfterVerify.join
    (RasterAfterVerify.of_none fun e he => (hpre e he).2.1)
    (RasterAfterVerify.join (RasterAfterVerify.triple ts src hdr tmp bits comps ok)
      (RasterAfterVerify.of_none fun e he => (hpost e he).2.1)))⟩
  intro e he
  rcases List.mem_append.mp he with h1 | h1
  · exact ⟨fun t ht => Nat.lt_succ_of_lt ((h.1 e h1).1 t ht), (h.1 e h1).2⟩
  · rcases List.mem_append.mp h1 with h2 | h2
    · exact ⟨fun t ht => by rw [(hpre e h2).2.2 t ht]; exact Nat.lt_succ_self _,
        (hpre e h2).1⟩
    · rcases List.mem_append.mp h2 with h3 | h3
      · simp only [List.mem_cons, List.mem_singleton, List.not_mem_nil, or_false] at h3
        rcases h3 with rfl | rfl | rfl <;>
          exact ⟨fun t ht => by
            simp only [Event.brickTimestep, Option.some.injEq] at ht
            omega, rfl⟩
      · exact ⟨fun t ht => by rw [(hpost e h3).2.2 t ht]; exact Nat.lt_succ_self _,
          (hpost e h3).1⟩

theorem LoopInv.failInv {n : Nat} {tr : Trace} (h : LoopInv n tr) : FailInv tr := by
  refine ⟨h.2, ?_⟩
  intro e he hf
  rw [(h.1 e he).2] at hf
  cases hf

/-- A timestep that stops before adding a block leaves no block of its own in the trace. -/
theorem LoopInv.abort {ts : Nat} {tr ext : Trace} (h : LoopInv ts tr)
    (hext : ∀ e ∈ ext, e.isAdd = false ∧ ∀ t, e.brickTimestep = some t → t = ts) :
    FailInv (tr ++ ext) := by
  refine ⟨RasterAfterVerify.join h.2 (RasterAfterVerify.of_none fun e he =>
    isRasterAdd_false_of_isAdd (hext e he).1), ?_⟩
  intro e he hf t ht e2 he2 hadd
  rcases List.mem_append.mp he with h1 | h1
  · rw [(h.1 e h1).2] at hf
    cases hf
  · have hts := (hext e h1).2 t ht
    subst hts
    rcases List.mem_append.mp he2 with h2 | h2
    · intro hcon
      exact Nat.lt_irrefl _ ((h.1 e2 h2).1 _ hcon)
    · rw [(hext e2 h2).1] at hadd
      cases hadd

theorem removeTemps_untagged (env : LoopEnv) :
    ∀ e ∈ removeTemps env, e.brickTimestep = none := by
  intro e he
  unfold removeTemps at he
  rcases List.mem_append.mp he with h | h
  · split_ifs at h
    · simp only [List.mem_singleton] at h; subst h; rfl
    · simp at h
  · split_ifs at h
    · simp only [List.mem_singleton] at h; subst h; rfl
    · simp at h

theorem histogram2DPart_steps (W : World) (a : ConvertArgs) (env : LoopEnv) (ts : Nat)
    (tr : Trace) : Stage.Extends (stepEvent ts) tr (histogram2DPart W a env ts tr) := by
  have hrm : ∀ e ∈ removeTemps env, stepEvent ts e :=
    fun e he => stepEvent_of_untagged (removeTemps_untagged env e he)
  unfold histogram2DPart
  simp only []
  split_ifs
  · refine ⟨_, by simp only [List.append_assoc]; rfl, ?_⟩
    intro e he
    simp only [List.mem_append, List.mem_cons, List.mem_singleton, List.not_mem_nil,
      or_false] at he
    rcases he with rfl | rfl | he
    · exact stepEvent_of_untagged rfl
    · exact stepEvent_of_untagged rfl
    · exact hrm e he
  · refine ⟨_, by simp only [List.append_assoc]; rfl, ?_⟩
    intro e he
    simp only [List.mem_append, List.mem_cons, List.mem_singleton, List.not_mem_nil,
      or_false] at he
    rcases he with rfl | rfl | rfl
    · exact stepEvent_of_untagged rfl
    · exact ⟨rfl, rfl, fun t ht => by
        simp only [Event.brickTimestep, Option.some.injEq] at ht; exact ht.symm⟩
    · exact ⟨rfl, rfl, fun t ht => by
        simp only [Event.brickTimestep, Option.some.injEq] at ht; exact ht.symm⟩

theorem histogramPart_steps (W : World) (a : ConvertArgs) (env : LoopEnv) (ts : Nat)
    (tr : Trace) : Stage.Extends (stepEvent ts) tr (histogramPart W a env ts tr) := by
  have hrm : ∀ e ∈ removeTemps env, stepEvent ts e :=
    fun e he => stepEvent_of_untagged (removeTemps_untagged env e he)
  unfold histogramPart
  simp only []
  split_ifs
  · refine ⟨_, by simp only [List.append_assoc]; rfl, ?_⟩
    intro e he
    simp only [List.mem_append, List.mem_cons, List.mem_singleton, List.not_mem_nil,
      or_false] at he
    rcases he with rfl | rfl | he
    · exact stepEvent_of_untagged rfl
    · exact stepEvent_of_untagged rfl
    · exact hrm e he
  · refine Stage.Extends.of_extends (extends_append_iff _ _ _ ?_)
      (histogram2DPart_steps W a env ts _)
    intro e he
    simp only [List.mem_singleton] at he
    subst he
    exact stepEvent_of_untagged rfl
  · exact histogram2DPart_steps W a env ts _
  · exact Extends.refl _ _

theorem histogramPart_steps_of_eq {W : World} {a : ConvertArgs} {env : LoopEnv} {ts : Nat}
    {tr : Trace} {r : Stage Unit}
    (h : histogramPart W a env ts tr = r) : Stage.Extends (stepEvent ts) tr r :=
  h ▸ histogramPart_steps W a env ts tr

theorem abortEvent_of_untagged {ts : Nat} {e : Event} (h : e.brickTimestep = none) :
    e.isAdd = false ∧ ∀ t, e.brickTimestep = some t → t = ts :=
  ⟨isAdd_false_of_untagged h, fun t ht => by rw [h] at ht; cases ht⟩

/-- The shape of `LoopInv.step` the body of the timestep loop produces. -/
theorem LoopInv.step_cons {ts : Nat} {tr post : Trace} (h : LoopInv ts tr) (e1 e2 : Event)
    (src : String) (hdr : Nat) (tmp : String) (bits comps : Nat) (okB okV ok : Bool)
    (h1 : e1.brickTimestep = none) (h2 : e2.brickTimestep = none)
    (hB : okB = true) (hV : okV = true) (hpost : ∀ e ∈ post, stepEvent ts e) :
    LoopInv (ts + 1) (tr ++ e1 :: e2 :: Event.flatDataToBrickedLOD ts src hdr tmp bits comps okB
      :: Event.verify ts okV :: Event.addDataBlock BlockKind.raster ts ok :: post) := by
  subst hB
  subst hV
  refine @LoopInv.step ts tr [e1, e2] post h src hdr tmp bits comps ok ?_ hpost
  intro e he
  simp only [List.mem_cons, List.mem_singleton, List.not_mem_nil, or_false] at he
  rcases he with rfl | rfl
  · exact stepEvent_of_untagged h1
  · exact stepEvent_of_untagged h2

/-- The body of the timestep loop keeps the order of bricking, `Verify` and `AddDataBlock`:
when it goes through, the loop can enter the next timestep; when it fails, no block of a
timestep whose bricking or `Verify` failed is in the trace. -/
theorem timestepBody_inv (W : World) (a : ConvertArgs) (env : LoopEnv) (ts : Nat)
    (tr : Trace) (hdr : Nat) (h : LoopInv ts tr) :
    Stage.Holds (LoopInv (ts + 1)) FailInv (timestepBody W a env ts tr hdr) := by
  have hrm := removeTemps_untagged env
  unfold timestepBody
  simp only []
  split_ifs with hopen hsup hbrick hverify hadd
  · simp only [List.append_assoc, List.cons_append, List.nil_append]
    refine (LoopInv.plain h ?_).failInv
    intro e he
    simp only [List.mem_cons, List.mem_singleton, List.not_mem_nil, or_false] at he
    rcases he with rfl | rfl <;> exact stepEvent_of_untagged rfl
  · simp only [List.append_assoc, List.cons_append, List.nil_append]
    refine LoopInv.abort h ?_
    intro e he
    simp only [List.mem_cons, List.mem_singleton, List.not_mem_nil, or_false] at he
    rcases he with rfl | rfl | rfl | rfl
    · exact abortEvent_of_untagged rfl
    · exact abortEvent_of_untagged rfl
    · exact ⟨rfl, fun t ht => (Option.some.inj ht).symm⟩
    · exact abortEvent_of_untagged rfl
  · simp only [List.append_assoc, List.cons_append, List.nil_append]
    refine LoopInv.abort h ?_
    intro e he
    simp only [List.mem_cons] at he
    rcases he with rfl | rfl | rfl | rfl | rfl | he
    · exact abortEvent_of_untagged rfl
    · exact abortEvent_of_untagged rfl
    · exact ⟨rfl, fun t ht => (Option.some.inj ht).symm⟩
    · exact ⟨rfl, fun t ht => (Option.some.inj ht).symm⟩
    · exact abortEvent_of_untagged rfl
    · exact abortEvent_of_untagged (hrm e he)
  · simp only [List.append_assoc, List.cons_append, List.nil_append]
    refine (LoopInv.step_cons h _ _ _ _ _ _ _ _ _ _ ?_ ?_ (by simpa using hbrick)
      (by simpa using hverify) ?_).failInv
    · rfl
    · rfl
    · intro e he
      simp only [List.mem_cons] at he
      rcases he with rfl | he
      · exact stepEvent_of_untagged rfl
      · exact stepEvent_of_untagged (hrm e he)
  · split
    · rename_i tr6 _ heq
      obtain ⟨ext, rfl, hext⟩ := histogramPart_steps_of_eq heq
      simp only [List.append_assoc, List.cons_append, List.nil_append]
      refine LoopInv.step_cons h _ _ _ _ _ _ _ _ _ _ ?_ ?_ (by simpa using hbrick)
        (by simpa using hverify) ?_
      · rfl
      · rfl
      · intro e he
        rcases List.mem_append.mp he with h1 | h1
        · exact hext e h1
        · simp only [List.mem_cons, List.mem_singleton, List.not_mem_nil, or_false] at h1
          rcases h1 with rfl | rfl
          · exact ⟨rfl, rfl, fun t ht => (Option.some.inj ht).symm⟩
          · exact stepEvent_of_untagged rfl
    · rename_i tr6 heq
      obtain ⟨ext, rfl, hext⟩ := histogramPart_steps_of_eq heq
      simp only [List.append_assoc, List.cons_append, List.nil_append]
      refine (LoopInv.step_cons h _ _ _ _ _ _ _ _ _ _ ?_ ?_ (by simpa using hbrick)
        (by simpa using hverify) hext).failInv
      · rfl
      · rfl
    · trivial
  · simp only [List.append_assoc, List.cons_append, List.nil_append]
    refine (LoopInv.plain h ?_).failInv
    intro e he
    simp only [List.mem_cons, List.mem_singleton, List.not_mem_nil, or_false] at he
    rcases he with rfl | rfl | rfl | rfl <;> exact stepEvent_of_untagged rfl

/-- The timestep loop keeps the order of bricking, `Verify` and `AddDataBlock`. -/
theorem timestepLoop_inv (W : World) (a : ConvertArgs) (env : LoopEnv) :
    ∀ (n ts : Nat) (tr : Trace) (hdr : Nat), LoopInv ts tr →
      Stage.Holds (fun t => ∃ m, LoopInv m t) FailInv (timestepLoop W a env n ts tr hdr) := by
  intro n
  induction n with
  | zero => intro ts tr hdr h; exact ⟨ts, h⟩
  | succ n ih =>
    intro ts tr hdr h
    have hb := timestepBody_inv W a env ts tr hdr h
    unfold timestepLoop
    cases hres : timestepBody W a env ts tr hdr with
    | ok tr1 hdr1 =>
      rw [hres] at hb
      exact ih (ts + 1) tr1 hdr1 hb
    | failed tr1 => rw [hres] at hb; exact hb
    | stuck => trivial

theorem convertTail_inv (W : World) (a : ConvertArgs) (flag : Bool) (t0 t1 : String)
    (tr : Trace) (src : String) (hdr size : Nat) (h : ∀ e ∈ tr, e.brickTimestep = none) :
    Stage.Holds (fun t => ∃ m, LoopInv m t) FailInv
      (convertTail W a flag t0 t1 tr src hdr size) := by
  unfold convertTail
  simp only []
  have hpre : ∀ e ∈ (if (decide (src = t1) && flag) = true
      then tr ++ [Event.remove t0] else tr), e.brickTimestep = none := by
    split_ifs
    · intro e he
      rcases List.mem_append.mp he with h1 | h1
      · exact h e h1
      · simp only [List.mem_singleton] at h1; subst h1; rfl
    · exact h
  have hloop := timestepLoop_inv W a
    { strSourceFilename := src
      iComponentSize := size
      iLodLevelCount := lodLevelCount a.vVolumeSize a.iTargetBrickSize
      bConvertEndianness := if decide (src = t1) = true then false else flag
      bQuantized := decide (src = t1)
      tmpFilename0 := t0
      tmpFilename1 := t1 } a.timesteps 0
    (if (decide (src = t1) && flag) = true then tr ++ [Event.remove t0] else tr)
    (if decide (src = t1) = true then 0 else hdr) (LoopInv.untagged hpre)
  split
  · rename_i tr2 _ heq
    rw [heq] at hloop
    obtain ⟨m, hm⟩ := hloop
    refine ⟨m + 1, ?_⟩
    simp only [List.append_assoc]
    refine LoopInv.plain hm ?_
    intro e he
    rcases List.mem_append.mp he with h1 | h1
    · simp only [List.mem_cons, List.mem_singleton, List.not_mem_nil, or_false] at h1
      rcases h1 with rfl | rfl | rfl <;> exact stepEvent_of_untagged rfl
    · exact stepEvent_of_untagged (removeTemps_untagged _ e h1)
  · rename_i tr2 heq
    rw [heq] at hloop
    exact hloop
  · trivial

theorem endianEvent_untagged {W : World} {a : ConvertArgs} {e : Event}
    (h : endianEvent W a e) : e.brickTimestep = none := by
  cases e <;> first | rfl | exact absurd h (by simp [endianEvent])

/-- The quantization dispatch makes no call of bricking, `Verify` or `AddDataBlock`. -/
theorem quantStage_untagged (W : World) (a : ConvertArgs) (tr : Trace) (src : String)
    (hdr : Nat) (t1 : String) :
    Stage.Extends (fun e => e.brickTimestep = none) tr (quantStage W a tr src hdr t1) := by
  unfold quantStage
  simp only [callQuantize]
  split_ifs <;>
    first
    | exact checkName_extends _ _ (extends_snoc _ _ _ rfl)
    | exact checkName_extends _ _ (Extends.refl _ _)

/-- The whole function keeps the order of bricking, `Verify` and `AddDataBlock`. -/
theorem convertStages_inv (W : World) (fuel : Nat) (a : ConvertArgs) :
    Stage.Holds (fun t => ∃ m, LoopInv m t) FailInv (convertStages W fuel a) := by
  by_cases hc : a.iComponentCount > 4
  · have h0 : convertStages W fuel a = Stage.failed [] := by simp [convertStages, hc]
    rw [h0]
    exact (LoopInv.untagged (by simp)).failInv
  · rw [convertStages_eq W fuel a hc]
    cases hE : endianStage W fuel a
        (downgradeEndianness a.bConvertEndianness a.iComponentSize) (tmpFilename0 W a) with
    | stuck => trivial
    | failed trE =>
      obtain ⟨_, hev, _⟩ := endianStage_failed_events hE
      exact (LoopInv.untagged fun e he => endianEvent_untagged (hev e he)).failInv
    | ok trE p =>
      obtain ⟨src, hdr⟩ := p
      obtain ⟨hev, _, _⟩ := endianStage_ok_events hE
      simp only []
      have hQ := quantStage_untagged W a trE src hdr (tmpFilename1 W a)
      cases hq : quantStage W a trE src hdr (tmpFilename1 W a) with
      | stuck => trivial
      | failed tr1 =>
        rw [hq] at hQ
        refine (LoopInv.untagged fun e he => ?_).failInv
        rcases Extends.mem hQ he with h1 | h1
        · exact endianEvent_untagged (hev e h1)
        · exact h1
      | ok tr1 p1 =>
        obtain ⟨src1, size⟩ := p1
        rw [hq] at hQ
        simp only []
        refine convertTail_inv W a _ _ _ tr1 src1 hdr size fun e he => ?_
        rcases Extends.mem hQ he with h1 | h1
        · exact endianEvent_untagged (hev e h1)
        · exact h1

/-- Claim C18. When bricking reports failure for a timestep, the body of the timestep loop
fails right after closing the container, and when the `Verify` after a successful bricking
fails, it fails after closing the container and removing the temp files; a failing body
ends the loop, and the function returns whenever its endianness pass does.  In every
returning call whose trace shows a failed bricking or a failed `Verify` of a timestep, the
result is `false` and no block of that timestep (raster, histogram or acceleration) has been
added to the container; and every adding of a raster block comes right after a successful
bricking and a successful `Verify` of its timestep. -/
theorem C18_bricking_failure (W : World) (fuel : Nat) (a : ConvertArgs) :
    (∀ env ts tr0 hdr,
        W.Open (tr0 ++ [Event.rasterBlock ts
            (rasterSetup a env.iComponentSize env.iLodLevelCount)])
          env.strSourceFilename hdr = true →
        (env.iComponentSize = 8 ∨ env.iComponentSize = 16 ∨ env.iComponentSize = 32) →
        (a.iComponentCount = 1 ∨ a.iComponentCount = 2 ∨ a.iComponentCount = 3
          ∨ a.iComponentCount = 4) →
        (W.FlatDataToBrickedLOD
            (tr0 ++ [Event.rasterBlock ts
              (rasterSetup a env.iComponentSize env.iLodLevelCount)]
              ++ [Event.openRead env.strSourceFilename hdr true])
            ts env.strSourceFilename hdr
            (a.strTempDir ++ toString ts ++ "tempFile.tmp" ++ toString a.iComponentCount)
            env.iComponentSize a.iComponentCount = false →
          timestepBody W a env ts tr0 hdr
            = Stage.failed (tr0 ++ [Event.rasterBlock ts
                  (rasterSetup a env.iComponentSize env.iLodLevelCount),
                Event.openRead env.strSourceFilename hdr true,
                Event.flatDataToBrickedLOD ts env.strSourceFilename hdr
                  (a.strTempDir ++ toString ts ++ "tempFile.tmp" ++ toString a.iComponentCount)
                  env.iComponentSize a.iComponentCount false,
                Event.uvfClose a.strTargetFilename]))
        ∧ (W.FlatDataToBrickedLOD
            (tr0 ++ [Event.rasterBlock ts
              (rasterSetup a env.iComponentSize env.iLodLevelCount)]
              ++ [Event.openRead env.strSourceFilename hdr true])
            ts env.strSourceFilename hdr
            (a.strTempDir ++ toString ts ++ "tempFile.tmp" ++ toString a.iComponentCount)
            env.iComponentSize a.iComponentCount = true →
          W.Verify
            (tr0 ++ [Event.rasterBlock ts
              (rasterSetup a env.iComponentSize env.iLodLevelCount)]
              ++ [Event.openRead env.strSourceFilename hdr true]
              ++ [Event.flatDataToBrickedLOD ts env.strSourceFilename hdr
                  (a.strTempDir ++ toString ts ++ "tempFile.tmp" ++ toString a.iComponentCount)
                  env.iComponentSize a.iComponentCount true]) ts = false →
          timestepBody W a env ts tr0 hdr
            = Stage.failed (tr0 ++ [Event.rasterBlock ts
                  (rasterSetup a env.iComponentSize env.iLodLevelCount),
                Event.openRead env.strSourceFilename hdr true,
                Event.flatDataToBrickedLOD ts env.strSourceFilename hdr
                  (a.strTempDir ++ toString ts ++ "tempFile.tmp" ++ toString a.iComponentCount)
                  env.iComponentSize a.iComponentCount true,
                Event.verify ts false,
                Event.uvfClose a.strTargetFilename] ++ removeTemps env)))
    ∧ (∀ env n ts tr0 hdr t, timestepBody W a env ts tr0 hdr = Stage.failed t →
        timestepLoop W a env (n + 1) ts tr0 hdr = Stage.failed t)
    ∧ (endianStage W fuel a (downgradeEndianness a.bConvertEndianness a.iComponentSize)
          (tmpFilename0 W a) ≠ Stage.stuck →
        ∃ b tr, ConvertRAWDataset W fuel a = some (b, tr))
    ∧ (∀ b tr, ConvertRAWDataset W fuel a = some (b, tr) →
        (∀ ts, ((∃ src hdr tmp bits comps,
              Event.flatDataToBrickedLOD ts src hdr tmp bits comps false ∈ tr)
            ∨ Event.verify ts false ∈ tr) →
          b = false ∧ ∀ k ok, Event.addDataBlock k ts ok ∉ tr)
        ∧ (∀ ts ok, Event.addDataBlock BlockKind.raster ts ok ∈ tr →
            ∃ pre post src hdr tmp bits comps,
              tr = pre ++ [Event.flatDataToBrickedLOD ts src hdr tmp bits comps true,
                Event.verify ts true, Event.addDataBlock BlockKind.raster ts ok] ++ post)) := by
  refine ⟨?_, ?_, convert_returns_of_endian W fuel a, ?_⟩
  · intro env ts tr0 hdr hopen hsize hcount
    refine ⟨?_, ?_⟩
    · intro hflat
      simp only [List.append_assoc, List.cons_append, List.nil_append] at hflat
      simp [timestepBody, hopen, hsize, hcount, hflat]
    · intro hflat hverify
      simp only [List.append_assoc, List.cons_append, List.nil_append] at hflat hverify
      simp [timestepBody, hopen, hsize, hcount, hflat, hverify]
  · intro env n ts tr0 hdr t hb
    unfold timestepLoop
    rw [hb]
  · intro b tr h
    have hinv := convertStages_inv W fuel a
    have key : FailInv tr ∧ (b = true → ∀ e ∈ tr, e.brickFailure = false) := by
      unfold ConvertRAWDataset at h
      cases hs : convertStages W fuel a with
      | stuck => rw [hs] at h; cases h
      | failed t =>
        rw [hs] at h hinv
        cases h
        exact ⟨hinv, fun hb => by cases hb⟩
      | ok t u =>
        rw [hs] at h hinv
        cases h
        obtain ⟨m, hm⟩ := hinv
        exact ⟨hm.failInv, fun _ e he => (hm.1 e he).2⟩
    refine ⟨?_, key.1.1⟩
    intro ts hfail
    have hev : ∃ e ∈ tr, e.brickFailure = true ∧ e.brickTimestep = some ts := by
      rcases hfail with ⟨src, hdr, tmp, bits, comps, he⟩ | he
      · exact ⟨_, he, rfl, rfl⟩
      · exact ⟨_, he, rfl, rfl⟩
    obtain ⟨e, he, hf, ht⟩ := hev
    refine ⟨?_, ?_⟩
    · cases b with
      | false => rfl
      | true =>
        have h1 := key.2 rfl e he
        rw [hf] at h1
        cases h1
    · intro k ok hadd
      exact key.1.2 e he hf ts ht _ hadd rfl rfl

/-- Witness of C18: in the sample world with a failing bricking, the sample call returns
`false` and no block of timestep 0 has been added. -/
theorem C18_bricking_failure_witness :
    ∃ tr, ConvertRAWDataset brickFailWorld 0 sampleArgs = some (false, tr)
      ∧ ∀ k ok, Event.addDataBlock k 0 ok ∉ tr := by
  have h : ∃ blk tmp, ConvertRAWDataset brickFailWorld 0 sampleArgs
      = some (false,
          [Event.quantize SrcType.ushort 0 "abc" ".abc.quantized" 64 ".abc.quantized",
            Event.rasterBlock 0 blk, Event.openRead ".abc.quantized" 0 true,
            Event.flatDataToBrickedLOD 0 ".abc.quantized" 0 tmp 16 1 false,
            Event.uvfClose "out.uvf"]) := ⟨_, _, rfl⟩
  obtain ⟨blk, tmp, h⟩ := h
  exact ⟨_, h, ((C18_bricking_failure brickFailWorld 0 sampleArgs).2.2.2 false _ h).1 0
    (Or.inl ⟨".abc.quantized", 0, tmp, 16, 1, by simp⟩) |>.2⟩

/-- Claim C19, the code at failing inputs. In the sample call `Quantize` writes the temp
file `.abc.quantized`; when the bricking of the first timestep then fails, or the quantized
file does not open, or the component count is not one the bricking dispatch knows,
`ConvertRAWDataset` returns `false` without a `Remove` of that file; likewise, after an
endianness conversion into `.abc.endianess`, a failing bricking returns `false` without a
`Remove` of that file.  The sibling path of a failing `Verify` does remove the temp file. -/
theorem C19_temp_files_left_behind :
    (∃ blk tmp, ConvertRAWDataset brickFailWorld 0 sampleArgs
      = some (false,
          [Event.quantize SrcType.ushort 0 "abc" ".abc.quantized" 64 ".abc.quantized",
            Event.rasterBlock 0 blk, Event.openRead ".abc.quantized" 0 true,
            Event.flatDataToBrickedLOD 0 ".abc.quantized" 0 tmp 16 1 false,
            Event.uvfClose "out.uvf"]))
    ∧ (∃ blk, ConvertRAWDataset openFailWorld 0 sampleArgs
      = some (false,
          [Event.quantize SrcType.ushort 0 "abc" ".abc.quantized" 64 ".abc.quantized",
            Event.rasterBlock 0 blk, Event.openRead ".abc.quantized" 0 false]))
    ∧ (∃ blk, ConvertRAWDataset sampleWorld 0 { sampleArgs with iComponentCount := 0 }
      = some (false,
          [Event.quantize SrcType.ushort 0 "abc" ".abc.quantized" 0 ".abc.quantized",
            Event.rasterBlock 0 blk, Event.openRead ".abc.quantized" 0 true,
            Event.uvfClose "out.uvf", Event.close ".abc.quantized"]))
    ∧ (∃ blk tmp, ConvertRAWDataset swappedBrickFailWorld 1 swappedArgs
      = some (false,
          [Event.openRead "abc" 0 true, Event.create ".abc.endianess" true,
            Event.readRAW "abc" 4 [0, 0, 0, 0],
            Event.writeRAW ".abc.endianess" [0, 0, 0, 0] 4,
            Event.close "abc", Event.close ".abc.endianess",
            Event.quantize SrcType.ushort 0 ".abc.endianess" ".abc.quantized" 64
              ".abc.endianess",
            Event.rasterBlock 0 blk, Event.openRead ".abc.endianess" 0 true,
            Event.flatDataToBrickedLOD 0 ".abc.endianess" 0 tmp 16 1 false,
            Event.uvfClose "out.uvf"]))
    ∧ (∃ blk tmp, ConvertRAWDataset verifyFailWorld 0 sampleArgs
      = some (false,
          [Event.quantize SrcType.ushort 0 "abc" ".abc.quantized" 64 ".abc.quantized",
            Event.rasterBlock 0 blk, Event.openRead ".abc.quantized" 0 true,
            Event.flatDataToBrickedLOD 0 ".abc.quantized" 0 tmp 16 1 true,
            Event.verify 0 false, Event.uvfClose "out.uvf",
            Event.remove ".abc.quantized"])) :=
  ⟨⟨_, _, rfl⟩, ⟨_, rfl⟩, ⟨_, rfl⟩, ⟨_, _, rfl⟩, ⟨_, _, rfl⟩⟩

/-! ### The range scanner -/

theorem minmaxChunk_append {α : Type} [LinearOrder α] (acc : Option (α × α))
    (xs ys : List α) :
    minmaxChunk acc (xs ++ ys) = minmaxChunk (minmaxChunk acc xs) ys := by
  unfold minmaxChunk
  rw [List.foldl_append]

/-- The running min/max over a chunk, started from a pair: the new pair bounds the chunk and
the old pair, and each of its sides is an old side or a sample of the chunk. -/
theorem minmaxChunk_some {α : Type} [LinearOrder α] (xs : List α) :
    ∀ lo hi : α, ∃ lo1 hi1, minmaxChunk (some (lo, hi)) xs = some (lo1, hi1)
      ∧ (lo1 = lo ∨ lo1 ∈ xs) ∧ (hi1 = hi ∨ hi1 ∈ xs) ∧ lo1 ≤ lo ∧ hi ≤ hi1
      ∧ ∀ v ∈ xs, lo1 ≤ v ∧ v ≤ hi1 := by
  induction xs with
  | nil =>
    intro lo hi
    exact ⟨lo, hi, rfl, Or.inl rfl, Or.inl rfl, le_refl _, le_refl _, by simp⟩
  | cons x xs ih =>
    intro lo hi
    obtain ⟨lo1, hi1, h, hlo, hhi, hle, hge, hall⟩ := ih (min lo x) (max hi x)
    refine ⟨lo1, hi1, h, ?_, ?_, le_trans hle (min_le_left _ _),
      le_trans (le_max_left _ _) hge, ?_⟩
    · rcases hlo with rfl | hm
      · rcases min_choice lo x with hc | hc
        · exact Or.inl hc
        · exact Or.inr (by rw [hc]; exact List.mem_cons_self _ _)
      · exact Or.inr (List.mem_cons_of_mem _ hm)
    · rcases hhi with rfl | hm
      · rcases max_choice hi x with hc | hc
        · exact Or.inl hc
        · exact Or.inr (by rw [hc]; exact List.mem_cons_self _ _)
      · exact Or.inr (List.mem_cons_of_mem _ hm)
    · intro v hv
      rcases List.mem_cons.mp hv with rfl | hm
      · exact ⟨le_trans hle (min_le_right _ _), le_trans (le_max_right _ _) hge⟩
      · exact hall v hm

/-- The running min/max over a non-empty sequence are its least and its greatest sample. -/
theorem minmaxChunk_none {α : Type} [LinearOrder α] (xs : List α) (hne : xs ≠ []) :
    ∃ lo hi, minmaxChunk none xs = some (lo, hi) ∧ lo ∈ xs ∧ hi ∈ xs
      ∧ ∀ v ∈ xs, lo ≤ v ∧ v ≤ hi := by
  cases xs with
  | nil => exact absurd rfl hne
  | cons x xs =>
    obtain ⟨lo1, hi1, h, hlo, hhi, hle, hge, hall⟩ := minmaxChunk_some xs x x
    refine ⟨lo1, hi1, h, ?_, ?_, ?_⟩
    · rcases hlo with rfl | hm
      · exact List.mem_cons_self _ _
      · exact List.mem_cons_of_mem _ hm
    · rcases hhi with rfl | hm
      · exact List.mem_cons_self _ _
      · exact List.mem_cons_of_mem _ hm
    · intro v hv
      rcases List.mem_cons.mp hv with rfl | hm
      · exact ⟨hle, hge⟩
      · exact hall v hm

/-- With enough reads, the scan of a stream accumulates over all that is left of it. -/
theorem io_minmax_stream {α : Type} [LinearOrder α] (c : Nat) (hc : 0 < c) :
    ∀ (fuel : Nat) (rest : List α) (acc : Option (α × α)), rest.length < fuel →
      io_minmax (ios_data_src α) c fuel rest acc = some (minmaxChunk acc rest) := by
  intro fuel
  induction fuel with
  | zero => intro rest acc h; exact absurd h (Nat.not_lt_zero _)
  | succ fuel ih =>
    intro rest acc h
    have hread : (ios_data_src α).read rest c = (rest.take c, rest.drop c) := rfl
    unfold io_minmax
    simp only [hread]
    cases rest with
    | nil => simp [minmaxChunk]
    | cons x xs =>
      obtain ⟨k, rfl⟩ : ∃ k, c = k + 1 := ⟨c - 1, by omega⟩
      have hlen : (List.drop (k + 1) (x :: xs)).length < fuel := by
        simp only [List.drop_succ_cons, List.length_drop, List.length_cons] at h ⊢
        omega
      have hE : (List.take (k + 1) (x :: xs)).isEmpty = false := rfl
      rw [hE]
      simp only [Bool.false_eq_true, if_false]
      rw [ih _ _ hlen, ← minmaxChunk_append, List.take_append_drop]

/-- With enough reads, the scan of a file accumulates over all samples from the position
on. -/
theorem io_minmax_file {α : Type} [LinearOrder α] (c : Nat) (hc : 0 < c) (file : List α) :
    ∀ (fuel pos : Nat) (acc : Option (α × α)), (file.drop pos).length < fuel →
      io_minmax (raw_data_src α) c fuel (file, pos) acc
        = some (minmaxChunk acc (file.drop pos)) := by
  intro fuel
  induction fuel with
  | zero => intro pos acc h; exact absurd h (Nat.not_lt_zero _)
  | succ fuel ih =>
    intro pos acc h
    have hread : (raw_data_src α).read (file, pos) c
        = ((file.drop pos).take c, (file, pos + ((file.drop pos).take c).length)) := rfl
    unfold io_minmax
    simp only [hread]
    cases hrest : file.drop pos with
    | nil => simp [minmaxChunk]
    | cons x xs =>
      obtain ⟨k, rfl⟩ : ∃ k, c = k + 1 := ⟨c - 1, by omega⟩
      have hdrop : file.drop (pos + (List.take (k + 1) (x :: xs)).length)
          = List.drop (k + 1) (x :: xs) := by
        rw [← List.drop_drop, hrest]
        simp only [List.length_take, List.length_cons]
        by_cases hk : k + 1 ≤ xs.length + 1
        · rw [Nat.min_eq_left hk]
        · rw [Nat.min_eq_right (by omega), List.drop_of_length_le (by simp),
            List.drop_of_length_le (by simp; omega)]
      have hlen : (file.drop (pos + (List.take (k + 1) (x :: xs)).length)).length < fuel := by
        rw [hdrop]
        rw [hrest] at h
        simp only [List.drop_succ_cons, List.length_drop, List.length_cons] at h ⊢
        omega
      have hE : (List.take (k + 1) (x :: xs)).isEmpty = false := rfl
      rw [hE]
      simp only [Bool.false_eq_true, if_false]
      rw [ih _ _ hlen, hdrop, ← minmaxChunk_append, List.take_append_drop]

/-- Claim C20. For every linearly ordered sample type (the integer types, and the float
types without NaN), every non-empty sample sequence and every positive in-core chunk size
(smaller than, equal to or larger than the number of samples), `io_minmax`, given more reads
than there are samples, returns a pair `(lo, hi)` of samples of the sequence with
`lo ≤ v ≤ hi` for every sample `v` (the exact minimum and maximum), and returns the same
pair for the random-access file source and for the forward-only stream source; for a
sequence of identical values it returns that value as both. -/
theorem C20_io_minmax_exact {α : Type} [LinearOrder α] (iInCore : Nat) (hc : 0 < iInCore)
    (samples : List α) (hne : samples ≠ []) (fuel : Nat) (hfuel : samples.length < fuel) :
    ∃ lo hi,
      io_minmax (raw_data_src α) iInCore fuel (samples, 0) none = some (some (lo, hi))
      ∧ io_minmax (ios_data_src α) iInCore fuel samples none = some (some (lo, hi))
      ∧ lo ∈ samples ∧ hi ∈ samples
      ∧ (∀ v ∈ samples, lo ≤ v ∧ v ≤ hi)
      ∧ (∀ x, (∀ v ∈ samples, v = x) → lo = x ∧ hi = x) := by
  obtain ⟨lo, hi, h, hlo, hhi, hall⟩ := minmaxChunk_none samples hne
  refine ⟨lo, hi, ?_, ?_, hlo, hhi, hall, fun x hx => ⟨hx lo hlo, hx hi hhi⟩⟩
  · rw [io_minmax_file iInCore hc samples fuel 0 none (by simpa using hfuel)]
    simp only [List.drop_zero, h]
  · rw [io_minmax_stream iInCore hc fuel samples none hfuel, h]

/-- Witness of C20: five signed samples scanned in chunks of two. -/
theorem C20_io_minmax_exact_witness :
    ∃ lo hi : Int,
      io_minmax (raw_data_src Int) 2 6 ([3, -7, 12, 0, 5], 0) none = some (some (lo, hi))
      ∧ io_minmax (ios_data_src Int) 2 6 [3, -7, 12, 0, 5] none = some (some (lo, hi))
      ∧ lo ∈ [3, -7, 12, 0, 5] ∧ hi ∈ [3, -7, 12, 0, 5]
      ∧ (∀ v ∈ [3, -7, 12, 0, 5], lo ≤ v ∧ v ≤ hi)
      ∧ (∀ x, (∀ v ∈ [3, -7, 12, 0, 5], v = x) → lo = x ∧ hi = x) :=
  C20_io_minmax_exact 2 (by decide) [3, -7, 12, 0, 5] (by simp) 6 (by decide)

/-! ### The geometry tables and the type queries of the view -/

/-- A successful `mapM` in `Option` has applied the function to every element. -/
theorem mapM_option_get {α β : Type} (f : α → Option β) :
    ∀ (l : List α) (r : List β), l.mapM f = some r →
      ∀ (i : Nat) (a : α), l[i]? = some a → ∃ v, f a = some v ∧ r[i]? = some v := by
  intro l
  induction l with
  | nil => intro r _ i a hi; simp at hi
  | cons a0 l ih =>
    intro r h i a hi
    simp only [List.mapM_cons, Option.bind_eq_bind, Option.pure_def, Option.bind_eq_some] at h
    obtain ⟨b, hb, bs, hbs, hr⟩ := h
    injection hr with hr
    subst hr
    cases i with
    | zero =>
      simp only [List.getElem?_cons_zero, Option.some.injEq] at hi
      subst hi
      exact ⟨b, hb, by simp⟩
    | succ i =>
      simp only [List.getElem?_cons_succ] at hi
      obtain ⟨v, hv, hg⟩ := ih bs hbs i a hi
      exact ⟨v, hv, by simpa using hg⟩

/-- A successful `mapM` over `0, ..., n - 1` has the value of index `i` at place `i`. -/
theorem mapM_range_get {β : Type} (f : Nat → Option β) (n : Nat) (r : List β)
    (h : (List.range n).mapM f = some r) (i : Nat) (hi : i < n) :
    ∃ v, f i = some v ∧ r[i]? = some v :=
  mapM_option_get f _ r h i i (by simp [List.getElem?_range hi])

theorem UVFMetadata.construct_block {rdb : RasterDataBlock}
    {p : Option MaxMinDataBlock} {b : Bool} {md : UVFMetadata}
    (h : UVFMetadata.construct rdb p b = some md) : md.m_pVolumeDataBlock = some rdb := by
  unfold UVFMetadata.construct at h
  simp only [Option.bind_eq_bind, Option.pure_def, Option.bind_eq_some] at h
  obtain ⟨_, _, _, _, _, _, _, _, _, _, _, _, _, _, _, _, _, _, h⟩ := h
  injection h with h
  rw [← h]

/-- The geometry tables of a constructed view, level by level. -/
theorem UVFMetadata.construct_levels {rdb : RasterDataBlock}
    {p : Option MaxMinDataBlock} {b : Bool} {md : UVFMetadata}
    (h : UVFMetadata.construct rdb p b = some md) :
    rdb.ulLODLevelCount[0]? = some md.m_iLODLevel
    ∧ ∀ l, l < md.m_iLODLevel →
        ∃ dom cnt sizes, levelGeometry rdb l = some (dom, cnt, sizes)
          ∧ md.m_aDomainSize[l]? = some dom
          ∧ md.m_vaBrickCount[l]? = some cnt
          ∧ md.m_vvaBrickSize[l]? = some sizes := by
  unfold UVFMetadata.construct at h
  simp only [Option.bind_eq_bind, Option.pure_def, Option.bind_eq_some] at h
  obtain ⟨_, _, nLod, hn, _, _, _, _, _, _, _, _, _, _, levels, hlev, T, hT, h⟩ := h
  injection h with h
  subst h
  refine ⟨hn, ?_⟩
  intro l hl
  obtain ⟨v, hv, hg⟩ := mapM_range_get _ _ _ hlev l hl
  obtain ⟨dom, cnt, sizes⟩ := v
  exact ⟨dom, cnt, sizes, hv, by simp [hg], by simp [hg], by simp [hg]⟩

/-- The extents of one level, as the loops over `x`, `y`, `z` collect them. -/
theorem brickSizesOfLevel_get {rdb : RasterDataBlock} {j : Nat} {cnt : UINT64VECTOR3}
    {sizes : List (List (List UINT64VECTOR3))}
    (h : brickSizesOfLevel rdb j cnt = some sizes) (x y z : Nat)
    (hx : x < cnt.x) (hy : y < cnt.y) (hz : z < cnt.z) :
    ∃ sx sy sz, sizes[x]? = some sx ∧ sx[y]? = some sy ∧ sy[z]? = some sz
      ∧ firstThree (rdb.GetBrickSize [j] [x, y, z]) = some sz := by
  unfold brickSizesOfLevel at h
  obtain ⟨sx, hsx, hgx⟩ := mapM_range_get _ _ _ h x hx
  obtain ⟨sy, hsy, hgy⟩ := mapM_range_get _ _ _ hsx y hy
  obtain ⟨sz, hsz, hgz⟩ := mapM_range_get _ _ _ hsy z hz
  exact ⟨sx, sy, sz, hgx, hgy, hgz, hsz⟩

/-- Claim C24. After the construction of a metadata view from a raster block with `N`
levels, for every level `l < N`: `GetBrickCount(l)` and `GetDomainSize(l)` are the first
three components of the brick count and of the LOD domain size the raster block reports for
level `l`, and for every brick index `(x, y, z)` within the brick count of the level,
`GetBrickSize` of the key `(l, (x, y, z))` is the first three components of the brick size
the raster block reports for the same level and index. -/
theorem C24_geometry_lookups (rdb : RasterDataBlock) (pMaxMinData : Option MaxMinDataBlock)
    (bIsSameEndianness : Bool) (md : UVFMetadata) (N : Nat)
    (h : UVFMetadata.construct rdb pMaxMinData bIsSameEndianness = some md)
    (hN : rdb.ulLODLevelCount[0]? = some N) :
    md.m_iLODLevel = N
    ∧ ∀ l, l < N →
        ∃ cnt dom,
          md.GetBrickCount l = some cnt ∧ firstThree (rdb.GetBrickCount [l]) = some cnt
          ∧ md.GetDomainSize l = some dom ∧ firstThree (rdb.GetLODDomainSize [l]) = some dom
          ∧ ∀ x y z, x < cnt.x → y < cnt.y → z < cnt.z →
              ∃ sz, md.GetBrickSize (mkKey l x y z) = some sz
                ∧ firstThree (rdb.GetBrickSize [l] [x, y, z]) = some sz := by
  obtain ⟨hlod, hlev⟩ := UVFMetadata.construct_levels h
  have hNe : md.m_iLODLevel = N := by
    rw [hlod] at hN
    exact Option.some.inj hN
  refine ⟨hNe, ?_⟩
  intro l hl
  obtain ⟨dom, cnt, sizes, hgeo, hdom, hcnt, hsz⟩ := hlev l (by omega)
  unfold levelGeometry at hgeo
  simp only [Option.bind_eq_bind, Option.pure_def, Option.bind_eq_some] at hgeo
  obtain ⟨dom1, hd1, cnt1, hc1, sizes1, hs1, heq⟩ := hgeo
  simp only [Option.some.injEq, Prod.mk.injEq] at heq
  obtain ⟨rfl, rfl, rfl⟩ := heq
  refine ⟨cnt1, dom1, hcnt, hc1, hdom, hd1, ?_⟩
  intro x y z hx hy hz
  obtain ⟨sx, sy, sz, h1, h2, h3, h4⟩ := brickSizesOfLevel_get hs1 x y z hx hy hz
  refine ⟨sz, ?_, h4⟩
  simp [UVFMetadata.GetBrickSize, mkKey, read4, hsz, h1, h2, h3]

/-- Witness of C24: the sample view, level 0, brick `(1, 0, 0)`. -/
theorem C24_geometry_lookups_witness :
    ∃ md, UVFMetadata.construct sampleRdb (some sampleMaxMin) true = some md
      ∧ md.GetBrickCount 0 = some ⟨2, 2, 1⟩
      ∧ md.GetDomainSize 0 = some ⟨8, 8, 1⟩
      ∧ md.GetBrickSize (mkKey 0 1 0 0) = some ⟨4, 6, 1⟩ := by
  have hc : (UVFMetadata.construct sampleRdb (some sampleMaxMin) true).isSome = true := by
    decide
  obtain ⟨md, h⟩ := Option.isSome_iff_exists.mp hc
  obtain ⟨_, hl⟩ := C24_geometry_lookups sampleRdb (some sampleMaxMin) true md 2 h rfl
  obtain ⟨cnt, dom, h1, h2, h3, h4, h5⟩ := hl 0 (by decide)
  have hcnt : cnt = ⟨2, 2, 1⟩ := by
    have : firstThree (sampleRdb.GetBrickCount [0]) = some ⟨2, 2, 1⟩ := by decide
    rw [this] at h2
    exact (Option.some.inj h2).symm
  have hdom : dom = ⟨8, 8, 1⟩ := by
    have : firstThree (sampleRdb.GetLODDomainSize [0]) = some ⟨8, 8, 1⟩ := by decide
    rw [this] at h4
    exact (Option.some.inj h4).symm
  subst hcnt
  subst hdom
  obtain ⟨sz, h6, h7⟩ := h5 1 0 0 (by decide) (by decide) (by decide)
  have hsz : sz = ⟨4, 6, 1⟩ := by
    have : firstThree (sampleRdb.GetBrickSize [0] [1, 0, 0]) = some ⟨4, 6, 1⟩ := by decide
    rw [this] at h7
    exact (Option.some.inj h7).symm
  subst hsz
  exact ⟨md, h, h1, h3, h6⟩

/-- Claim C25. `UVFMetadata::GetIsFloat` never returns `true`: it compares `GetBitWidth()`
with the very field `GetBitWidth()` returns, so for every view constructed from a raster
block that declares an element bit size, whatever the size, `GetIsFloat` returns `false`. -/
theorem C25_getIsFloat_false (rdb : RasterDataBlock) (pMaxMinData : Option MaxMinDataBlock)
    (bIsSameEndianness : Bool) (md : UVFMetadata) (row : List Nat) (w : Nat)
    (h : UVFMetadata.construct rdb pMaxMinData bIsSameEndianness = some md)
    (hrow : rdb.ulElementBitSize[0]? = some row) (hw : row[0]? = some w) :
    md.GetBitWidth = some w ∧ md.GetIsFloat = some false
    ∧ ∀ md1 : UVFMetadata, md1.GetIsFloat ≠ some true := by
  have hb := UVFMetadata.construct_block h
  refine ⟨by simp [UVFMetadata.GetBitWidth, hb, hrow, hw],
    by simp [UVFMetadata.GetIsFloat, UVFMetadata.GetBitWidth, hb, hrow, hw], ?_⟩
  intro md1 h1
  unfold UVFMetadata.GetIsFloat UVFMetadata.GetBitWidth at h1
  simp only [Option.bind_eq_bind, Option.pure_def, Option.bind_eq_some] at h1
  obtain ⟨w1, ⟨r1, hr1, row1, hrow1, hw1⟩, r2, hr2, row2, hrow2, v, hv, hne⟩ := h1
  rw [hr1] at hr2
  cases hr2
  rw [hrow1] at hrow2
  cases hrow2
  rw [hw1] at hv
  cases hv
  simp at hne

/-- Witness of C25: a view of the sample raster block declared as 32-bit data. -/
theorem C25_getIsFloat_false_witness :
    ∃ md, UVFMetadata.construct { sampleRdb with ulElementBitSize := [[32]] } none true
        = some md
      ∧ md.GetBitWidth = some 32 ∧ md.GetIsFloat = some false := by
  have hc : (UVFMetadata.construct { sampleRdb with ulElementBitSize := [[32]] } none
      true).isSome = true := by decide
  obtain ⟨md, h⟩ := Option.isSome_iff_exists.mp hc
  have h2 := C25_getIsFloat_false { sampleRdb with ulElementBitSize := [[32]] } none true md
    [32] 32 h rfl rfl
  exact ⟨md, h, h2.1, h2.2.1⟩

/-! ### The recorded signedness and the source-endianness pair -/

/-- A part of `ConvertRAWDataset` after the quantization dispatch that goes through has
written the key/value block. -/
theorem convertTail_ok_kv {W : World} {a : ConvertArgs} {flag : Bool} {t0 t1 : String}
    {tr tr2 : Trace} {src : String} {hdr size : Nat} {u : Unit}
    (h : convertTail W a flag t0 t1 tr src hdr size = Stage.ok tr2 u) :
    Event.keyValuePairs (metaPairs W a) ∈ tr2 := by
  unfold convertTail at h
  simp only [] at h
  split at h
  · simp only [Stage.ok.injEq] at h
    rw [← h.1]
    simp
  · cases h
  · cases h

/-- A successful call of `ConvertRAWDataset` has written the key/value block. -/
theorem convert_success_kv {W : World} {fuel : Nat} {a : ConvertArgs} {tr : Trace}
    (h : ConvertRAWDataset W fuel a = some (true, tr)) :
    Event.keyValuePairs (metaPairs W a) ∈ tr := by
  by_cases hc : a.iComponentCount > 4
  · have h0 : ConvertRAWDataset W fuel a = some (false, []) := by
      simp [ConvertRAWDataset, convertStages, hc]
    rw [h0] at h
    cases h
  · unfold ConvertRAWDataset at h
    rw [convertStages_eq W fuel a hc] at h
    cases hE : endianStage W fuel a
        (downgradeEndianness a.bConvertEndianness a.iComponentSize) (tmpFilename0 W a) with
    | stuck => rw [hE] at h; cases h
    | failed trE => rw [hE] at h; cases h
    | ok trE p =>
      obtain ⟨src, hdr⟩ := p
      rw [hE] at h
      simp only [] at h
      cases hq : quantStage W a trE src hdr (tmpFilename1 W a) with
      | stuck => rw [hq] at h; cases h
      | failed tr1 => rw [hq] at h; cases h
      | ok tr1 p1 =>
        obtain ⟨src1, size⟩ := p1
        rw [hq] at h
        simp only [] at h
        cases ht : convertTail W a (downgradeEndianness a.bConvertEndianness a.iComponentSize)
            (tmpFilename0 W a) (tmpFilename1 W a) tr1 src1 hdr size with
        | stuck => rw [ht] at h; cases h
        | failed tr2 => rw [ht] at h; cases h
        | ok tr2 u =>
          rw [ht] at h
          cases h
          exact convertTail_ok_kv ht

/-- Claim C26. In every raster block `ConvertRAWDataset` builds, the signedness given to
`SetTypeToVector` is the `bSigned` of the caller, whatever the working component width and
the working file are; the bit width recorded is the working width, which the quantization
changes (to 8 under forced 8-bit quantization of wider data, to 16 for 32- and 64-bit
data) while the recorded signedness stays that of the call.  The call returns whenever its
endianness pass does. -/
theorem C26_signedness_kept (W : World) (fuel : Nat) (a : ConvertArgs) :
    (∀ w lod, (rasterSetup a w lod).typeSigned = a.bSigned
        ∧ (rasterSetup a w lod).typeBitWidth = w)
    ∧ (∀ b tr, ConvertRAWDataset W fuel a = some (b, tr) →
        ∀ ts blk, Event.rasterBlock ts blk ∈ tr →
          blk.typeSigned = a.bSigned ∧ blk.typeBitWidth = workingComponentSize a)
    ∧ (a.bQuantizeTo8Bit = true → a.iComponentSize > 8 → workingComponentSize a = 8)
    ∧ (a.bQuantizeTo8Bit = false → a.iComponentSize = 32 ∨ a.iComponentSize = 64 →
        workingComponentSize a = 16)
    ∧ (endianStage W fuel a (downgradeEndianness a.bConvertEndianness a.iComponentSize)
          (tmpFilename0 W a) ≠ Stage.stuck →
        ∃ b tr, ConvertRAWDataset W fuel a = some (b, tr)) := by
  refine ⟨fun w lod => ⟨rfl, rfl⟩, ?_, ?_, ?_, convert_returns_of_endian W fuel a⟩
  · intro b tr h ts blk he
    rcases (convert_events h).1 _ he with h1 | h1
    · exact absurd h1 (by simp [endianEvent])
    · have hb : blk = rasterSetup a (workingComponentSize a)
          (lodLevelCount a.vVolumeSize a.iTargetBrickSize) := h1
      rw [hb]
      exact ⟨rfl, rfl⟩
  · intro hq hw
    simp [workingComponentSize, hq, hw]
  · intro hq hw
    simp [workingComponentSize, hq, hw]

/-- Witness of C26: the sample call as signed 32-bit data returns; its raster blocks are
recorded as signed, with bit width 16. -/
theorem C26_signedness_kept_witness :
    ∃ b tr, ConvertRAWDataset sampleWorld 0
        { sampleArgs with iComponentSize := 32, bSigned := true } = some (b, tr)
      ∧ ∀ ts blk, Event.rasterBlock ts blk ∈ tr →
          blk.typeSigned = true ∧ blk.typeBitWidth = 16 := by
  obtain ⟨_, hall, _, h16, hret⟩ := C26_signedness_kept sampleWorld 0
    { sampleArgs with iComponentSize := 32, bSigned := true }
  obtain ⟨b, tr, h⟩ := hret (by
    have hE : endianStage sampleWorld 0
        { sampleArgs with iComponentSize := 32, bSigned := true }
        (downgradeEndianness false 32)
        (tmpFilename0 sampleWorld { sampleArgs with iComponentSize := 32, bSigned := true })
        = Stage.ok [] ("abc", 0) := rfl
    rw [show downgradeEndianness
        ({ sampleArgs with iComponentSize := 32, bSigned := true } : ConvertArgs).bConvertEndianness
        ({ sampleArgs with iComponentSize := 32, bSigned := true } : ConvertArgs).iComponentSize
        = downgradeEndianness false 32 from rfl, hE]
    exact fun hcon => Stage.noConfusion hcon)
  refine ⟨b, tr, h, fun ts blk he => ?_⟩
  have h1 := hall b tr h ts blk he
  have h2 := h16 rfl (Or.inl rfl)
  exact ⟨h1.1, by rw [h1.2, h2]⟩

/-- Claim C27. The key/value block `ConvertRAWDataset` writes holds, after the optional
pairs for the data source and the description, the pair `Source Endianess`, whose value is
`little` if and only if the caller requested endianness conversion (the flag as passed,
also when it is downgraded for data below 16 bits) and the host is big-endian, and `big` in
every other case, an unconverted source on a little-endian host included; every key/value
block in the trace of a returning call is this one, and a successful call has written
it. -/
theorem C27_source_endianness_pair (W : World) (fuel : Nat) (a : ConvertArgs) :
    (∃ post,
      metaPairs W a
        = (if a.strSource ≠ "" then [("Data Source", a.strSource)] else [])
          ++ (if a.strDesc ≠ "" then [("Description", a.strDesc)] else [])
          ++ ("Source Endianess",
              if a.bConvertEndianness = true ∧ W.IsBigEndian = true then "little" else "big")
            :: post)
    ∧ ((if a.bConvertEndianness = true ∧ W.IsBigEndian = true then "little" else "big")
        = "little" ↔ (a.bConvertEndianness = true ∧ W.IsBigEndian = true))
    ∧ (a.bConvertEndianness = false → W.IsBigEndian = false →
        (if a.bConvertEndianness = true ∧ W.IsBigEndian = true then "little" else "big")
          = "big")
    ∧ (∀ b tr, ConvertRAWDataset W fuel a = some (b, tr) →
        ∀ p, Event.keyValuePairs p ∈ tr → p = metaPairs W a)
    ∧ (∀ tr, ConvertRAWDataset W fuel a = some (true, tr) →
        Event.keyValuePairs (metaPairs W a) ∈ tr) := by
  refine ⟨?_, ?_, ?_, ?_, fun tr h => convert_success_kv h⟩
  · refine ⟨("Source Type",
        if a.bIsFloat then "float" else if a.bSigned then "signed integer" else "integer")
      :: ("Source Bitwidth", toString a.iComponentSize)
      :: (match a.pKVPairs with
          | some l => l
          | none => []), ?_⟩
    unfold metaPairs
    simp only [List.append_assoc, List.singleton_append, Bool.and_eq_true, List.cons_append,
      List.nil_append]
  · by_cases hc : a.bConvertEndianness = true ∧ W.IsBigEndian = true
    · simp [hc]
    · rw [if_neg hc]
      exact ⟨fun h => absurd h (by decide), fun h => absurd h hc⟩
  · intro h1 h2
    simp [h1]
  · intro b tr h p he
    rcases (convert_events h).1 _ he with h1 | h1
    · exact absurd h1 (by simp [endianEvent])
    · exact h1

/-- Witness of C27: on a big-endian host, the sample call as 8-bit data with endianness
conversion requested (a request that is downgraded) succeeds and records the source as
little-endian. -/
theorem C27_source_endianness_pair_witness :
    ∃ tr post, ConvertRAWDataset { sampleWorld with IsBigEndian := true } 0
        { sampleArgs with iComponentSize := 8, bConvertEndianness := true } = some (true, tr)
      ∧ Event.keyValuePairs
          (("Data Source", "iotest") :: ("Description", "desc")
            :: ("Source Endianess", "little") :: post) ∈ tr := by
  have hrun : ∃ tr, ConvertRAWDataset { sampleWorld with IsBigEndian := true } 0
      { sampleArgs with iComponentSize := 8, bConvertEndianness := true }
      = some (true, tr) := ⟨_, rfl⟩
  obtain ⟨tr, h⟩ := hrun
  have h5 := (C27_source_endianness_pair { sampleWorld with IsBigEndian := true } 0
    { sampleArgs with iComponentSize := 8, bConvertEndianness := true }).2.2.2.2 tr h
  exact ⟨tr, _, h, h5⟩

/-! ### The endianness pass over a source file -/

theorem bytesRead_append (f : String) (tr1 tr2 : Trace) :
    bytesRead f (tr1 ++ tr2) = bytesRead f tr1 + bytesRead f tr2 := by
  induction tr1 with
  | nil => simp [bytesRead]
  | cons e tr ih => cases e <;> simp [bytesRead, ih, Nat.add_assoc]

theorem bytesWritten_append (f : String) (tr1 tr2 : Trace) :
    bytesWritten f (tr1 ++ tr2) = bytesWritten f tr1 ++ bytesWritten f tr2 := by
  induction tr1 with
  | nil => simp [bytesWritten]
  | cons e tr ih => cases e <;> simp [bytesWritten, ih]

theorem mapElements_length (f : List Nat → List Nat) (k : Nat) (bytes : List Nat)
    (hf : ∀ el : List Nat, el.length = k → (f el).length = k)
    (hk : 0 < k) (hd : k ∣ bytes.length) :
    (mapElements f k bytes).length = bytes.length := by
  obtain ⟨m, hm⟩ := hd
  unfold mapElements
  rw [hm, Nat.mul_div_cancel_left m hk]
  have key : ∀ n, n ≤ m →
      ((List.range n).flatMap fun j => f ((bytes.drop (j * k)).take k)).length = k * n := by
    intro n
    induction n with
    | zero => intro _; simp
    | succ n ih =>
      intro hn
      rw [List.range_succ, List.flatMap_append, List.length_append, ih (by omega)]
      have h1 : n * k + k ≤ bytes.length := by
        rw [hm]
        calc n * k + k = k * (n + 1) := by ring
          _ ≤ k * m := Nat.mul_le_mul_left k hn
      simp only [List.flatMap_cons, List.flatMap_nil, List.append_nil]
      rw [hf _ (by rw [List.length_take, List.length_drop]; omega)]
      ring
  exact key m (le_refl m)

theorem mapElements_append (f : List Nat → List Nat) (k : Nat) (xs ys : List Nat)
    (hk : 0 < k) (hd : k ∣ xs.length) :
    mapElements f k (xs ++ ys) = mapElements f k xs ++ mapElements f k ys := by
  obtain ⟨m, hm⟩ := hd
  unfold mapElements
  have h1 : (xs ++ ys).length / k = m + ys.length / k := by
    rw [List.length_append, hm, Nat.mul_comm k m, Nat.add_comm, Nat.add_mul_div_right _ _ hk,
      Nat.add_comm]
  rw [h1, hm, Nat.mul_div_cancel_left m hk, List.range_add, List.flatMap_append]
  congr 1
  · apply List.flatMap_congr
    intro j hj
    have hj1 : j < m := List.mem_range.mp hj
    have h2 : j * k + k ≤ xs.length := by
      rw [hm]
      calc j * k + k = k * (j + 1) := by ring
        _ ≤ k * m := Nat.mul_le_mul_left k hj1
    rw [List.drop_append_of_le_length (by omega), List.take_append_of_le_length (by
      rw [List.length_drop]; omega)]
  · rw [List.flatMap_map]
    apply List.flatMap_congr
    intro j _
    have h3 : (m + j) * k = xs.length + j * k := by rw [hm]; ring
    rw [h3, ← List.drop_drop, List.drop_left' rfl]

theorem mapElements_one (f : List Nat → List Nat) (k : Nat) (el : List Nat) (hk : 0 < k)
    (hel : el.length = k) : mapElements f k el = f el := by
  unfold mapElements
  rw [hel, Nat.div_self hk, show List.range 1 = [0] from rfl]
  simp [← hel]

/-- The loop over a buffer that starts with `m` whole elements applies the operation to
these elements and leaves the rest of the buffer. -/
theorem mapElemLoop_elements (f : List Nat → List Nat) (k : Nat) (hk : 0 < k)
    (hf : ∀ el : List Nat, el.length = k → (f el).length = k)
    (data tail : List Nat) (m : Nat) (hm : data.length = k * m) :
    mapElemLoop f k (data ++ tail) data.length = some (mapElements f k data ++ tail) := by
  unfold mapElemLoop
  have hcount : (data.length + k - 1) / k = m := by
    rw [hm, Nat.add_sub_assoc hk, Nat.add_comm, Nat.add_mul_div_left _ _ hk,
      Nat.div_eq_of_lt (by omega)]
    simp
  rw [hcount]
  have key : ∀ n, n ≤ m →
      (List.range n).foldl (fun b j => b.bind fun b => mapElemAt f k b (j * k))
          (some (data ++ tail))
        = some (mapElements f k (data.take (k * n)) ++ data.drop (k * n) ++ tail) := by
    intro n
    induction n with
    | zero => intro _; simp [mapElements]
    | succ n ih =>
      intro hn
      have hle : k * n + k ≤ data.length := by
        rw [hm]
        calc k * n + k = k * (n + 1) := by ring
          _ ≤ k * m := Nat.mul_le_mul_left k hn
      have hdt : k ∣ (data.take (k * n)).length := by
        rw [List.length_take, Nat.min_eq_left (by omega)]; exact Dvd.intro _ rfl
      have hlen1 : (mapElements f k (data.take (k * n))).length = k * n := by
        rw [mapElements_length f k _ hf hk hdt, List.length_take, Nat.min_eq_left (by omega)]
      rw [List.range_succ, List.foldl_append, ih (by omega)]
      simp only [List.foldl_cons, List.foldl_nil, Option.some_bind]
      unfold mapElemAt
      have hcond : n * k + k ≤ (mapElements f k (data.take (k * n)) ++ data.drop (k * n)
          ++ tail).length := by
        simp only [List.length_append, hlen1, List.length_drop]
        have : n * k = k * n := Nat.mul_comm _ _
        omega
      rw [if_pos hcond]
      congr 1
      have hnk : n * k = k * n := Nat.mul_comm _ _
      have hassoc : mapElements f k (data.take (k * n)) ++ data.drop (k * n) ++ tail
          = mapElements f k (data.take (k * n)) ++ (data.drop (k * n) ++ tail) :=
        List.append_assoc _ _ _
      have hsplit : data.take (k * (n + 1))
          = data.take (k * n) ++ (data.drop (k * n)).take k := by
        rw [Nat.mul_succ, List.take_add]
      have hone : mapElements f k ((data.drop (k * n)).take k)
          = f ((data.drop (k * n)).take k) :=
        mapElements_one f k _ hk (by rw [List.length_take, List.length_drop]; omega)
      have htk : ((data.drop (k * n)) ++ tail).take k = (data.drop (k * n)).take k := by
        rw [List.take_append_of_le_length (by rw [List.length_drop]; omega)]
      have hdk : ((data.drop (k * n)) ++ tail).drop k = data.drop (k * (n + 1)) ++ tail := by
        rw [List.drop_append_of_le_length (by rw [List.length_drop]; omega), List.drop_drop,
          Nat.mul_succ, Nat.add_comm]
      have hd2 : (mapElements f k (data.take (k * n)) ++ (data.drop (k * n) ++ tail)).drop
          (k * n + k) = data.drop (k * (n + 1)) ++ tail := by
        rw [← List.drop_drop, List.drop_left' hlen1, hdk]
      rw [hnk, hassoc, List.take_left' hlen1, List.drop_left' hlen1, htk, hd2, hsplit,
        mapElements_append f k _ _ hk hdt, hone]
      simp only [List.append_assoc]
  rw [key m (le_refl m)]
  have h1 : data.take (k * m) = data := by rw [← hm]; exact List.take_length data
  have h2 : data.drop (k * m) = [] := by rw [← hm]; exact List.drop_length data
  rw [h1, h2]
  simp

/-- The element `j` of the element-wise image of a sequence is the image of element `j`. -/
theorem mapElements_get (f : List Nat → List Nat) (k : Nat) (hk : 0 < k)
    (hf : ∀ el : List Nat, el.length = k → (f el).length = k)
    (data : List Nat) (m : Nat) (hm : data.length = k * m) (j : Nat) (hj : j < m) :
    ((mapElements f k data).drop (j * k)).take k = f ((data.drop (j * k)).take k) := by
  have hle : j * k + k ≤ data.length := by
    rw [hm]
    calc j * k + k = k * (j + 1) := by ring
      _ ≤ k * m := Nat.mul_le_mul_left k hj
  have h1 : data = data.take (j * k) ++ ((data.drop (j * k)).take k
      ++ (data.drop (j * k)).drop k) := by
    rw [List.take_append_drop, List.take_append_drop]
  have hd1 : k ∣ (data.take (j * k)).length := by
    rw [List.length_take, Nat.min_eq_left (by omega)]; exact Dvd.intro_left _ rfl
  have hl2 : ((data.drop (j * k)).take k).length = k := by
    rw [List.length_take, List.length_drop]; omega
  have hlen1 : (mapElements f k (data.take (j * k))).length = j * k := by
    rw [mapElements_length f k _ hf hk hd1, List.length_take, Nat.min_eq_left (by omega)]
  conv_lhs => rw [h1]
  rw [mapElements_append f k _ _ hk hd1, mapElements_append f k _ _ hk (by rw [hl2]),
    mapElements_one f k _ hk hl2, List.drop_left' hlen1,
    List.take_left' (hf _ hl2)]

theorem encodeLE_length (k v : Nat) : (encodeLE k v).length = k := by
  induction k generalizing v with
  | zero => rfl
  | succ k ih => simp [encodeLE, ih]

theorem decodeLE_encodeLE (k v : Nat) : decodeLE (encodeLE k v) = v % 256 ^ k := by
  induction k generalizing v with
  | zero => simp [encodeLE, decodeLE, Nat.mod_one]
  | succ k ih =>
    simp only [encodeLE, decodeLE, ih, Nat.mod_mod]
    rw [pow_succ, Nat.mul_comm (256 ^ k) 256, Nat.mod_mul]

theorem decodeElem_encodeElem (big : Bool) (k v : Nat) (hv : v < 256 ^ k) :
    decodeElem big (encodeElem big k v) = v := by
  unfold decodeElem encodeElem
  cases big
  · simp only [Bool.false_eq_true, if_false, decodeLE_encodeLE, Nat.mod_eq_of_lt hv]
  · simp only [if_true, List.reverse_reverse, decodeLE_encodeLE, Nat.mod_eq_of_lt hv]

theorem toSignedElem_length (big : Bool) (k : Nat) (el : List Nat) :
    (toSignedElem big k el).length = k := by
  unfold toSignedElem encodeElem
  split_ifs <;> simp [encodeLE_length]

/-- The element operation of `bToSigned`, in numbers. -/
theorem toSignedBits_spec (w : Nat) (hw : w = 8 ∨ w = 16 ∨ w = 32 ∨ w = 64) (u : Nat)
    (hu : u < 2 ^ w) :
    toSignedBits w u = (u + 2 ^ w - (2 ^ (w - 1) - 1)) % 2 ^ w
    ∧ toSignedBits w u < 2 ^ w
    ∧ (u ≤ 2 ^ w - 2 → asSigned w (toSignedBits w u) = (u : Int) - 2 ^ (w - 1) + 1)
    ∧ (u = 2 ^ w - 1 → asSigned w (toSignedBits w u) = - 2 ^ (w - 1)) := by
  rcases hw with rfl | rfl | rfl | rfl <;>
    simp only [toSignedBits, wrapBits, asSigned] <;> norm_num at hu ⊢ <;>
    (split_ifs <;> omega)

theorem wrapBits_lt (w : Nat) (z : Int) : wrapBits w z < 2 ^ w := by
  unfold wrapBits
  have h1 : (0 : Int) < 2 ^ w := by positivity
  have h2 := Int.emod_lt_of_pos z h1
  have h3 := Int.emod_nonneg z (ne_of_gt h1)
  zify
  rw [Int.toNat_of_nonneg h3]
  exact h2

theorem decodeLE_lt (el : List Nat) : decodeLE el < 256 ^ el.length := by
  induction el with
  | nil => simp [decodeLE]
  | cons b bs ih =>
    simp only [decodeLE, List.length_cons, pow_succ]
    have := Nat.mod_lt b (show 0 < 256 by decide)
    omega

theorem decodeElem_lt (big : Bool) (el : List Nat) : decodeElem big el < 256 ^ el.length := by
  unfold decodeElem
  cases big
  · simpa using decodeLE_lt el
  · simpa using decodeLE_lt el.reverse

/-- The switch of the `bToSigned` branch on a chunk of whole elements. -/
theorem toSignedChunk_elements (big : Bool) (w k : Nat)
    (hw : (w = 8 ∧ k = 1) ∨ (w = 16 ∧ k = 2) ∨ (w = 32 ∧ k = 4) ∨ (w = 64 ∧ k = 8))
    (data tail : List Nat) (m : Nat) (hm : data.length = k * m) :
    toSignedChunk big w (data ++ tail) data.length
      = SignedStep.done (mapElements (toSignedElem big k) k data ++ tail) := by
  unfold toSignedChunk
  rcases hw with ⟨rfl, rfl⟩ | ⟨rfl, rfl⟩ | ⟨rfl, rfl⟩ | ⟨rfl, rfl⟩
  · simp only [if_true]
    rw [mapElemLoop_elements _ 1 (by decide) (fun el _ => toSignedElem_length big 1 el)
      data tail m hm]
  · simp only [show (16 : Nat) ≠ 8 by decide, if_false, if_true]
    rw [mapElemLoop_elements _ 2 (by decide) (fun el _ => toSignedElem_length big 2 el)
      data tail m hm]
  · simp only [show (32 : Nat) ≠ 8 by decide, show (32 : Nat) ≠ 16 by decide, if_false,
      if_true]
    rw [mapElemLoop_elements _ 4 (by decide) (fun el _ => toSignedElem_length big 4 el)
      data tail m hm]
  · simp only [show (64 : Nat) ≠ 8 by decide, show (64 : Nat) ≠ 16 by decide,
      show (64 : Nat) ≠ 32 by decide, if_false, if_true]
    rw [mapElemLoop_elements _ 8 (by decide) (fun el _ => toSignedElem_length big 8 el)
      data tail m hm]

/-- Claim C29. With `bToSigned` set, `AppendRAW` replaces every `w`-bit element `u` of a
chunk (`w` one of 8, 16, 32, 64; the element read as unsigned in the byte order of the
host) by `u - (2^(w-1) - 1)` modulo `2^w`, which read as a signed `w`-bit value is
`u - 2^(w-1) + 1` for every `u ≤ 2^w - 2` and the smallest signed value `-2^(w-1)` for the
largest unsigned value `2^w - 1`; the mapping is a bijection on the `w`-bit values and is
not order-preserving. -/
theorem C29_to_signed (w k : Nat)
    (hw : (w = 8 ∧ k = 1) ∨ (w = 16 ∧ k = 2) ∨ (w = 32 ∧ k = 4) ∨ (w = 64 ∧ k = 8)) :
    (∀ u, u < 2 ^ w →
      toSignedBits w u = (u + 2 ^ w - (2 ^ (w - 1) - 1)) % 2 ^ w ∧ toSignedBits w u < 2 ^ w)
    ∧ (∀ u, u ≤ 2 ^ w - 2 → asSigned w (toSignedBits w u) = (u : Int) - 2 ^ (w - 1) + 1)
    ∧ asSigned w (toSignedBits w (2 ^ w - 1)) = - 2 ^ (w - 1)
    ∧ (∀ u1 u2, u1 < 2 ^ w → u2 < 2 ^ w → toSignedBits w u1 = toSignedBits w u2 → u1 = u2)
    ∧ (∀ v, v < 2 ^ w → ∃ u, u < 2 ^ w ∧ toSignedBits w u = v)
    ∧ asSigned w (toSignedBits w (2 ^ w - 1)) < asSigned w (toSignedBits w 0)
    ∧ (∀ (big : Bool) (data tail : List Nat) (m : Nat), data.length = k * m →
        toSignedChunk big w (data ++ tail) data.length
          = SignedStep.done (mapElements (toSignedElem big k) k data ++ tail)
        ∧ ∀ j, j < m →
            decodeElem big ((data.drop (j * k)).take k) < 2 ^ w
            ∧ decodeElem big (((mapElements (toSignedElem big k) k data).drop (j * k)).take k)
              = toSignedBits w (decodeElem big ((data.drop (j * k)).take k)))
    ∧ (∀ (W : ConvWorld) (src tgt : String) (s : CopyState) (m : Nat),
        ((W.ReadRAW s.tr src s.iCopySize).take s.iCopySize).length = k * m →
        ∃ s1 n, appendBody W src tgt w false true s = CopyStep.next s1
          ∧ s1.tr = s.tr ++ [Event.readRAW src s.iCopySize
                ((W.ReadRAW s.tr src s.iCopySize).take s.iCopySize),
              Event.writeRAW tgt
                (mapElements (toSignedElem W.IsBigEndian k) k
                  ((W.ReadRAW s.tr src s.iCopySize).take s.iCopySize)) n]) := by
  have hw1 : w = 8 ∨ w = 16 ∨ w = 32 ∨ w = 64 := by
    rcases hw with ⟨h, _⟩ | ⟨h, _⟩ | ⟨h, _⟩ | ⟨h, _⟩ <;> simp [h]
  have hk : 0 < k := by
    rcases hw with ⟨_, rfl⟩ | ⟨_, rfl⟩ | ⟨_, rfl⟩ | ⟨_, rfl⟩ <;> decide
  have hpow : 256 ^ k = 2 ^ w := by
    rcases hw with ⟨rfl, rfl⟩ | ⟨rfl, rfl⟩ | ⟨rfl, rfl⟩ | ⟨rfl, rfl⟩ <;> norm_num
  have h8k : 8 * k = w := by
    rcases hw with ⟨rfl, rfl⟩ | ⟨rfl, rfl⟩ | ⟨rfl, rfl⟩ | ⟨rfl, rfl⟩ <;> rfl
  have hpos : 0 < 2 ^ w := Nat.pow_pos (by decide)
  have hmax : 2 ^ w - 1 < 2 ^ w := by omega
  have hform : ∀ u, u < 2 ^ w →
      toSignedBits w u = (u + 2 ^ w - (2 ^ (w - 1) - 1)) % 2 ^ w :=
    fun u hu => (toSignedBits_spec w hw1 u hu).1
  have hhalf : 2 ^ (w - 1) - 1 < 2 ^ w := by
    have : 2 ^ (w - 1) ≤ 2 ^ w := Nat.pow_le_pow_right (by decide) (Nat.sub_le _ _)
    omega
  refine ⟨fun u hu => ⟨hform u hu, wrapBits_lt w _⟩,
    fun u hu => (toSignedBits_spec w hw1 u (by omega)).2.2.1 hu,
    (toSignedBits_spec w hw1 _ hmax).2.2.2 rfl, ?_, ?_, ?_, ?_, ?_⟩
  · intro u1 u2 h1 h2 he
    rw [hform u1 h1, hform u2 h2] at he
    generalize 2 ^ w = M at *
    generalize 2 ^ (w - 1) - 1 = c at *
    have e1 := Nat.mod_add_div (u1 + M - c) M
    have e2 := Nat.mod_add_div (u2 + M - c) M
    have b1 : (u1 + M - c) / M < 2 := Nat.div_lt_of_lt_mul (by omega)
    have b2 : (u2 + M - c) / M < 2 := Nat.div_lt_of_lt_mul (by omega)
    rw [he] at e1
    generalize (u1 + M - c) / M = q1 at *
    generalize (u2 + M - c) / M = q2 at *
    have hq : q1 = 0 ∨ q1 = 1 := by omega
    have hq2 : q2 = 0 ∨ q2 = 1 := by omega
    rcases hq with rfl | rfl <;> rcases hq2 with rfl | rfl <;> omega
  · intro v hv
    refine ⟨(v + (2 ^ (w - 1) - 1)) % 2 ^ w, Nat.mod_lt _ hpos, ?_⟩
    rw [hform _ (Nat.mod_lt _ hpos)]
    generalize 2 ^ w = M at *
    generalize 2 ^ (w - 1) - 1 = c at *
    have e1 := Nat.mod_add_div (v + c) M
    have b1 : (v + c) / M < 2 := Nat.div_lt_of_lt_mul (by omega)
    generalize (v + c) / M = q1 at *
    generalize (v + c) % M = r at *
    have hq : q1 = 0 ∨ q1 = 1 := by omega
    rcases hq with rfl | rfl
    · have : r + M - c = v + M := by omega
      rw [this, Nat.add_mod_right, Nat.mod_eq_of_lt hv]
    · have : r + M - c = v := by omega
      rw [this, Nat.mod_eq_of_lt hv]
  · rw [(toSignedBits_spec w hw1 _ hmax).2.2.2 rfl,
      (toSignedBits_spec w hw1 0 hpos).2.2.1 (Nat.zero_le _)]
    have : (0 : Int) < 2 ^ (w - 1) := by positivity
    push_cast
    omega
  · intro big data tail m hm
    refine ⟨toSignedChunk_elements big w k hw data tail m hm, ?_⟩
    intro j hj
    have hle : j * k + k ≤ data.length := by
      rw [hm]
      calc j * k + k = k * (j + 1) := by ring
        _ ≤ k * m := Nat.mul_le_mul_left k hj
    have hel : ((data.drop (j * k)).take k).length = k := by
      rw [List.length_take, List.length_drop]; omega
    refine ⟨by have := decodeElem_lt big ((data.drop (j * k)).take k); rwa [hel, hpow] at this,
      ?_⟩
    rw [mapElements_get _ k hk (fun el _ => toSignedElem_length big k el) data m hm j hj]
    unfold toSignedElem
    rw [h8k, decodeElem_encodeElem big k _ (by rw [hpow]; exact wrapBits_lt w _)]
  · intro W src tgt s m hm
    have hsig := toSignedChunk_elements W.IsBigEndian w k hw
      ((W.ReadRAW s.tr src s.iCopySize).take s.iCopySize)
      (s.pBuffer.drop ((W.ReadRAW s.tr src s.iCopySize).take s.iCopySize).length) m hm
    have hlen : (mapElements (toSignedElem W.IsBigEndian k) k
        ((W.ReadRAW s.tr src s.iCopySize).take s.iCopySize)).length
        = ((W.ReadRAW s.tr src s.iCopySize).take s.iCopySize).length :=
      mapElements_length _ k _ (fun el _ => toSignedElem_length _ k el) hk ⟨m, hm⟩
    unfold appendBody
    simp only [if_true, hsig, Bool.false_eq_true, if_false, List.take_left' hlen]
    refine ⟨_, W.WriteRAW (s.tr ++ [Event.readRAW src s.iCopySize
        ((W.ReadRAW s.tr src s.iCopySize).take s.iCopySize)]) tgt
      (mapElements (toSignedElem W.IsBigEndian k) k
        ((W.ReadRAW s.tr src s.iCopySize).take s.iCopySize)), rfl, ?_⟩
    simp only [List.append_assoc, List.cons_append, List.nil_append]

/-- Witness of C29: the 8-bit chunk `0, 127, 128, 255` becomes `129, 0, 1, 128`, that is
`-127, 0, 1, -128` read as signed. -/
theorem C29_to_signed_witness :
    toSignedChunk false 8 [0, 127, 128, 255] 4 = SignedStep.done [129, 0, 1, 128]
    ∧ asSigned 8 (toSignedBits 8 255) = -128
    ∧ asSigned 8 (toSignedBits 8 0) = -127 := by
  have h := C29_to_signed 8 1 (Or.inl ⟨rfl, rfl⟩)
  refine ⟨?_, h.2.2.1, ?_⟩
  · have h7 := (h.2.2.2.2.2.2.1 false [0, 127, 128, 255] [] 4 rfl).1
    simpa using h7
  · have h2 := h.2.1 0 (by decide)
    simpa using h2

theorem take_append_drop_length (c : Nat) (l : List Nat) :
    l.take c ++ l.drop (l.take c).length = l := by
  rw [List.length_take]
  by_cases h : c ≤ l.length
  · rw [Nat.min_eq_left h, List.take_append_drop]
  · have h1 : l.length ≤ c := by omega
    rw [Nat.min_eq_right h1, List.take_of_length_le h1, List.drop_length, List.append_nil]

/-- The body of the copy loop when nothing is made signed and nothing is swapped: the
chunk read is written as it is. -/
theorem appendBody_copy (W : ConvWorld) (src tgt : String) (w : Nat)
    (hswap : W.IsBigEndian = false ∨ (w ≠ 16 ∧ w ≠ 32 ∧ w ≠ 64)) (s : CopyState) :
    appendBody W src tgt w W.IsBigEndian false s
      = CopyStep.next
          ⟨s.tr ++ [Event.readRAW src s.iCopySize
                ((W.ReadRAW s.tr src s.iCopySize).take s.iCopySize)]
              ++ [Event.writeRAW tgt ((W.ReadRAW s.tr src s.iCopySize).take s.iCopySize)
                (W.WriteRAW (s.tr ++ [Event.readRAW src s.iCopySize
                  ((W.ReadRAW s.tr src s.iCopySize).take s.iCopySize)]) tgt
                  ((W.ReadRAW s.tr src s.iCopySize).take s.iCopySize))],
            (W.ReadRAW s.tr src s.iCopySize).take s.iCopySize
              ++ s.pBuffer.drop ((W.ReadRAW s.tr src s.iCopySize).take s.iCopySize).length,
            ((W.ReadRAW s.tr src s.iCopySize).take s.iCopySize).length,
            u64 (s.iCopiedSize + ((W.ReadRAW s.tr src s.iCopySize).take s.iCopySize).length)⟩ := by
  have hsw : ∀ buf n, (if W.IsBigEndian = true then swapChunk w buf n else some buf)
      = some buf := by
    intro buf n
    rcases hswap with h | ⟨h1, h2, h3⟩
    · rw [h]; rfl
    · unfold swapChunk
      rw [if_neg h1, if_neg h2, if_neg h3, ite_self]
  unfold appendBody
  simp only [Bool.false_eq_true, if_false, hsw, List.take_left' rfl]

/-- The copy loop over a file-backed source with complete writes: it ends, and has then
appended what was left of the source to the target. -/
theorem appendLoop_copy (W : ConvWorld) (src tgt : String) (w : Nat) (content : List Nat)
    (hswap : W.IsBigEndian = false ∨ (w ≠ 16 ∧ w ≠ 32 ∧ w ≠ 64))
    (hread : ∀ tr n, W.ReadRAW tr src n = (content.drop (bytesRead src tr)).take n)
    (hwrite : ∀ tr d, W.WriteRAW tr tgt d = d.length) :
    ∀ (fuel : Nat) (s : CopyState), content.length - bytesRead src s.tr < fuel →
      (0 < s.iCopySize ∨ content.length ≤ bytesRead src s.tr) →
      ∃ tr, appendLoop W src tgt w W.IsBigEndian false fuel s = Stage.ok tr ()
        ∧ bytesWritten tgt tr = bytesWritten tgt s.tr ++ content.drop (bytesRead src s.tr) := by
  intro fuel
  induction fuel with
  | zero => intro s h; omega
  | succ fuel ih =>
    intro s hfuel hpos
    have hdata : (W.ReadRAW s.tr src s.iCopySize).take s.iCopySize
        = (content.drop (bytesRead src s.tr)).take s.iCopySize := by
      rw [hread, List.take_take, Nat.min_self]
    have hlen : ((content.drop (bytesRead src s.tr)).take s.iCopySize).length
        = min s.iCopySize (content.length - bytesRead src s.tr) := by
      rw [List.length_take, List.length_drop]
    unfold appendLoop
    rw [appendBody_copy W src tgt w hswap s]
    simp only [hdata, hwrite]
    by_cases hd : 0 < ((content.drop (bytesRead src s.tr)).take s.iCopySize).length
    · rw [if_pos hd]
      obtain ⟨tr, h1, h2⟩ := ih
        ⟨s.tr ++ [Event.readRAW src s.iCopySize
            ((content.drop (bytesRead src s.tr)).take s.iCopySize)]
          ++ [Event.writeRAW tgt ((content.drop (bytesRead src s.tr)).take s.iCopySize)
            ((content.drop (bytesRead src s.tr)).take s.iCopySize).length],
          (content.drop (bytesRead src s.tr)).take s.iCopySize
            ++ s.pBuffer.drop ((content.drop (bytesRead src s.tr)).take s.iCopySize).length,
          ((content.drop (bytesRead src s.tr)).take s.iCopySize).length,
          u64 (s.iCopiedSize
            + ((content.drop (bytesRead src s.tr)).take s.iCopySize).length)⟩
        (by
          simp only [bytesRead_append, bytesRead, if_true, Nat.add_zero]
          rw [hlen] at hd ⊢
          omega)
        (Or.inl hd)
      refine ⟨tr, h1, ?_⟩
      rw [h2]
      simp only [bytesRead_append, bytesWritten_append, bytesRead, bytesWritten, if_true,
        Nat.add_zero, List.append_nil, List.nil_append, List.take_length, List.append_assoc]
      rw [← List.drop_drop, take_append_drop_length]
    · rw [if_neg hd]
      refine ⟨_, rfl, ?_⟩
      have h0 : ((content.drop (bytesRead src s.tr)).take s.iCopySize).length = 0 := by omega
      have hnil : (content.drop (bytesRead src s.tr)).take s.iCopySize = [] :=
        List.length_eq_zero.mp h0
      have hrest : content.drop (bytesRead src s.tr) = [] := by
        rw [hlen] at h0
        rcases hpos with h | h
        · exact List.drop_eq_nil_of_le (by omega)
        · exact List.drop_eq_nil_of_le h
      simp only [bytesWritten_append, bytesWritten, hnil, hrest, List.take_nil,
        List.append_nil, ite_self]

/-- A read of a host with the other byte order, and a set quantization flag, both change the
bytes `ConvertToNative` writes: on a big-endian host the two bytes of a 16-bit element are
exchanged, and with `bQuantizeTo8Bit` set (the default of the last parameter of `AppendRAW`
being `false`) the 8-bit element 0 is written as 129. -/
theorem C23_native_copy_changes :
    (∃ tr, ConvertToNative (filesWorld true fun _ => [1, 2]) 3 false "in.raw" "out.raw" 0 16 1
        false false ⟨1, 1, 1⟩ ⟨1, 1, 1⟩ true false = some (true, tr)
      ∧ bytesWritten "out.raw" tr = [2, 1])
    ∧ (∃ tr, ConvertToNative (filesWorld false fun _ => [0]) 3 false "in.raw" "out.raw" 0 8 1
        false false ⟨1, 1, 1⟩ ⟨1, 1, 1⟩ true true = some (true, tr)
      ∧ bytesWritten "out.raw" tr = [129]) :=
  ⟨⟨_, rfl, rfl⟩, ⟨_, rfl, rfl⟩⟩

/-- Claim C23, amended. With `bQuantizeTo8Bit` not set, on a little-endian host or for a
component size other than 16, 32 and 64, over a source whose reads deliver the bytes of the
file after the header and a target whose writes are complete, `ConvertToNative` returns, it
returns `true` exactly when the target is gone after the removal and both files open, and
on success the bytes written to the target are the bytes of the source from `iHeaderSkip`
to the end, unchanged, whatever the component count, the signedness, the float flag, the
volume size, the aspect and the interaction flag are. -/
theorem C23_native_copy (W : ConvWorld) (fuel : Nat) (bAppendDefault : Bool)
    (strRawFilename strTargetFilename : String) (iHeaderSkip iComponentSize : Nat)
    (iComponentCount : Nat) (bSigned bFloat : Bool) (vVolumeSize : UINT64VECTOR3)
    (vVolumeAspect : FLOATVECTOR3) (bNoUserInteraction : Bool) (file : List Nat)
    (hdef : bAppendDefault = false)
    (hswap : W.IsBigEndian = false
      ∨ (iComponentSize ≠ 16 ∧ iComponentSize ≠ 32 ∧ iComponentSize ≠ 64))
    (hread : ∀ tr n, W.ReadRAW tr strRawFilename n
      = ((file.drop iHeaderSkip).drop (bytesRead strRawFilename tr)).take n)
    (hwrite : ∀ tr d, W.WriteRAW tr strTargetFilename d = d.length)
    (hsize : file.drop iHeaderSkip = [] ∨ ∀ tr, 0 < W.GetCurrentSize tr strRawFilename)
    (hblock : 0 < W.BLOCK_COPY_SIZE)
    (hfuel : (file.drop iHeaderSkip).length < fuel) :
    ∃ b tr, ConvertToNative W fuel bAppendDefault strRawFilename strTargetFilename
        iHeaderSkip iComponentSize iComponentCount bSigned bFloat vVolumeSize vVolumeAspect
        bNoUserInteraction false = some (b, tr)
      ∧ (b = true → bytesWritten strTargetFilename tr = file.drop iHeaderSkip)
      ∧ (b = true ↔
          ∃ tr1, tr1 = (if W.FileExists [] strTargetFilename
              then [Event.remove strTargetFilename] else [])
            ∧ W.FileExists tr1 strTargetFilename = false
            ∧ W.Open tr1 strRawFilename iHeaderSkip = true
            ∧ W.Append (tr1 ++ [Event.openRead strRawFilename iHeaderSkip true])
                strTargetFilename = true) := by
  subst hdef
  have htr1 : ∀ tr1 : Trace, tr1 = (if W.FileExists [] strTargetFilename
      then [Event.remove strTargetFilename] else []) →
      bytesRead strRawFilename tr1 = 0 ∧ bytesWritten strTargetFilename tr1 = [] := by
    intro tr1 h
    subst h
    split <;> exact ⟨rfl, rfl⟩
  unfold ConvertToNative
  generalize hg : (if W.FileExists [] strTargetFilename
      then [Event.remove strTargetFilename] else []) = tr1
  obtain ⟨hr0, hw0⟩ := htr1 tr1 hg.symm
  simp only []
  by_cases hex : W.FileExists tr1 strTargetFilename = true
  · rw [if_pos hex]
    refine ⟨false, tr1, rfl, (fun h => Bool.noConfusion h), ?_⟩
    constructor
    · intro h; cases h
    · rintro ⟨t, rfl, h, _⟩
      rw [hex] at h; cases h
  · rw [if_neg hex]
    have hex1 : W.FileExists tr1 strTargetFilename = false := by
      cases h : W.FileExists tr1 strTargetFilename
      · rfl
      · exact absurd h hex
    unfold AppendRAW
    simp only [Bool.false_eq_true, if_false]
    cases hop : W.Open tr1 strRawFilename iHeaderSkip
    · simp only [Bool.not_false, if_true]
      refine ⟨false, _, rfl, (fun h => Bool.noConfusion h), ?_⟩
      constructor
      · intro h; cases h
      · rintro ⟨t, rfl, _, h, _⟩
        rw [hop] at h; cases h
    · simp only [Bool.not_true, Bool.false_eq_true, if_false]
      cases hap : W.Append (tr1 ++ [Event.openRead strRawFilename iHeaderSkip true])
          strTargetFilename
      · simp only [Bool.not_false, if_true]
        refine ⟨false, _, rfl, (fun h => Bool.noConfusion h), ?_⟩
        constructor
        · intro h; cases h
        · rintro ⟨t, rfl, _, _, h⟩
          rw [hap] at h; cases h
      · simp only [Bool.not_true, Bool.false_eq_true, if_false]
        have hrd : bytesRead strRawFilename
            (tr1 ++ [Event.openRead strRawFilename iHeaderSkip true]
              ++ [Event.append strTargetFilename true]) = 0 := by
          simp only [bytesRead_append, hr0, bytesRead]
        have hwr : bytesWritten strTargetFilename
            (tr1 ++ [Event.openRead strRawFilename iHeaderSkip true]
              ++ [Event.append strTargetFilename true]) = [] := by
          simp only [bytesWritten_append, hw0, bytesWritten, List.append_nil]
        obtain ⟨tr, h1, h2⟩ := appendLoop_copy W strRawFilename strTargetFilename
          iComponentSize (file.drop iHeaderSkip) hswap hread hwrite fuel
          ⟨tr1 ++ [Event.openRead strRawFilename iHeaderSkip true]
              ++ [Event.append strTargetFilename true],
            (W.newBuffer (tr1 ++ [Event.openRead strRawFilename iHeaderSkip true]
                ++ [Event.append strTargetFilename true])
              (min (W.GetCurrentSize (tr1 ++ [Event.openRead strRawFilename iHeaderSkip true]
                ++ [Event.append strTargetFilename true]) strRawFilename)
                W.BLOCK_COPY_SIZE)).take
              (min (W.GetCurrentSize (tr1 ++ [Event.openRead strRawFilename iHeaderSkip true]
                ++ [Event.append strTargetFilename true]) strRawFilename)
                W.BLOCK_COPY_SIZE)
              ++ List.replicate
                (min (W.GetCurrentSize (tr1 ++ [Event.openRead strRawFilename iHeaderSkip true]
                  ++ [Event.append strTargetFilename true]) strRawFilename)
                  W.BLOCK_COPY_SIZE
                  - (W.newBuffer (tr1 ++ [Event.openRead strRawFilename iHeaderSkip true]
                    ++ [Event.append strTargetFilename true])
                    (min (W.GetCurrentSize
                      (tr1 ++ [Event.openRead strRawFilename iHeaderSkip true]
                        ++ [Event.append strTargetFilename true]) strRawFilename)
                      W.BLOCK_COPY_SIZE)).length) 0,
            min (W.GetCurrentSize (tr1 ++ [Event.openRead strRawFilename iHeaderSkip true]
              ++ [Event.append strTargetFilename true]) strRawFilename) W.BLOCK_COPY_SIZE,
            0⟩
          (by rw [hrd]; simpa using hfuel)
          (by
            rcases hsize with h | h
            · right; rw [h]; exact Nat.zero_le _
            · left; exact Nat.lt_min.mpr ⟨h _, hblock⟩)
        rw [h1]
        refine ⟨true, _, rfl, fun _ => ?_, ?_⟩
        · rw [bytesWritten_append, h2, hwr, hrd]
          simp [bytesWritten]
        · constructor
          · intro _
            exact ⟨tr1, rfl, hex1, hop, hap⟩
          · intro _; rfl

/-- Witness of C23: a little-endian host copies the five bytes after a one-byte header of a
16-bit file in two chunks. -/
theorem C23_native_copy_witness :
    ∃ b tr, ConvertToNative (filesWorld false fun _ => [2, 3, 4, 5, 6]) 6 false "in.raw"
        "out.raw" 0 16 1 false false ⟨1, 1, 1⟩ ⟨1, 1, 1⟩ true false = some (b, tr)
      ∧ (b = true → bytesWritten "out.raw" tr = [2, 3, 4, 5, 6])
      ∧ (b = true ↔
          ∃ tr1, tr1 = (if (filesWorld false fun _ => [2, 3, 4, 5, 6]).FileExists [] "out.raw"
              then [Event.remove "out.raw"] else [])
            ∧ (filesWorld false fun _ => [2, 3, 4, 5, 6]).FileExists tr1 "out.raw" = false
            ∧ (filesWorld false fun _ => [2, 3, 4, 5, 6]).Open tr1 "in.raw" 0 = true
            ∧ (filesWorld false fun _ => [2, 3, 4, 5, 6]).Append
                (tr1 ++ [Event.openRead "in.raw" 0 true]) "out.raw" = true) :=
  C23_native_copy (filesWorld false fun _ => [2, 3, 4, 5, 6]) 6 false "in.raw" "out.raw" 0 16
    1 false false ⟨1, 1, 1⟩ ⟨1, 1, 1⟩ true [2, 3, 4, 5, 6] rfl (Or.inl rfl)
    (fun _ _ => rfl) (fun _ _ => rfl) (Or.inr fun _ => Nat.succ_pos 4) (by decide) (by decide)

/-! ### The merge of `ConvertToUVF` -/

theorem readPos_open (f : String) (tr : Trace) (hdr : Nat) (ok : Bool) :
    readPos f (tr ++ [Event.openRead f hdr ok]) = 0 := by
  simp [readPos, List.foldl_append]

theorem readPos_read_write (f g : String) (tr : Trace) (n m : Nat) (data out : List Nat) :
    readPos f (tr ++ [Event.readRAW f n data] ++ [Event.writeRAW g out m])
      = readPos f tr + data.length := by
  simp [readPos, List.foldl_append]

/-- The chunks of a concatenation of pieces of one length. -/
theorem flatMap_chunk {α : Type} (g : α → List Nat) (P : Nat) :
    ∀ (l : List α), (∀ a ∈ l, (g a).length = P) → ∀ (i : Nat) (a : α), l[i]? = some a →
      ((l.flatMap g).drop (i * P)).take P = g a := by
  intro l
  induction l with
  | nil => intro _ i a h; simp at h
  | cons b bs ih =>
    intro hl i a h
    have hb : (g b).length = P := hl b (List.mem_cons_self _ _)
    cases i with
    | zero =>
      simp only [List.getElem?_cons_zero, Option.some.injEq] at h
      subst h
      rw [List.flatMap_cons, Nat.zero_mul, List.drop_zero, List.take_left' hb]
    | succ i =>
      simp only [List.getElem?_cons_succ] at h
      have h1 : (i + 1) * P = (g b).length + i * P := by rw [hb]; ring
      rw [List.flatMap_cons, h1, ← List.drop_drop, List.drop_left]
      exact ih (fun a ha => hl a (List.mem_cons_of_mem _ ha)) i a h

/-- The copy loop over one intermediate file that holds at least the payload: it ends, and
has then appended the payload not yet copied to the merged file. -/
theorem mergeFileLoop_copy (W : ConvWorld) (merged fn : String) (P : Nat)
    (content : List Nat)
    (hread : ∀ tr n, W.ReadRAW tr fn n = (content.drop (readPos fn tr)).take n)
    (hwrite : ∀ tr d, W.WriteRAW tr merged d = d.length)
    (hinc : 0 < W.GetIncoreSize) (hP : P ≤ content.length) (hL : content.length < 2 ^ 64) :
    ∀ (fuel : Nat) (tr : Trace) (bw : Nat), bw = readPos fn tr → (bw < P ∨ bw = 0) →
      P - bw < fuel →
      ∃ tr1, mergeFileLoop W merged fn P fuel tr bw = some tr1
        ∧ bytesWritten merged tr1 = bytesWritten merged tr ++ (content.drop bw).take (P - bw) := by
  intro fuel
  induction fuel with
  | zero => intro tr bw _ _ h; omega
  | succ fuel ih =>
    intro tr bw hbw hentry hfuel
    have hbwP : bw ≤ P := by omega
    have hdata : (W.ReadRAW tr fn W.GetIncoreSize).take W.GetIncoreSize
        = (content.drop bw).take W.GetIncoreSize := by
      rw [hread, List.take_take, Nat.min_self, hbw]
    have hlen : ((content.drop bw).take W.GetIncoreSize).length
        = min W.GetIncoreSize (content.length - bw) := by
      rw [List.length_take, List.length_drop]
    have hsub : (P + 2 ^ 64 - bw) % 2 ^ 64 = P - bw := by
      have h1 : P + 2 ^ 64 - bw = (P - bw) + 2 ^ 64 := by omega
      rw [h1, Nat.add_mod_right, Nat.mod_eq_of_lt (by omega)]
    unfold mergeFileLoop
    simp only [hdata, hwrite, hsub]
    by_cases hd : ((content.drop bw).take W.GetIncoreSize).length = 0
    · rw [if_pos hd]
      refine ⟨_, rfl, ?_⟩
      have hPbw : P - bw = 0 := by rw [hlen] at hd; omega
      simp [bytesWritten_append, bytesWritten, hPbw]
    · rw [if_neg hd]
      have hu : u64 (bw + ((content.drop bw).take W.GetIncoreSize).length)
          = bw + ((content.drop bw).take W.GetIncoreSize).length := by
        unfold u64
        rw [hlen]
        exact Nat.mod_eq_of_lt (by omega)
      rw [hu]
      by_cases hmore : bw + ((content.drop bw).take W.GetIncoreSize).length < P
      · rw [if_pos hmore]
        have hmin : min (P - bw) ((content.drop bw).take W.GetIncoreSize).length
            = ((content.drop bw).take W.GetIncoreSize).length := by omega
        rw [hmin, List.take_length]
        obtain ⟨tr1, h1, h2⟩ := ih
          (tr ++ [Event.readRAW fn W.GetIncoreSize ((content.drop bw).take W.GetIncoreSize)]
            ++ [Event.writeRAW merged ((content.drop bw).take W.GetIncoreSize)
              ((content.drop bw).take W.GetIncoreSize).length])
          (bw + ((content.drop bw).take W.GetIncoreSize).length)
          (by rw [readPos_read_write, hbw])
          (Or.inl hmore) (by omega)
        refine ⟨tr1, h1, ?_⟩
        rw [h2]
        simp only [bytesWritten_append, bytesWritten, if_true, List.append_nil,
          List.take_length, List.append_assoc]
        have hinc1 : W.GetIncoreSize < P - bw := by rw [hlen] at hmore; omega
        have hl1 : ((content.drop bw).take W.GetIncoreSize).length = W.GetIncoreSize := by
          rw [hlen]; omega
        rw [hl1, ← List.drop_drop]
        have hsplit : P - bw = W.GetIncoreSize + (P - (bw + W.GetIncoreSize)) := by omega
        conv_rhs => rw [hsplit, List.take_add]
      · rw [if_neg hmore]
        refine ⟨_, rfl, ?_⟩
        have hmin : min (P - bw) ((content.drop bw).take W.GetIncoreSize).length = P - bw := by
          omega
        rw [hmin]
        simp only [bytesWritten_append, bytesWritten, if_true, List.append_nil,
          List.length_take, List.take_take]
        congr 2
        simp only [List.length_drop]
        rw [hlen] at hmore
        omega

/-- The loop over the intermediate files, each holding at least the payload: it ends, and
has then appended the payload of each file, in the order of the list, to the merged file. -/
theorem mergeFiles_copy (W : ConvWorld) (merged : String) (P fuel : Nat)
    (content : String → List Nat)
    (hwrite : ∀ tr d, W.WriteRAW tr merged d = d.length)
    (hinc : 0 < W.GetIncoreSize) (hfuel : P < fuel) :
    ∀ (l : List (String × Bool × Nat)) (tr : Trace),
      (∀ x ∈ l, (∀ tr n, W.ReadRAW tr x.1 n = ((content x.1).drop (readPos x.1 tr)).take n)
        ∧ P ≤ (content x.1).length ∧ (content x.1).length < 2 ^ 64) →
      ∃ tr1, mergeFiles W merged P fuel l tr = some tr1
        ∧ bytesWritten merged tr1
          = bytesWritten merged tr ++ l.flatMap fun x => (content x.1).take P := by
  intro l
  induction l with
  | nil => intro tr _; exact ⟨tr, rfl, by simp⟩
  | cons x xs ih =>
    intro tr hl
    obtain ⟨fn, del, hdr⟩ := x
    obtain ⟨hread, hP, hL⟩ := hl (fn, del, hdr) (List.mem_cons_self _ _)
    obtain ⟨tr1, h1, h2⟩ := mergeFileLoop_copy W merged fn P (content fn) hread hwrite hinc
      hP hL fuel (tr ++ [Event.openRead fn hdr (W.Open tr fn hdr)]) 0
      (readPos_open fn tr hdr _).symm (Or.inr rfl) (by omega)
    obtain ⟨tr2, h3, h4⟩ := ih (tr1 ++ [if del then Event.delete fn else Event.close fn])
      (fun y hy => hl y (List.mem_cons_of_mem _ hy))
    refine ⟨tr2, ?_, ?_⟩
    · unfold mergeFiles
      simp only [h1]
      exact h3
    · rw [h4, bytesWritten_append, h2, bytesWritten_append]
      have he : bytesWritten merged [if del then Event.delete fn else Event.close fn] = [] := by
        cases del <;> rfl
      rw [he]
      simp [bytesWritten, List.flatMap_cons]

/-- The loop over the source files when every `ConvertToRAW` succeeds: the intermediate
files are pushed to the front one after the other, and nothing is written. -/
theorem convertToRAWLoop_ok (W : ConvWorld) (strTempDir : String) (bNoUserInteraction : Bool)
    (inter : String → String) (P : Nat) (merged : String) :
    ∀ (files : List String) (s : RawLoopState),
      (∀ tr f, f ∈ files →
        (W.ConvertToRAW tr f strTempDir bNoUserInteraction).success = true
        ∧ (W.ConvertToRAW tr f strTempDir bNoUserInteraction).strIntermediateFile = inter f
        ∧ payloadSize (W.ConvertToRAW tr f strTempDir bNoUserInteraction) = P) →
      ∃ tr1 out dels hdrs,
        convertToRAWLoop W strTempDir bNoUserInteraction files s
          = (⟨tr1, out, (files.map inter).reverse ++ s.strIntermediateFile,
              dels ++ s.bDeleteIntermediateFile, hdrs ++ s.header_skip⟩, true)
        ∧ dels.length = files.length ∧ hdrs.length = files.length
        ∧ bytesWritten merged tr1 = bytesWritten merged s.tr
        ∧ (files = [] → out = s.out)
        ∧ (files ≠ [] → ∃ r, out = some r ∧ payloadSize r = P) := by
  intro files
  induction files with
  | nil =>
    intro s _
    exact ⟨s.tr, s.out, [], [], rfl, rfl, rfl, rfl, fun _ => rfl, fun h => absurd rfl h⟩
  | cons f fs ih =>
    intro s h
    obtain ⟨hok, hint, hpay⟩ := h s.tr f (List.mem_cons_self _ _)
    obtain ⟨tr1, out, dels, hdrs, h1, h2, h3, h4, h5, h6⟩ := ih
      ⟨s.tr ++ [Event.convertToRAW f
          (W.ConvertToRAW s.tr f strTempDir bNoUserInteraction).success
          (W.ConvertToRAW s.tr f strTempDir bNoUserInteraction).strIntermediateFile
          (W.ConvertToRAW s.tr f strTempDir bNoUserInteraction).bDeleteIntermediateFile
          (W.ConvertToRAW s.tr f strTempDir bNoUserInteraction).iHeaderSkip],
        some (W.ConvertToRAW s.tr f strTempDir bNoUserInteraction),
        (W.ConvertToRAW s.tr f strTempDir bNoUserInteraction).strIntermediateFile
          :: s.strIntermediateFile,
        (W.ConvertToRAW s.tr f strTempDir bNoUserInteraction).bDeleteIntermediateFile
          :: s.bDeleteIntermediateFile,
        (W.ConvertToRAW s.tr f strTempDir bNoUserInteraction).iHeaderSkip :: s.header_skip⟩
      (fun tr g hg => h tr g (List.mem_cons_of_mem _ hg))
    refine ⟨tr1, out,
      dels ++ [(W.ConvertToRAW s.tr f strTempDir bNoUserInteraction).bDeleteIntermediateFile],
      hdrs ++ [(W.ConvertToRAW s.tr f strTempDir bNoUserInteraction).iHeaderSkip],
      ?_, by simp [h2], by simp [h3], ?_, (fun h => List.noConfusion h), ?_⟩
    · unfold convertToRAWLoop
      simp only [hok, hint, Bool.not_true, Bool.false_eq_true, if_false] at h1 ⊢
      rw [h1]
      simp only [List.map_cons, List.reverse_cons, List.append_assoc, List.cons_append,
        List.nil_append]
    · rw [h4]
      simp [bytesWritten_append, bytesWritten]
    · intro _
      by_cases hfs : fs = []
      · exact ⟨_, h5 hfs, hpay⟩
      · exact h6 hfs

theorem zip_flatMap_fst {β : Type} (g : String → List Nat) :
    ∀ (a : List String) (b : List β), a.length ≤ b.length →
      (List.zip a b).flatMap (fun x => g x.1) = a.flatMap g := by
  intro a
  induction a with
  | nil => intro b _; simp
  | cons x xs ih =>
    intro b hb
    cases b with
    | nil => simp at hb
    | cons y ys =>
      simp only [List.zip_cons_cons, List.flatMap_cons]
      rw [ih ys (by simpa using hb)]

theorem zip_mem_fst {β : Type} (a : List String) (b : List β) (x : String × β)
    (h : x ∈ List.zip a b) : x.1 ∈ a := by
  obtain ⟨x1, x2⟩ := x
  exact (List.of_mem_zip h).1

theorem flatMap_map_reverse (inter : String → String) (g : String → List Nat)
    (files : List String) :
    ((files.map inter).reverse).flatMap g = files.reverse.flatMap fun f => g (inter f) := by
  rw [← List.map_reverse]
  induction files.reverse with
  | nil => rfl
  | cons f fs ih => simp only [List.map_cons, List.flatMap_cons, ih]

/-- Claim C28. For a list of more than one source file whose conversions to raw succeed
with intermediate files that each hold at least `payload_sz` bytes after the header
(`payload_sz = volume * componentSize/8 * componentCount`), `ConvertToUVF` calls
`ConvertRAWDataset` on the merged file `strTempDir + ".merged_time_filename"` with header
skip 0 and as many timesteps as there are files, and the bytes it has written to that file
are the first `payload_sz` bytes of each intermediate file, the files taken in the reverse
of the order in which they were given: the chunk of timestep `i` is the payload of the
`i`-th file from the end, so timestep 0 is the last file of the list. -/
theorem C28_merged_reverse (W : ConvWorld) (fuel : Nat) (files : List String)
    (strTargetFilename strTempDir : String) (bNoUserInteraction : Bool)
    (iTargetBrickSize iTargetBrickOverlap : Nat) (bQuantizeTo8Bit : Bool)
    (inter : String → String) (content : String → List Nat) (P : Nat)
    (hk : 1 < files.length)
    (hconv : ∀ tr f, f ∈ files →
      (W.ConvertToRAW tr f strTempDir bNoUserInteraction).success = true
      ∧ (W.ConvertToRAW tr f strTempDir bNoUserInteraction).strIntermediateFile = inter f
      ∧ payloadSize (W.ConvertToRAW tr f strTempDir bNoUserInteraction) = P)
    (hread : ∀ f ∈ files, ∀ tr n, W.ReadRAW tr (inter f) n
      = ((content (inter f)).drop (readPos (inter f) tr)).take n)
    (hlen : ∀ f ∈ files, P ≤ (content (inter f)).length ∧ (content (inter f)).length < 2 ^ 64)
    (hwrite : ∀ tr d, W.WriteRAW tr (strTempDir ++ ".merged_time_filename") d = d.length)
    (hinc : 0 < W.GetIncoreSize) (hfuel : P < fuel) :
    ∃ tr a,
      prepareUVF W fuel files strTargetFilename strTempDir bNoUserInteraction
          iTargetBrickSize iTargetBrickOverlap bQuantizeTo8Bit = some (UVFSetup.ready tr a true)
      ∧ a.strFilename = strTempDir ++ ".merged_time_filename"
      ∧ a.iHeaderSkip = 0
      ∧ a.timesteps = u64 files.length
      ∧ u64 (u64 (a.vVolumeSize.volume * a.iComponentSize) / 8 * a.iComponentCount) = P
      ∧ bytesWritten a.strFilename tr
          = files.reverse.flatMap (fun f => (content (inter f)).take P)
      ∧ (∀ (i : Nat) (f : String), files.reverse[i]? = some f →
          ((bytesWritten a.strFilename tr).drop (i * P)).take P = (content (inter f)).take P)
      ∧ ConvertToUVF W fuel files strTargetFilename strTempDir bNoUserInteraction
          iTargetBrickSize iTargetBrickOverlap bQuantizeTo8Bit
        = match ConvertRAWDataset (W.toWorld.after tr) fuel a with
          | none => none
          | some (b, tr2) => some (b, tr ++ tr2 ++ [Event.remove a.strFilename]) := by
  obtain ⟨tr1, out, dels, hdrs, h1, h2, h3, h4, _, h6⟩ :=
    convertToRAWLoop_ok W strTempDir bNoUserInteraction inter P
      (strTempDir ++ ".merged_time_filename") files ⟨[], none, [], [], []⟩ hconv
  have hne : files ≠ [] := by
    intro h; rw [h] at hk; simp at hk
  obtain ⟨r, rfl, hr⟩ := h6 hne
  obtain ⟨file0, rest, hfiles⟩ := List.exists_cons_of_ne_nil hne
  have hhead : files.head? = some file0 := by rw [hfiles]; rfl
  have hIne : (files.map inter).reverse ≠ [] := by
    rw [hfiles]; simp
  obtain ⟨fn0, fns, hI⟩ := List.exists_cons_of_ne_nil hIne
  have hIlen : (fn0 :: fns).length = files.length := by
    rw [← hI]; simp
  obtain ⟨del0, dels1, hdels⟩ := List.exists_cons_of_ne_nil
    (show dels ≠ [] by intro h; rw [h] at h2; simp at h2; omega)
  obtain ⟨hdr0, hdrs1, hhdrs⟩ := List.exists_cons_of_ne_nil
    (show hdrs ≠ [] by intro h; rw [h] at h3; simp at h3; omega)
  simp only [List.append_nil] at h1
  rw [hI, hdels, hhdrs] at h1
  have hw0 : bytesWritten (strTempDir ++ ".merged_time_filename")
      (tr1 ++ [Event.remove (strTempDir ++ ".merged_time_filename")]
        ++ [Event.create (strTempDir ++ ".merged_time_filename")
          (W.Create (tr1 ++ [Event.remove (strTempDir ++ ".merged_time_filename")])
            (strTempDir ++ ".merged_time_filename"))]) = [] := by
    simp only [bytesWritten_append, h4, bytesWritten, List.append_nil]
  obtain ⟨tr3, hm1, hm2⟩ := mergeFiles_copy W (strTempDir ++ ".merged_time_filename") P fuel
    content hwrite hinc hfuel
    (List.zip (fn0 :: fns) (List.zip (del0 :: dels1) (hdr0 :: hdrs1)))
    (tr1 ++ [Event.remove (strTempDir ++ ".merged_time_filename")]
      ++ [Event.create (strTempDir ++ ".merged_time_filename")
        (W.Create (tr1 ++ [Event.remove (strTempDir ++ ".merged_time_filename")])
          (strTempDir ++ ".merged_time_filename"))])
    (by
      intro x hx
      have hx1 : x.1 ∈ (files.map inter).reverse := by
        rw [hI]; exact zip_mem_fst _ _ x hx
      rw [List.mem_reverse, List.mem_map] at hx1
      obtain ⟨f, hf, hfx⟩ := hx1
      rw [← hfx]
      exact ⟨hread f hf, hlen f hf⟩)
  have hzip : (fn0 :: fns).length ≤ (List.zip (del0 :: dels1) (hdr0 :: hdrs1)).length := by
    rw [List.length_zip, ← hdels, ← hhdrs, h2, h3, hIlen]
    simp
  have hbytes : bytesWritten (strTempDir ++ ".merged_time_filename") tr3
      = files.reverse.flatMap (fun f => (content (inter f)).take P) := by
    rw [hm2, hw0, List.nil_append,
      zip_flatMap_fst (fun g => (content g).take P) _ _ hzip, ← hI, flatMap_map_reverse]
  have hprep : prepareUVF W fuel files strTargetFilename strTempDir bNoUserInteraction
      iTargetBrickSize iTargetBrickOverlap bQuantizeTo8Bit
      = some (UVFSetup.ready tr3
          { strFilename := strTempDir ++ ".merged_time_filename"
            strTargetFilename := strTargetFilename
            strTempDir := strTempDir
            iHeaderSkip := 0
            iComponentSize := r.iComponentSize
            iComponentCount := r.iComponentCount
            timesteps := u64 files.length
            bConvertEndianness := r.bConvertEndianess
            bSigned := r.bSigned
            bIsFloat := r.bIsFloat
            vVolumeSize := r.vVolumeSize
            vVolumeAspect := r.vVolumeAspect
            strDesc := r.strTitle
            strSource := "Merged from " ++ String.join (files.map fun f => f ++ ", ")
            iTargetBrickSize := iTargetBrickSize
            iTargetBrickOverlap := iTargetBrickOverlap
            eType := ElementSemanticTable.ES_UNDEFINED
            pKVPairs := none
            bQuantizeTo8Bit := bQuantizeTo8Bit } true) := by
    unfold prepareUVF
    rw [h1]
    simp only [hhead, hk, gt_iff_lt, if_true, hr, hm1]
  refine ⟨_, _, hprep, rfl, rfl, rfl, hr, hbytes, ?_, ?_⟩
  · intro i f hi
    rw [hbytes]
    exact flatMap_chunk (fun f => (content (inter f)).take P) P files.reverse
      (fun a ha => by
        rw [List.length_take]
        exact Nat.min_eq_left (hlen a (List.mem_reverse.mp ha)).1)
      i f hi
  · unfold ConvertToUVF
    rw [hprep]
    simp only [if_true]

/-- Witness of C28: the files `a` and `b`, with the intermediate files `a.raw` holding
1, 2, 3 and `b.raw` holding 4, 5, and a payload of two bytes, are merged to 4, 5, 1, 2. -/
theorem C28_merged_reverse_witness :
    ∃ tr a,
      prepareUVF (mergeWorld sampleContent) 3 ["a", "b"] "out.uvf" "tmp/" true 16 2 false
        = some (UVFSetup.ready tr a true)
      ∧ a.strFilename = "tmp/.merged_time_filename"
      ∧ a.timesteps = 2
      ∧ bytesWritten a.strFilename tr = [4, 5, 1, 2] := by
  obtain ⟨tr, a, h1, h2, _, h4, _, h6, _, _⟩ :=
    C28_merged_reverse (mergeWorld sampleContent) 3 ["a", "b"] "out.uvf" "tmp/" true 16 2
      false (fun f => f ++ ".raw") sampleContent 2 (by decide)
      (fun _ f _ => ⟨rfl, rfl, by
        show payloadSize (sampleConversion (f ++ ".raw")) = 2
        simp [payloadSize, sampleConversion, UINT64VECTOR3.volume, u64]⟩)
      (fun _ _ _ _ => rfl)
      (by
        intro f hf
        simp only [List.mem_cons, List.mem_singleton, List.not_mem_nil, or_false] at hf
        rcases hf with rfl | rfl
        · exact ⟨by decide, by decide⟩
        · exact ⟨by decide, by decide⟩)
      (fun _ _ => rfl) (by decide) (by decide)
  exact ⟨tr, a, h1, h2, h4, h6⟩

/-! ### The dynamic rebricking layer -/

theorem bricksOnAxis_dvd (d b : Nat) (hd : 0 < d) (h : b ∣ d) : bricksOnAxis d b = d / b := by
  obtain ⟨k, rfl⟩ := h
  have hb : 0 < b := Nat.pos_of_ne_zero (by rintro rfl; simp at hd)
  have hk : 0 < k := Nat.pos_of_ne_zero (by rintro rfl; simp at hd)
  unfold bricksOnAxis
  by_cases hle : b * k ≤ b
  · rw [if_pos hle, Nat.mul_div_cancel_left k hb]
    have : b * k ≤ b * 1 := by simpa using hle
    have := Nat.le_of_mul_le_mul_left this hb
    omega
  · rw [if_neg hle, Nat.mul_div_cancel_left k hb]
    have h1 : b * k + b - 1 = (b - 1) + k * b := by
      rw [Nat.mul_comm b k]; omega
    rw [h1, Nat.add_mul_div_right _ _ hb, Nat.div_eq_of_lt (by omega), Nat.zero_add]

theorem bricksOnAxis_zero (b : Nat) : bricksOnAxis 0 b = 1 := by
  unfold bricksOnAxis
  rw [if_pos (Nat.zero_le _)]

/-- One level further on, an axis has at most half the bricks, rounded up. -/
theorem bricksOnAxis_half (d b : Nat) (hb : 0 < b) :
    bricksOnAxis (d / 2) b ≤ (bricksOnAxis d b + 1) / 2 := by
  unfold bricksOnAxis
  by_cases h1 : d ≤ b
  · have h2 : d / 2 ≤ b := Nat.le_trans (Nat.div_le_self _ _) h1
    rw [if_pos h1, if_pos h2]
  · rw [if_neg h1]
    have hc : d ≤ (d + b - 1) / b * b := by
      have h3 := Nat.div_add_mod (d + b - 1) b
      have h4 := Nat.mod_lt (d + b - 1) hb
      rw [Nat.mul_comm] at h3
      omega
    have hc2 : 2 ≤ (d + b - 1) / b := by
      rw [Nat.le_div_iff_mul_le hb]
      omega
    by_cases h2 : d / 2 ≤ b
    · rw [if_pos h2]; omega
    · rw [if_neg h2]
      generalize (d + b - 1) / b = c at hc hc2
      have hq : c ≤ 2 * ((c + 1) / 2) := by omega
      have hd2 : d / 2 ≤ (c + 1) / 2 * b := by
        apply Nat.div_le_of_le_mul
        calc d ≤ c * b := hc
          _ ≤ 2 * ((c + 1) / 2) * b := Nat.mul_le_mul_right b hq
          _ = 2 * ((c + 1) / 2 * b) := Nat.mul_assoc _ _ _
      apply Nat.le_of_lt_succ
      rw [Nat.div_lt_iff_lt_mul hb, Nat.succ_mul]
      omega

/-- With enough levels allowed the ladder is built: it holds the levels up to the first one
with a single brick. -/
theorem rebrickLadder_levels (D B : UINT64VECTOR3) :
    ∀ (fuel l : Nat), D.maxVal < l + fuel → 0 < fuel →
      ∃ n, rebrickLadder D B fuel l
          = some ((List.range (n + 1)).map fun i => rebrickCount D B (l + i))
        ∧ rebrickCount D B (l + n) = ⟨1, 1, 1⟩
        ∧ ∀ i, i < n → rebrickCount D B (l + i) ≠ ⟨1, 1, 1⟩ := by
  have hstop : ∀ l, D.maxVal ≤ l → rebrickCount D B l = ⟨1, 1, 1⟩ := by
    intro l hl
    have hlt : ∀ d, d ≤ D.maxVal → d / 2 ^ l = 0 := by
      intro d hd
      exact Nat.div_eq_of_lt (Nat.lt_of_le_of_lt (Nat.le_trans hd hl) (Nat.lt_two_pow l))
    unfold rebrickCount
    have hx : D.x ≤ D.maxVal := by unfold UINT64VECTOR3.maxVal; omega
    have hy : D.y ≤ D.maxVal := by unfold UINT64VECTOR3.maxVal; omega
    have hz : D.z ≤ D.maxVal := by unfold UINT64VECTOR3.maxVal; omega
    rw [hlt _ hx, hlt _ hy, hlt _ hz, bricksOnAxis_zero, bricksOnAxis_zero,
      bricksOnAxis_zero]
  intro fuel
  induction fuel with
  | zero => intro l _ h; omega
  | succ fuel ih =>
    intro l hl _
    unfold rebrickLadder
    by_cases hone : rebrickCount D B l = ⟨1, 1, 1⟩
    · rw [if_pos hone]
      exact ⟨0, by rw [show List.range (0 + 1) = [0] from rfl]; rfl, hone,
        fun i hi => by omega⟩
    · rw [if_neg hone]
      have hlM : l < D.maxVal := by
        by_contra h
        exact hone (hstop l (by omega))
      obtain ⟨n, h1, h2, h3⟩ := ih (l + 1) (by omega) (by omega)
      refine ⟨n + 1, ?_, ?_, ?_⟩
      · rw [h1]
        simp only [Option.map_some', List.range_succ_eq_map (n + 1), List.map_cons,
          List.map_map, Nat.add_zero]
        congr 2
        apply List.map_congr_left
        intro i _
        simp only [Function.comp]
        congr 1
        omega
      · rw [← h2]; congr 1; omega
      · intro i hi
        cases i with
        | zero => simpa using hone
        | succ i =>
          have := h3 i (by omega)
          rwa [show l + 1 + i = l + (i + 1) by omega] at this

/-- Claim C21. Constructing a `DynamicBrickingDS` over a dataset whose finest-level domain
size `D` is, on some axis where it exceeds the requested brick size `B`, not evenly
divisible by it, ends in the error, however many levels are allowed, and yields no view. -/
theorem C21_uneven_throws (fuel : Nat) (D B : UINT64VECTOR3)
    (h : (B.x < D.x ∧ D.x % B.x ≠ 0) ∨ (B.y < D.y ∧ D.y % B.y ≠ 0)
      ∨ (B.z < D.z ∧ D.z % B.z ≠ 0)) :
    DynamicBrickingDS.create fuel D B = some Rebricked.runtime_error
    ∧ ∀ ds, DynamicBrickingDS.create fuel D B ≠ some (Rebricked.view ds) := by
  have hnd : nonDividing D B = true := by
    unfold nonDividing
    rcases h with ⟨h1, h2⟩ | ⟨h1, h2⟩ | ⟨h1, h2⟩ <;> simp [h1, h2]
  have hc : DynamicBrickingDS.create fuel D B = some Rebricked.runtime_error := by
    unfold DynamicBrickingDS.create
    rw [if_pos hnd]
  refine ⟨hc, fun ds hds => ?_⟩
  rw [hc] at hds
  cases hds

/-- Witness of C21: an 8x8x1 domain with the brick size 3x8x1, as in the rebricking test. -/
theorem C21_uneven_throws_witness :
    DynamicBrickingDS.create 9 ⟨8, 8, 1⟩ ⟨3, 8, 1⟩ = some Rebricked.runtime_error
    ∧ ∀ ds, DynamicBrickingDS.create 9 ⟨8, 8, 1⟩ ⟨3, 8, 1⟩ ≠ some (Rebricked.view ds) :=
  C21_uneven_throws 9 ⟨8, 8, 1⟩ ⟨3, 8, 1⟩ (Or.inl ⟨by decide, by decide⟩)

/-- Claim C22. For a domain size `D` (positive on every axis) and a requested brick size `B`
that divides `D` on every axis, the construction of a `DynamicBrickingDS` succeeds once
more than `D.maxVal` levels are allowed; its ladder holds the levels `0` to `n`, level `l`
with the brick counts of `B` over the domain `D / 2^l`; the finest level has `D / B` bricks
on every axis, an axis has at most half as many bricks (rounded up) on the next level,
level `n` is the first with a single brick, and `GetTotalBrickCount` is the sum of the
per-level brick counts. -/
theorem C22_rebrick_total (fuel : Nat) (D B : UINT64VECTOR3)
    (hD : 0 < D.x ∧ 0 < D.y ∧ 0 < D.z) (hdiv : B.x ∣ D.x ∧ B.y ∣ D.y ∧ B.z ∣ D.z)
    (hfuel : D.maxVal < fuel) :
    ∃ ds n, DynamicBrickingDS.create fuel D B = some (Rebricked.view ds)
      ∧ ds.ladder = (List.range (n + 1)).map (rebrickCount D B)
      ∧ ds.GetTotalBrickCount
          = ((List.range (n + 1)).map fun l =>
              (rebrickCount D B l).x * (rebrickCount D B l).y * (rebrickCount D B l).z).sum
      ∧ rebrickCount D B 0 = ⟨D.x / B.x, D.y / B.y, D.z / B.z⟩
      ∧ rebrickCount D B n = ⟨1, 1, 1⟩
      ∧ (∀ l, l < n → rebrickCount D B l ≠ ⟨1, 1, 1⟩)
      ∧ (∀ l, (rebrickCount D B (l + 1)).x ≤ ((rebrickCount D B l).x + 1) / 2
          ∧ (rebrickCount D B (l + 1)).y ≤ ((rebrickCount D B l).y + 1) / 2
          ∧ (rebrickCount D B (l + 1)).z ≤ ((rebrickCount D B l).z + 1) / 2) := by
  obtain ⟨hx, hy, hz⟩ := hD
  obtain ⟨dx, dy, dz⟩ := hdiv
  have hbx : 0 < B.x := Nat.pos_of_dvd_of_pos dx hx
  have hby : 0 < B.y := Nat.pos_of_dvd_of_pos dy hy
  have hbz : 0 < B.z := Nat.pos_of_dvd_of_pos dz hz
  have hnd : nonDividing D B = false := by
    unfold nonDividing
    simp [Nat.mod_eq_zero_of_dvd dx, Nat.mod_eq_zero_of_dvd dy, Nat.mod_eq_zero_of_dvd dz]
  obtain ⟨n, h1, h2, h3⟩ := rebrickLadder_levels D B fuel 0
    (by omega) (by omega)
  simp only [Nat.zero_add] at h1 h2 h3
  have hhalf : ∀ d l, d / 2 ^ (l + 1) = d / 2 ^ l / 2 := by
    intro d l
    rw [pow_succ, Nat.div_div_eq_div_mul]
  refine ⟨⟨D, B, (List.range (n + 1)).map (rebrickCount D B)⟩, n, ?_, rfl, ?_, ?_, h2, h3, ?_⟩
  · unfold DynamicBrickingDS.create
    rw [hnd, h1]
    rfl
  · unfold DynamicBrickingDS.GetTotalBrickCount
    simp only [List.map_map]
    rfl
  · unfold rebrickCount
    simp only [pow_zero, Nat.div_one]
    rw [bricksOnAxis_dvd _ _ hx dx, bricksOnAxis_dvd _ _ hy dy, bricksOnAxis_dvd _ _ hz dz]
  · intro l
    unfold rebrickCount
    simp only [hhalf]
    exact ⟨bricksOnAxis_half _ _ hbx, bricksOnAxis_half _ _ hby, bricksOnAxis_half _ _ hbz⟩

/-- Witness of C22: the 8x8x1 domain of the rebricking test, rebricked to 4x8x1 and to
8x4x1, has three bricks in total, two on the finest level and one on the next. -/
theorem C22_rebrick_total_witness :
    (∃ ds, DynamicBrickingDS.create 9 ⟨8, 8, 1⟩ ⟨4, 8, 1⟩ = some (Rebricked.view ds)
      ∧ ds.ladder = [⟨2, 1, 1⟩, ⟨1, 1, 1⟩] ∧ ds.GetTotalBrickCount = 3)
    ∧ (∃ ds, DynamicBrickingDS.create 9 ⟨8, 8, 1⟩ ⟨8, 4, 1⟩ = some (Rebricked.view ds)
      ∧ ds.ladder = [⟨1, 2, 1⟩, ⟨1, 1, 1⟩] ∧ ds.GetTotalBrickCount = 3) := by
  obtain ⟨ds1, _, h1, _⟩ := C22_rebrick_total 9 ⟨8, 8, 1⟩ ⟨4, 8, 1⟩
    ⟨by decide, by decide, by decide⟩ ⟨by decide, by decide, by decide⟩ (by decide)
  obtain ⟨ds2, _, h2, _⟩ := C22_rebrick_total 9 ⟨8, 8, 1⟩ ⟨8, 4, 1⟩
    ⟨by decide, by decide, by decide⟩ ⟨by decide, by decide, by decide⟩ (by decide)
  have e1 : DynamicBrickingDS.create 9 ⟨8, 8, 1⟩ ⟨4, 8, 1⟩
      = some (Rebricked.view ⟨⟨8, 8, 1⟩, ⟨4, 8, 1⟩, [⟨2, 1, 1⟩, ⟨1, 1, 1⟩]⟩) := rfl
  have e2 : DynamicBrickingDS.create 9 ⟨8, 8, 1⟩ ⟨8, 4, 1⟩
      = some (Rebricked.view ⟨⟨8, 8, 1⟩, ⟨8, 4, 1⟩, [⟨1, 2, 1⟩, ⟨1, 1, 1⟩]⟩) := rfl
  rw [e1] at h1
  rw [e2] at h2
  injection h1 with h1
  injection h1 with h1
  injection h2 with h2
  injection h2 with h2
  subst h1
  subst h2
  exact ⟨⟨_, e1, rfl, rfl⟩, ⟨_, e2, rfl, rfl⟩⟩

end Tuvok
